import Mathlib

/-!
# CSFIO: the encrypted paging layer of `csfio.c` / `csfio.h`

A shallow embedding of the page codec, the page transport and the range
orchestrator (`csf_read`, `csf_write`, `csf_seek`, `csf_truncate`,
`csf_file_size`), followed by theorems about them.

Conventions of the embedding.

* Every C integer is an `Int`.  A value stored in an `int` goes through `i32`,
  a value stored in an `off_t` through `i64`, a value stored in a `size_t`
  through `u64`; `/` and `%` of C are `Int.tdiv` and `Int.tmod`.
* Memory buffers and the backing file are lists of bytes (`List Nat`).
* The block cipher, the random generator and the faults of the descriptor are
  external to the repository; they are the fields of `Env`.
* `assert` does not stop the embedding: a violated assertion is recorded in
  `World.assert_failed` and execution goes on as in an `NDEBUG` build.
-/

namespace CSF

/-! ## Machine integers -/

/-- Conversion to `int` (32 bit, two's complement). -/
@[irreducible]
def i32 (x : Int) : Int := (x + 2147483648) % 4294967296 - 2147483648

/-- Conversion to `off_t` / `ssize_t` (64 bit, two's complement). -/
@[irreducible]
def i64 (x : Int) : Int := (x + 9223372036854775808) % 18446744073709551616 - 9223372036854775808

/-- Conversion to `unsigned int` (32 bit). -/
@[irreducible]
def u32 (x : Int) : Int := x % 4294967296

/-- Conversion to `size_t` (64 bit, unsigned). -/
@[irreducible]
def u64 (x : Int) : Int := x % 18446744073709551616

/-! ## Constants of `csfio.h` and `csfio.c` -/

/-- The macro `HDR_SZ` of `csfio.h`. -/
def HDR_SZ : Int := 0

/-- The macro `PAGE_MAGIC_NUM` of `csfio.h`. -/
def PAGE_MAGIC_NUM : Int := 0xCAFEBABE

/-- The macro `RETRYCOUNT` of `csfio.c`. -/
def RETRYCOUNT : Nat := 3

/-- The value of `sizeof(CSF_PAGE_HEADER)`: two `int32_t` fields. -/
def sizeof_CSF_PAGE_HEADER : Int := 8

/-- The `whence` value `SEEK_SET` of `unistd.h`. -/
def SEEK_SET : Int := 0

/-- The `whence` value `SEEK_CUR` of `unistd.h`. -/
def SEEK_CUR : Int := 1

/-- The `whence` value `SEEK_END` of `unistd.h`. -/
def SEEK_END : Int := 2

/-! ## External collaborators and states -/

/-- The collaborators outside the repository: the cipher selected by the macro
`CIPHER` (its block size, its IV length, encryption and decryption with padding
disabled, each taking key, IV and input), the generator behind
`RAND_pseudo_bytes` (`rand n j` is byte `j` of draw number `n`), and the faults
of the descriptor (`read_fails p` / `write_fails p`: a `read` / `write` issued
at descriptor offset `p` returns -1, on every attempt). -/
structure Env where
  block_size : Int
  iv_length : Int
  encrypt : List Nat → List Nat → List Nat → List Nat
  decrypt : List Nat → List Nat → List Nat → List Nat
  rand : Nat → Nat → Nat
  read_fails : Nat → Bool
  write_fails : Nat → Bool

/-- Everything behind the descriptor `fh`: the bytes of the backing file, the
offset of the descriptor, the number of draws made from the random generator
and the record of a violated `assert`. -/
structure World where
  bytes : List Nat
  pos : Nat
  rng : Nat
  assert_failed : Bool
deriving DecidableEq, Repr

/-- The struct `CSF_CTX` of `csfio.h`. -/
structure CSF_CTX where
  fh : Int
  seek_ptr : Int
  file_sz : Int
  encrypted : Int
  key_sz : Int
  data_sz : Int
  block_sz : Int
  iv_sz : Int
  page_header_sz : Int
  page_sz : Int
  file_header_check : Int
  key_data : List Nat
  page_buffer : List Nat
  scratch_buffer : List Nat
  csf_buffer : List Nat
  fileFlag : Int
  seekPastEndOfFile : Int
deriving DecidableEq, Repr

/-- The buffer of the context that the `data` argument of `csf_read_page`
points to: `ctx->csf_buffer` in `csf_read` and `csf_write`, `ctx->page_buffer`
in `csf_file_size`. -/
inductive Buf where
  | page_buffer
  | csf_buffer
deriving DecidableEq, Repr

/-! ## Memory and descriptor primitives -/

/-- The call `memcpy(dst + off, src, n)`: `src` is the list that starts at the
source pointer.  Within the bounds of both buffers the length of `dst` is
kept; C leaves a copy beyond them undefined. -/
def memcpy (dst : List Nat) (off : Nat) (src : List Nat) (n : Nat) : List Nat :=
  dst.take off ++ src.take n ++ dst.drop (off + n)

/-- The call `memset(dst + off, 0, n)`. -/
def memset0 (dst : List Nat) (off : Nat) (n : Nat) : List Nat :=
  dst.take off ++ List.replicate n 0 ++ dst.drop (off + n)

/-- Little-endian bytes of an `int32_t` (the host order of the page header). -/
def le32 (x : Int) : List Nat :=
  let u := (u32 x).toNat
  [u % 256, u / 256 % 256, u / 65536 % 256, u / 16777216 % 256]

/-- The `int32_t` stored little-endian at offset `off` of a buffer. -/
def rd32 (b : List Nat) (off : Nat) : Int :=
  i32 (Int.ofNat (b.getD off 0 + 256 * b.getD (off + 1) 0 + 65536 * b.getD (off + 2) 0
    + 16777216 * b.getD (off + 3) 0))

/-- The call `lseek(fh, off, SEEK_SET)`: the new world and the return value; a
negative target fails with -1 (`EINVAL`) and leaves the offset alone. -/
def sys_lseek_set (w : World) (off : Int) : World × Int :=
  if off < 0 then (w, -1) else ({ w with pos := off.toNat }, off)

/-- The call `read(fh, buf, count)`: the new world, the return value and the
bytes delivered.  Without a fault it delivers the bytes of the file from the
descriptor offset on, at most `count` of them, and advances the offset. -/
def sys_read (env : Env) (w : World) (count : Nat) : World × Int × List Nat :=
  if env.read_fails w.pos then (w, -1, [])
  else
    let chunk := (w.bytes.drop w.pos).take count
    ({ w with pos := w.pos + chunk.length }, Int.ofNat chunk.length, chunk)

/-- The call `write(fh, buf, count)` with `buf` the `count` bytes to write: the
new world and the return value.  Without a fault it stores all the bytes at the
descriptor offset (a gap between the end of the file and the offset reads as
zeros) and advances the offset. -/
def sys_write (env : Env) (w : World) (buf : List Nat) : World × Int :=
  if env.write_fails w.pos then (w, -1)
  else
    ({ w with
        bytes := w.bytes.take w.pos ++ List.replicate (w.pos - w.bytes.length) 0 ++ buf
                   ++ w.bytes.drop (w.pos + buf.length),
        pos := w.pos + buf.length }, Int.ofNat buf.length)

/-- The call `ftruncate(fh, length)`: the new world and the return value; a
negative length fails with -1, a length beyond the end extends with zeros. -/
def sys_ftruncate (w : World) (length : Int) : World × Int :=
  if length < 0 then (w, -1)
  else
    ({ w with bytes := w.bytes.take length.toNat
                ++ List.replicate (length.toNat - w.bytes.length) 0 }, 0)

/-- The retry loop `while ((bytes_read = read(...)) < 0 && trycount-- > 0)` of
`csf_read_page`, entered with `trycount` retries left. -/
def read_retry (env : Env) (w : World) (count : Nat) : Nat → World × Int × List Nat
  | 0 => sys_read env w count
  | trycount + 1 =>
    let r := sys_read env w count
    if r.2.1 < 0 then read_retry env r.1 count trycount else r

/-- The retry loop `while ((bytes_write = write(...)) < 0 && trycount-- > 0)`
of `csf_write_page`, entered with `trycount` retries left. -/
def write_retry (env : Env) (w : World) (buf : List Nat) : Nat → World × Int
  | 0 => sys_write env w buf
  | trycount + 1 =>
    let r := sys_write env w buf
    if r.2 < 0 then write_retry env r.1 buf trycount else r

/-! ## Context creation and geometry -/

/-- The function `csf_ctx_init`: the context it stores in `*ctx_out`, its
return value, and `true` when one of its four `assert`s on the geometry is
violated (the default build aborts there, so that the first two components are
then never seen by a caller).  The buffers come from `calloc`, hence zeroed. -/
def csf_ctx_init (env : Env) (fh : Int) (keydata : List Nat) (key_sz page_sz flags : Int) :
    CSF_CTX × Int × Bool :=
  let block_sz := i32 env.block_size
  let iv_sz := i32 env.iv_length
  let page_header_sz :=
    if Int.tmod sizeof_CSF_PAGE_HEADER (u64 block_sz) = 0
    then i32 (Int.tdiv sizeof_CSF_PAGE_HEADER (u64 block_sz))
    else i32 (Int.tdiv sizeof_CSF_PAGE_HEADER (u64 block_sz) + u64 block_sz)
  let data_sz := i32 (page_sz - iv_sz - page_header_sz)
  let assert_failed : Bool :=
    decide (¬ (Int.tmod iv_sz block_sz = 0 ∧ Int.tmod page_header_sz block_sz = 0 ∧
      Int.tmod data_sz block_sz = 0 ∧ Int.tmod page_sz block_sz = 0))
  ({ fh := fh, seek_ptr := 0, file_sz := 0, encrypted := 1, key_sz := key_sz,
     data_sz := data_sz, block_sz := block_sz, iv_sz := iv_sz,
     page_header_sz := page_header_sz, page_sz := page_sz, file_header_check := 0,
     key_data := memcpy (List.replicate key_sz.toNat 0) 0 keydata key_sz.toNat,
     page_buffer := List.replicate page_sz.toNat 0,
     scratch_buffer := List.replicate page_sz.toNat 0,
     csf_buffer := List.replicate page_sz.toNat 0,
     fileFlag := flags, seekPastEndOfFile := 0 }, 0, assert_failed)

/-- The function `csf_page_count_for_file`: the descriptor offset is saved,
moved to the end to learn the length, and restored (a descriptor offset is a
non-negative `off_t`, which its passage through `size_t` keeps). -/
def csf_page_count_for_file (ctx : CSF_CTX) (w : World) : World × Int :=
  let cur_offset := Int.ofNat w.pos
  let w1 : World := { w with pos := w.bytes.length }
  let count := u64 (Int.tdiv (Int.ofNat w.bytes.length - HDR_SZ) ctx.page_sz)
  ((sys_lseek_set w1 cur_offset).1, i32 count)

/-- The function `csf_pageno_for_offset`; its parameter `offset` is an `int`. -/
def csf_pageno_for_offset (ctx : CSF_CTX) (offset : Int) : Int :=
  Int.tdiv (i32 offset) ctx.data_sz

/-- The function `csf_page_count_for_length`; its parameter `length` is an
`int`. -/
def csf_page_count_for_length (ctx : CSF_CTX) (length : Int) : Int :=
  let count := i32 (Int.tdiv (i32 length) ctx.data_sz)
  if Int.tmod (i32 length) ctx.data_sz ≠ 0 then i32 (count + 1) else count

/-- The function `lower_cutoff` on `size_t` values. -/
def lower_cutoff (req_end page_end file_end : Int) : Int :=
  let lowest := if req_end < page_end then req_end else page_end
  if lowest < file_end then lowest else file_end

/-! ## File header

With `HDR_SZ == 0` both header functions return at their first statement
(`if(HDR_SZ==0) return 0;`); the statements after it cannot be reached and are
not embedded. -/

/-- The function `csf_read_header` under `HDR_SZ == 0`. -/
def csf_read_header (ctx : CSF_CTX) (w : World) : CSF_CTX × World × Int :=
  (ctx, w, 0)

/-- The function `csf_write_header` under `HDR_SZ == 0`. -/
def csf_write_header (ctx : CSF_CTX) (w : World) : CSF_CTX × World × Int :=
  (ctx, w, 0)

/-! ## Page transport and codec -/

/-- The loop `for(;read_sz < to_read;)` of `csf_read_page` on the raw-page
buffer.  The result is the buffer, the world and `true` when the loop executed
one of its two `return 0` statements (`false` when it ended by its condition or
by `break`).  Every turn that does not leave adds at least one byte to
`read_sz`, so `to_read + 1` turns of fuel are never used up. -/
def read_page_loop (env : Env) (to_read : Int) :
    Nat → List Nat → World → Int → Bool → List Nat × World × Bool
  | 0, page_buffer, w, _, _ => (page_buffer, w, false)
  | fuel + 1, page_buffer, w, read_sz, read_any_data =>
    if read_sz < u64 to_read then
      let r := read_retry env w (u64 (to_read - read_sz)).toNat RETRYCOUNT
      let bytes_read := r.2.1
      if bytes_read < 0 then
        if read_any_data then (page_buffer, r.1, true) else (page_buffer, r.1, false)
      else
        let page_buffer1 := memcpy page_buffer read_sz.toNat r.2.2 r.2.2.length
        if bytes_read < 1 then (page_buffer1, r.1, true)
        else read_page_loop env to_read fuel page_buffer1 r.1 (u64 (read_sz + bytes_read)) true
    else (page_buffer, w, false)

/-- The codec half of `csf_read_page` (from `if(ctx->encrypted)` to the final
`return header.data_sz`), entered with the raw page in `ctx->page_buffer`:
decryption into the scratch buffer, validation of the header and the copy of
the payload into the buffer `dst`. -/
def read_page_decode (env : Env) (ctx : CSF_CTX) (w : World) (dst : Buf) :
    CSF_CTX × World × Int :=
  let iv := ctx.page_buffer.take ctx.iv_sz.toNat
  let input := (ctx.page_buffer.drop ctx.iv_sz.toNat).take
    (ctx.page_header_sz + ctx.data_sz).toNat
  let out := if ctx.encrypted ≠ 0 then env.decrypt ctx.key_data iv input else input
  let scratch := memcpy ctx.scratch_buffer 0 out out.length
  let w1 := if ctx.encrypted ≠ 0 ∧ i32 (Int.ofNat out.length) ≠ ctx.page_header_sz + ctx.data_sz
    then { w with assert_failed := true } else w
  let magic := rd32 scratch 0
  let data_sz0 := rd32 scratch 4
  let data_sz1 := if data_sz0 > ctx.data_sz then 0 else data_sz0
  let data_sz2 := if u32 magic ≠ PAGE_MAGIC_NUM then 0 else data_sz1
  let payload := scratch.drop ctx.page_header_sz.toNat
  let ctx1 := { ctx with scratch_buffer := scratch }
  let ctx2 := match dst with
    | Buf.page_buffer =>
      { ctx1 with page_buffer := memcpy ctx1.page_buffer 0 payload (u64 data_sz2).toNat }
    | Buf.csf_buffer =>
      { ctx1 with csf_buffer := memcpy ctx1.csf_buffer 0 payload (u64 data_sz2).toNat }
  (ctx2, w1, u64 data_sz2)

/-- The function `csf_read_page`: the new context, the new world and the
`size_t` it returns.  `dst` names the buffer that `data` points to. -/
def csf_read_page (env : Env) (ctx : CSF_CTX) (w : World) (pgno : Int) (dst : Buf) :
    CSF_CTX × World × Int :=
  if pgno < 0 then (ctx, w, 0)
  else
    let start_offset := i32 (HDR_SZ + pgno * ctx.page_sz)
    let cur_offset := Int.ofNat w.pos
    let to_read := ctx.page_sz
    let w1 := if cur_offset ≠ start_offset then (sys_lseek_set w start_offset).1 else w
    let lp := read_page_loop env to_read (to_read.toNat + 1) ctx.page_buffer w1 0 false
    let ctx1 := { ctx with page_buffer := lp.1 }
    if lp.2.2 then (ctx1, lp.2.1, 0)
    else read_page_decode env ctx1 lp.2.1 dst

/-- The loop `for(;write_sz < to_write;)` of `csf_write_page`: the world and
`true` when the loop executed `return -1`.  A `write` that does not fail stores
every byte it is given, so `to_write + 1` turns of fuel are never used up. -/
def write_page_loop (env : Env) (to_write : Int) (page_buffer : List Nat) :
    Nat → World → Int → World × Bool
  | 0, w, _ => (w, false)
  | fuel + 1, w, write_sz =>
    if write_sz < u64 to_write then
      let buf := (page_buffer.drop write_sz.toNat).take (u64 (to_write - write_sz)).toNat
      let r := write_retry env w buf RETRYCOUNT
      if r.2 < 0 then (r.1, true)
      else write_page_loop env to_write page_buffer fuel r.1 (u64 (write_sz + r.2))
    else (w, false)

/-- The codec half of `csf_write_page` (from `assert(data_sz <= ctx->data_sz)`
to the end of the encryption): header and payload go to the scratch buffer, a
fresh IV and the (encrypted) scratch region go to the raw-page buffer. -/
def write_page_encode (env : Env) (ctx : CSF_CTX) (w : World) (data : List Nat) (data_sz : Int) :
    CSF_CTX × World :=
  let w0 := if data_sz ≤ u64 ctx.data_sz then w else { w with assert_failed := true }
  let header_data_sz := i32 data_sz
  let header_magic := i32 PAGE_MAGIC_NUM
  let iv := (List.range ctx.iv_sz.toNat).map (env.rand w0.rng)
  let w1 := { w0 with rng := w0.rng + 1 }
  let page_buffer1 := memcpy ctx.page_buffer 0 iv ctx.iv_sz.toNat
  let scratch1 := memcpy ctx.scratch_buffer 0 (le32 header_magic ++ le32 header_data_sz)
    sizeof_CSF_PAGE_HEADER.toNat
  let scratch2 := memcpy scratch1 ctx.page_header_sz.toNat data data_sz.toNat
  let input := scratch2.take (ctx.page_header_sz + ctx.data_sz).toNat
  let out := if ctx.encrypted ≠ 0
    then env.encrypt ctx.key_data (page_buffer1.take ctx.iv_sz.toNat) input else input
  let page_buffer2 := memcpy page_buffer1 ctx.iv_sz.toNat out out.length
  let w2 := if ctx.encrypted ≠ 0 ∧ i32 (Int.ofNat out.length) ≠ ctx.page_header_sz + ctx.data_sz
    then { w1 with assert_failed := true } else w1
  ({ ctx with page_buffer := page_buffer2, scratch_buffer := scratch2 }, w2)

/-- The function `csf_write_page`: the new context, the new world and the
`size_t` it returns (`u64 (-1)` for `return -1`).  `data` is the buffer the
argument points to, `data_sz` the `size_t` argument. -/
def csf_write_page (env : Env) (ctx : CSF_CTX) (w : World) (pgno : Int) (data : List Nat)
    (data_sz : Int) : CSF_CTX × World × Int :=
  let start_offset := i32 (HDR_SZ + pgno * ctx.page_sz)
  let cur_offset := Int.ofNat w.pos
  let to_write := ctx.page_sz
  let e := write_page_encode env ctx w data data_sz
  let sk := if cur_offset ≠ start_offset then sys_lseek_set e.2 start_offset else (e.2, 0)
  if cur_offset ≠ start_offset ∧ sk.2 < 0 then (e.1, sk.1, u64 (-1))
  else
    let lp := write_page_loop env to_write e.1.page_buffer (to_write.toNat + 1) sk.1 0
    if lp.2 then (e.1, lp.1, u64 (-1))
    else (e.1, lp.1, data_sz)

/-! ## Range orchestrator -/

/-- The function `csf_file_size`: the new context, the new world and the
`off_t` it returns.  The page is decoded into `ctx->page_buffer`. -/
def csf_file_size (env : Env) (ctx : CSF_CTX) (w : World) : CSF_CTX × World × Int :=
  let pc := csf_page_count_for_file ctx w
  let page_count := pc.2
  let r := csf_read_page env ctx pc.1 (i32 (page_count - 1)) Buf.page_buffer
  let data_sz := i32 r.2.2
  if data_sz < 0 then (r.1, r.2.1, -1)
  else if page_count = 0 then (r.1, r.2.1, data_sz)
  else (r.1, r.2.1, i32 ((page_count - 1) * r.1.data_sz + data_sz))

/-- The function `csf_truncate`; its parameter `offset` is an `int`. -/
def csf_truncate (ctx : CSF_CTX) (w : World) (offset : Int) : CSF_CTX × World × Int :=
  let true_offset := i32 (HDR_SZ + csf_pageno_for_offset ctx (i32 offset) * ctx.page_sz)
  let r := sys_ftruncate w true_offset
  (ctx, r.1, r.2)

/-- The function `csf_seek`: the new context, the new world and the `off_t` it
returns. -/
def csf_seek (env : Env) (ctx : CSF_CTX) (w : World) (offset : Int) (whence : Int) :
    CSF_CTX × World × Int :=
  if whence = SEEK_SET then
    ({ ctx with seek_ptr := offset }, w, offset)
  else if whence = SEEK_CUR then
    let target_offset := i64 (ctx.seek_ptr + offset)
    ({ ctx with seek_ptr := target_offset }, w, target_offset)
  else if whence = SEEK_END then
    let r := csf_file_size env ctx w
    let size := i32 r.2.2
    let target_offset := if size < 0 then r.1.seek_ptr else i64 (size + offset)
    ({ r.1 with seek_ptr := target_offset }, r.2.1, target_offset)
  else (ctx, w, -1)

/-- The loop variables of `csf_read` that outlive one turn of its loop. -/
structure ReadVars where
  databuf : List Nat
  start_offset : Int
  lastbyte_to_read : Int
  total_bytes_read : Int
  data_offset : Int
deriving DecidableEq, Repr

/-- One turn of the loop of `csf_read`, for the loop counter `i`: the state
after the turn and `true` when the loop goes on (`false` for `break`). -/
def csf_read_turn (env : Env) (start_page page_count_to_EOF : Int) (i : Int) (ctx : CSF_CTX)
    (w : World) (v : ReadVars) : (CSF_CTX × World × ReadVars) × Bool :=
  let ctx0 := if i > page_count_to_EOF then { ctx with seekPastEndOfFile := 1 } else ctx
  let r := csf_read_page env ctx0 w (i32 (start_page + i)) Buf.csf_buffer
  let ctx1 := r.1
  let data_bytes_in_page := i32 r.2.2
  if data_bytes_in_page < 0 then ((ctx1, r.2.1, v), false)
  else
    let lastbyte_within_page := u64 (if v.lastbyte_to_read < ctx1.data_sz
      then i32 (v.lastbyte_to_read + v.start_offset) else v.lastbyte_to_read)
    let endcutoff := lower_cutoff lastbyte_within_page (u64 ctx1.data_sz)
      (u64 data_bytes_in_page)
    if endcutoff > u64 v.start_offset then
      let bytes_to_copy := u64 (endcutoff - u64 v.start_offset)
      let v1 : ReadVars := {
        databuf := memcpy v.databuf v.data_offset.toNat
          (ctx1.csf_buffer.drop v.start_offset.toNat) bytes_to_copy.toNat,
        start_offset := 0,
        lastbyte_to_read := i32 (v.lastbyte_to_read - bytes_to_copy),
        total_bytes_read := i32 (v.total_bytes_read + bytes_to_copy),
        data_offset := i32 (v.data_offset + bytes_to_copy) }
      let ctx2 := { ctx1 with
        seek_ptr := i64 (ctx1.seek_ptr + bytes_to_copy),
        csf_buffer := memset0 ctx1.csf_buffer 0 ctx1.page_sz.toNat }
      ((ctx2, r.2.1, v1), true)
    else ((ctx1, r.2.1, v), false)

/-- The loop `for(i = 0; i < pages_to_read && i < total_page_count; i++)` of
`csf_read`, from turn `i` on; `fuel` bounds the turns that remain. -/
def csf_read_loop (env : Env) (start_page pages_to_read total_page_count page_count_to_EOF : Int) :
    Nat → Int → CSF_CTX → World → ReadVars → CSF_CTX × World × ReadVars
  | 0, _, ctx, w, v => (ctx, w, v)
  | fuel + 1, i, ctx, w, v =>
    if i < pages_to_read ∧ i < total_page_count then
      let t := csf_read_turn env start_page page_count_to_EOF i ctx w v
      if t.2 then
        csf_read_loop env start_page pages_to_read total_page_count page_count_to_EOF
          fuel (i + 1) t.1.1 t.1.2.1 t.1.2.2
      else t.1
    else (ctx, w, v)

/-- The function `csf_read`: the new context, the new world, the caller's
buffer `databuf` after the call and the `size_t` it returns. -/
def csf_read (env : Env) (ctx : CSF_CTX) (w : World) (databuf : List Nat) (nbyte : Int) :
    CSF_CTX × World × List Nat × Int :=
  let start_page := i32 (csf_pageno_for_offset ctx ctx.seek_ptr)
  let start_offset := i32 (Int.tmod ctx.seek_ptr ctx.data_sz)
  let lastbyte_to_read0 := i32 (nbyte + start_offset)
  let pages_to_read := csf_page_count_for_length ctx lastbyte_to_read0
  let lastbyte_to_read := i32 nbyte
  let pc := csf_page_count_for_file ctx w
  let total_page_count := pc.2
  let page_count_to_EOF := i32 (total_page_count - start_page)
  let hd := if ctx.seek_ptr = 0 ∧ total_page_count > 0
    then csf_read_header ctx pc.1 else (ctx, pc.1, 0)
  if hd.2.2 < 0 then (hd.1, hd.2.1, databuf, u64 hd.2.2)
  else
    let v0 : ReadVars := {
      databuf := databuf,
      start_offset := start_offset,
      lastbyte_to_read := lastbyte_to_read,
      total_bytes_read := 0,
      data_offset := 0 }
    let r := csf_read_loop env start_page pages_to_read total_page_count page_count_to_EOF
      pages_to_read.toNat 0 hd.1 hd.2.1 v0
    (r.1, r.2.1, r.2.2.databuf, u64 r.2.2.total_bytes_read)

/-- The loop `for(i = page_count; i < start_page - 1; i++)` of the back-fill in
`csf_write`, from page `i` on. -/
def csf_write_fill_loop (env : Env) (start_page : Int) :
    Nat → Int → CSF_CTX → World → CSF_CTX × World
  | 0, _, ctx, w => (ctx, w)
  | fuel + 1, i, ctx, w =>
    if i < start_page - 1 then
      let r := csf_write_page env ctx w i ctx.csf_buffer (u64 ctx.data_sz)
      csf_write_fill_loop env start_page fuel (i + 1) r.1 r.2.1
    else (ctx, w)

/-- The loop variables of `csf_write` that outlive one turn of its main loop. -/
structure WriteVars where
  to_write : Int
  start_offset : Int
  data_offset : Int
deriving DecidableEq, Repr

/-- One turn of the main loop of `csf_write`, for the loop counter `i`: the
state after the turn and `true` when the loop goes on (`false` for `break`). -/
def csf_write_turn (env : Env) (data : List Nat) (start_page page_count : Int) (i : Int)
    (ctx : CSF_CTX) (w : World) (v : WriteVars) : (CSF_CTX × World × WriteVars) × Bool :=
  let data_sz := if v.to_write < ctx.data_sz then v.to_write else ctx.data_sz
  let l_data_sz := i32 (data_sz - v.start_offset)
  let rd := if page_count > i32 (start_page + i)
    then csf_read_page env ctx w (i32 (start_page + i)) Buf.csf_buffer
    else (ctx, w, 0)
  let cur_page_bytes := i32 rd.2.2
  let ctx1 := { rd.1 with
    csf_buffer := memcpy rd.1.csf_buffer v.start_offset.toNat
      (data.drop v.data_offset.toNat) (u64 l_data_sz).toNat }
  let wr := csf_write_page env ctx1 rd.2.1 (i32 (start_page + i)) ctx1.csf_buffer
    (u64 (if data_sz < cur_page_bytes then cur_page_bytes else data_sz))
  let bytes_write := i32 wr.2.2
  if bytes_write < 0 then ((wr.1, wr.2.1, v), false)
  else
    let v1 : WriteVars := {
      to_write := i32 (v.to_write - bytes_write),
      start_offset := 0,
      data_offset := i32 (v.data_offset + l_data_sz) }
    let ctx2 := { wr.1 with
      seek_ptr := i64 (wr.1.seek_ptr + l_data_sz),
      csf_buffer := memset0 wr.1.csf_buffer 0 wr.1.page_sz.toNat }
    ((ctx2, wr.2.1, v1), true)

/-- The main loop `for(i = 0; i < pages_to_write; i++)` of `csf_write`, from
turn `i` on; `data` is the caller's buffer. -/
def csf_write_loop (env : Env) (data : List Nat) (start_page pages_to_write page_count : Int) :
    Nat → Int → CSF_CTX → World → WriteVars → CSF_CTX × World × WriteVars
  | 0, _, ctx, w, v => (ctx, w, v)
  | fuel + 1, i, ctx, w, v =>
    if i < pages_to_write then
      let t := csf_write_turn env data start_page page_count i ctx w v
      if t.2 then
        csf_write_loop env data start_page pages_to_write page_count fuel (i + 1)
          t.1.1 t.1.2.1 t.1.2.2
      else t.1
    else (ctx, w, v)

/-- The back-fill of `csf_write` (the body of `if(start_page > page_count)`):
the last page is padded to full width, pages of zeros follow up to page
`start_page - 2`, and page `start_page - 1` is written with
`ctx->seek_ptr % ctx->data_sz` bytes. -/
def csf_write_backfill (env : Env) (ctx : CSF_CTX) (w : World) (start_page page_count : Int) :
    CSF_CTX × World :=
  let sl :=
    if page_count > 0 then
      let rd := csf_read_page env ctx w (i32 (page_count - 1)) Buf.csf_buffer
      let data_sz := rd.2.2
      let ctx1 := { rd.1 with
        csf_buffer := memset0 rd.1.csf_buffer data_sz.toNat
          (u64 (rd.1.data_sz - data_sz)).toNat }
      let wr := csf_write_page env ctx1 rd.2.1 (i32 (page_count - 1)) ctx1.csf_buffer
        (u64 ctx1.data_sz)
      let w1 := if wr.2.2 = u64 wr.1.data_sz then wr.2.1
        else { wr.2.1 with assert_failed := true }
      (wr.1, w1)
    else (ctx, w)
  let ctx2 := { sl.1 with csf_buffer := memset0 sl.1.csf_buffer 0 sl.1.page_sz.toNat }
  let fl := csf_write_fill_loop env start_page (start_page - 1 - page_count).toNat
    page_count ctx2 sl.2
  let gp := csf_write_page env fl.1 fl.2 (i32 (start_page - 1)) fl.1.csf_buffer
    (u64 (Int.tmod fl.1.seek_ptr fl.1.data_sz))
  (gp.1, gp.2.1)

/-- The function `csf_write`: the new context, the new world and the `size_t`
it returns.  `data` is the caller's buffer, `nbyte` the `size_t` argument. -/
def csf_write (env : Env) (ctx : CSF_CTX) (w : World) (data : List Nat) (nbyte : Int) :
    CSF_CTX × World × Int :=
  let start_page := i32 (csf_pageno_for_offset ctx ctx.seek_ptr)
  let start_offset := i32 (Int.tmod ctx.seek_ptr ctx.data_sz)
  let to_write := i32 (nbyte + start_offset)
  let pages_to_write := csf_page_count_for_length ctx to_write
  let pc := csf_page_count_for_file ctx w
  let page_count := pc.2
  let hd := if ctx.file_header_check = 0 then csf_write_header ctx pc.1 else (ctx, pc.1, 0)
  let hdrbytes_written := i32 hd.2.2
  if ctx.file_header_check = 0 ∧ (hdrbytes_written < 0 ∨ hdrbytes_written < HDR_SZ) then
    (hd.1, hd.2.1, u64 (-1))
  else
    let bf := if start_page > page_count
      then csf_write_backfill env hd.1 hd.2.1 start_page page_count else (hd.1, hd.2.1)
    let v0 : WriteVars := { to_write := to_write, start_offset := start_offset, data_offset := 0 }
    let r := csf_write_loop env data start_page pages_to_write page_count
      pages_to_write.toNat 0 bf.1 bf.2 v0
    (r.1, r.2.1, u64 r.2.2.data_offset)

/-! ## A concrete environment -/

/-- The keystream of the toy cipher `xorEnv`: byte `i` mixes the key and the IV. -/
def xorStream (key iv : List Nat) (n : Nat) : List Nat :=
  (List.range n).map (fun i => Nat.xor (key.getD (i % 32) 0) (iv.getD (i % 16) 0))

/-- A toy stream cipher with the geometry of AES-256-CBC (block and IV of 16
bytes): input and keystream are combined bytewise by exclusive or. -/
def xorCipher (key iv input : List Nat) : List Nat :=
  List.zipWith Nat.xor input (xorStream key iv input.length)

/-- An environment without faults: the toy cipher and a fixed byte sequence in
place of the random generator. -/
def xorEnv : Env :=
  { block_size := 16, iv_length := 16, encrypt := xorCipher, decrypt := xorCipher,
    rand := fun n j => (7 * n + 13 * j + 1) % 256,
    read_fails := fun _ => false, write_fails := fun _ => false }

/-- The empty backing file behind a freshly opened descriptor. -/
def emptyWorld : World := { bytes := [], pos := 0, rng := 0, assert_failed := false }

/-- The 32-byte key of the test driver, `"01234567890123456789012345678901"`. -/
def testKey : List Nat := (List.range 32).map (fun i => 48 + i % 10)

/-- The context `csf_ctx_init` creates in `xorEnv` for the page size `page_sz`. -/
def freshCtx (page_sz : Int) : CSF_CTX := (csf_ctx_init xorEnv 3 testKey 32 page_sz 2).1

/-! ## Systems and call sequences -/

/-- A context together with the world behind its descriptor. -/
abbrev Sys : Type := CSF_CTX × World

/-- The call `csf_seek(ctx, off, SEEK_SET)`, its return value dropped. -/
def seekTo (env : Env) (s : Sys) (off : Int) : Sys :=
  let r := csf_seek env s.1 s.2 off SEEK_SET
  (r.1, r.2.1)

/-- The call `csf_write(ctx, data, len(data))`: the system after the call and
the return value. -/
def writeAll (env : Env) (s : Sys) (data : List Nat) : Sys × Int :=
  let r := csf_write env s.1 s.2 data (Int.ofNat data.length)
  ((r.1, r.2.1), r.2.2)

/-- The call `csf_read(ctx, buf, n)` into a caller's buffer of `n` zero bytes:
the system after the call, the buffer after the call and the return value. -/
def readN (env : Env) (s : Sys) (n : Nat) : Sys × List Nat × Int :=
  let r := csf_read env s.1 s.2 (List.replicate n 0) (Int.ofNat n)
  ((r.1, r.2.1), r.2.2.1, r.2.2.2)

/-- The call `csf_file_size(ctx)`: its return value. -/
def sizeOf (env : Env) (s : Sys) : Int := (csf_file_size env s.1 s.2).2.2

/-- The length `csf_read_page` reports for page `pgno` of the backing file (the
`data_sz_used` the page decodes with). -/
def pageUsed (env : Env) (s : Sys) (pgno : Int) : Int :=
  (csf_read_page env s.1 s.2 pgno Buf.csf_buffer).2.2

/-- A call of the public interface with its arguments; `read` carries the
caller's buffer as it is before the call. -/
inductive Call where
  | seek (offset whence : Int)
  | read (databuf : List Nat) (nbyte : Int)
  | write (data : List Nat) (nbyte : Int)
  | truncate (offset : Int)

/-- The system after one call; return values are dropped. -/
def Call.run (env : Env) (s : Sys) : Call → Sys
  | Call.seek offset whence => let r := csf_seek env s.1 s.2 offset whence; (r.1, r.2.1)
  | Call.read databuf nbyte => let r := csf_read env s.1 s.2 databuf nbyte; (r.1, r.2.1)
  | Call.write data nbyte => let r := csf_write env s.1 s.2 data nbyte; (r.1, r.2.1)
  | Call.truncate offset => let r := csf_truncate s.1 s.2 offset; (r.1, r.2.1)

/-- The system after a sequence of calls, issued from left to right. -/
def runCalls (env : Env) (s : Sys) (cs : List Call) : Sys :=
  cs.foldl (Call.run env) s

/-- The fresh system of the scenarios: the context of `freshCtx` on an empty
backing file. -/
def freshSys (page_sz : Int) : Sys := (freshCtx page_sz, emptyWorld)

/-- A raw page laid out as `csf_write_page` does under `xorEnv`, the test key
and a zero IV, whose header holds the magic `magic` and the length field `n`
and whose payload is zero: a page of a damaged or foreign file. -/
def forgedPage (page_sz : Nat) (magic n : Int) : List Nat :=
  let iv := List.replicate 16 0
  let plain := le32 magic ++ le32 n ++ List.replicate (page_sz - 24) 0
  iv ++ xorCipher testKey iv plain

/-- The system of scenario S3: on an empty file with 512-byte pages, seek to
2000 and write `"X"`. -/
def sparseSys : Sys := (writeAll xorEnv (seekTo xorEnv (freshSys 512) 2000) [88]).1

/-- A system with 512-byte pages after `"A"` is written at offset 0 and `"B"`
at offset 480, the start of the second page. -/
def twoWritesSys : Sys :=
  (writeAll xorEnv (seekTo xorEnv (writeAll xorEnv (freshSys 512) [65]).1 480) [66]).1

/-- A world whose backing file is the single page `forgedPage 512 magic n`. -/
def forgedWorld (magic n : Int) : World :=
  { emptyWorld with bytes := forgedPage 512 magic n }

/-- The integer `h` is the smallest multiple of `b` that is at least `lo`. -/
def IsLeastMultipleGE (b lo h : Int) : Prop :=
  b ∣ h ∧ lo ≤ h ∧ ∀ m : Int, b ∣ m → lo ≤ m → h ≤ m

/-! ## Specification vocabulary -/

/-- The part of a context the page codec depends on: key, cipher switch and
the three sizes, as natural numbers. -/
structure Codec where
  key : List Nat
  encrypted : Int
  iv_sz : Nat
  hdr_sz : Nat
  data_sz : Nat

/-- The page size that goes with codec parameters. -/
def Codec.page_sz (c : Codec) : Nat := c.iv_sz + c.hdr_sz + c.data_sz

/-- The context `ctx` has the codec parameters `c`, and its three buffers have
the size `csf_ctx_init` gave them. -/
structure Shape (ctx : CSF_CTX) (c : Codec) : Prop where
  key : ctx.key_data = c.key
  enc : ctx.encrypted = c.encrypted
  iv : ctx.iv_sz = (c.iv_sz : Int)
  hdr : ctx.page_header_sz = (c.hdr_sz : Int)
  data : ctx.data_sz = (c.data_sz : Int)
  page : ctx.page_sz = (c.page_sz : Int)
  page_len : ctx.page_buffer.length = c.page_sz
  scratch_len : ctx.scratch_buffer.length = c.page_sz
  csf_len : ctx.csf_buffer.length = c.page_sz

/-- Valid geometry: the page header record fits its slot, the payload is not
empty, a page offset fits an `int`, and the region that is encrypted is a
whole number of cipher blocks. -/
structure Codec.Valid (env : Env) (c : Codec) : Prop where
  hdr_ge : 8 ≤ c.hdr_sz
  data_pos : 0 < c.data_sz
  small : c.page_sz < 2147483648
  blocks : ((c.hdr_sz + c.data_sz : Nat) : Int) % env.block_size = 0

/-- No `read` and no `write` on the descriptor fails. -/
def NoFaults (env : Env) : Prop :=
  (∀ p, env.read_fails p = false) ∧ (∀ p, env.write_fails p = false)

/-- On inputs that are a whole number of blocks the cipher keeps the length,
and decryption with the same key and IV inverts encryption. -/
def CipherOK (env : Env) : Prop :=
  ∀ key iv p, (p.length : Int) % env.block_size = 0 →
    (env.encrypt key iv p).length = p.length ∧
    env.decrypt key iv (env.encrypt key iv p) = p

/-- The raw page `raw` is what `csf_write_page` stores for the valid bytes `d`:
an IV followed by the (encrypted) header-and-payload region whose header holds
the magic and the length of `d`, and whose payload starts with `d`. -/
def IsPage (env : Env) (c : Codec) (raw d : List Nat) : Prop :=
  ∃ iv plain, iv.length = c.iv_sz ∧ plain.length = c.hdr_sz + c.data_sz ∧
    raw = iv ++ (if c.encrypted ≠ 0 then env.encrypt c.key iv plain else plain) ∧
    plain.take 8 = le32 (i32 PAGE_MAGIC_NUM) ++ le32 (Int.ofNat d.length) ∧
    (plain.drop c.hdr_sz).take d.length = d ∧ d.length ≤ c.data_sz

/-- Page `p` of the backing file `bytes` is a stored page with the valid bytes
`d`. -/
def PageAt (env : Env) (c : Codec) (bytes : List Nat) (p : Nat) (d : List Nat) : Prop :=
  IsPage env c ((bytes.drop (p * c.page_sz)).take c.page_sz) d

/-- The codec parameters of a context. -/
def codecOf (ctx : CSF_CTX) : Codec :=
  { key := ctx.key_data, encrypted := ctx.encrypted, iv_sz := ctx.iv_sz.toNat,
    hdr_sz := ctx.page_header_sz.toNat, data_sz := ctx.data_sz.toNat }

/-- The context `ctx1` differs from `ctx` at most in its three page-sized
buffers. -/
def SameButBuffers (ctx ctx1 : CSF_CTX) : Prop :=
  ctx1 = { ctx with
    page_buffer := ctx1.page_buffer,
    scratch_buffer := ctx1.scratch_buffer,
    csf_buffer := ctx1.csf_buffer }

/-- The environment `xorEnv` with a descriptor on which every `read` fails. -/
def readFailEnv : Env := { xorEnv with read_fails := fun _ => true }

/-- A system with 512-byte pages holding `"hello"`, written through a
descriptor on which every `read` fails (a file opened write-only). -/
def helloSys : Sys := (writeAll readFailEnv (freshSys 512) [104, 101, 108, 108, 111]).1

/-- A system with 512-byte pages after `"AAAAA"` is written at offset 0, `"B"`
at offset 480, and one byte is requested at offset 5, the end of page 0. -/
def staleSys : Sys :=
  (readN xorEnv (seekTo xorEnv
    (writeAll xorEnv (seekTo xorEnv (writeAll xorEnv (freshSys 512) [65, 65, 65, 65, 65]).1 480)
      [66]).1 5) 1).1

/-- The system `staleSys` after `"X"` is written at offset 483, which is offset
3 of page 1. -/
def leakSys : Sys := (writeAll xorEnv (seekTo xorEnv staleSys 483) [88]).1

/-- The result of writing a full page of `"A"` bytes as page 0 of an empty file
with 512-byte pages. -/
def afterFullPage : CSF_CTX × World × Int :=
  csf_write_page xorEnv (freshCtx 512) emptyWorld 0 (List.replicate 480 65) 480

/-- The result of then writing the one-byte page `"B"` as page 1. -/
def afterShortPage : CSF_CTX × World × Int :=
  csf_write_page xorEnv afterFullPage.1 afterFullPage.2.1 1 [66] 1

/-- The backing file `bytes` consists of exactly `N` stored pages, page `p`
holding the valid bytes `pg p`. -/
def Disk (env : Env) (c : Codec) (bytes : List Nat) (N : Nat) (pg : Nat → List Nat) : Prop :=
  bytes.length = N * c.page_sz ∧ ∀ p, p < N → PageAt env c bytes p (pg p)

/-- The valid bytes of a page after one turn of the main loop of `csf_write`:
`old` are the valid bytes the page had (none for a new page), `cb` is the
assembly buffer before the turn, and `l` bytes of `src` go to offset `so`. -/
def pageAfterWrite (old cb : List Nat) (so : Nat) (src : List Nat) (l : Nat) : List Nat :=
  (memcpy (old ++ cb.drop old.length) so src l).take (max (so + l) old.length)

/-- The context left by `afterFullPage`, switched to non-encrypted mode (the
field `encrypted` set to 0, as the comment in `csfio.h` describes for tests of
paging without encryption): its scratch buffer still holds the page of `"A"`
bytes. -/
def plainStaleCtx : CSF_CTX := { afterFullPage.1 with encrypted := 0 }

/-- Offset into the caller's buffer at which turn `k` of the main loop of
`csf_write` starts, for `n` bytes written from offset `so` of the start page
with `D` data bytes a page. -/
def turnStart (D so n k : Nat) : Nat := min (k * D) (n + so) - so

/-- The valid bytes of the stored pages after `k` turns of the main loop of
`csf_write`: `pg0` are the pages of the file of `N0` pages before the loop,
`cb0` is the assembly buffer before the first turn, `data` the caller's
buffer, `sp` the start page, `so` the offset in it and `n` the byte count. -/
def pagesAfterWrite (c : Codec) (N0 : Nat) (pg0 : Nat → List Nat) (cb0 data : List Nat)
    (sp so n k : Nat) : Nat → List Nat :=
  fun p =>
    if sp ≤ p ∧ p < sp + k then
      pageAfterWrite (if p < N0 then pg0 p else [])
        (if p = sp then cb0 else List.replicate c.page_sz 0)
        (if p = sp then so else 0)
        (data.drop (turnStart c.data_sz so n (p - sp)))
        (min (n + so - (p - sp) * c.data_sz) c.data_sz - (if p = sp then so else 0))
    else pg0 p

/-- The valid bytes of the stored pages after the back-fill of `csf_write` on
a file of `N` pages `pg`, for the start page `sp > N` and the offset `so` in
it: the last page is padded with zeros to full width, pages of zeros follow,
and page `sp - 1` holds `so` zeros. -/
def pagesAfterBackfill (c : Codec) (N : Nat) (pg : Nat → List Nat) (sp so : Nat) :
    Nat → List Nat :=
  fun p =>
    if p + 1 < N then pg p
    else if p + 1 = N then pg p ++ List.replicate (c.data_sz - (pg p).length) 0
    else if p + 1 < sp then List.replicate c.data_sz 0
    else List.replicate so 0

/-- The stored pages the main loop of `csf_write` starts from. -/
def pagesBeforeLoop (c : Codec) (N : Nat) (pg : Nat → List Nat) (sp so : Nat) :
    Nat → List Nat :=
  if N < sp then pagesAfterBackfill c N pg sp so else pg

/-- The first step of `csf_write_backfill`, named for the proofs: the last
page of the file is read, padded with zeros to `data_sz` bytes and written
back. -/
def csf_write_backfill_seal (env : Env) (ctx : CSF_CTX) (w : World) (page_count : Int) :
    CSF_CTX × World :=
  if page_count > 0 then
    let rd := csf_read_page env ctx w (i32 (page_count - 1)) Buf.csf_buffer
    let data_sz := rd.2.2
    let ctx1 := { rd.1 with
      csf_buffer := memset0 rd.1.csf_buffer data_sz.toNat
        (u64 (rd.1.data_sz - data_sz)).toNat }
    let wr := csf_write_page env ctx1 rd.2.1 (i32 (page_count - 1)) ctx1.csf_buffer
      (u64 ctx1.data_sz)
    let w1 := if wr.2.2 = u64 wr.1.data_sz then wr.2.1
      else { wr.2.1 with assert_failed := true }
    (wr.1, w1)
  else (ctx, w)

/-- The rest of `csf_write_backfill` after its first step `sl`, named for the
proofs: the assembly buffer is zeroed, the pages of zeros and the gap page
are written. -/
def csf_write_backfill_rest (env : Env) (sl : CSF_CTX × World) (start_page page_count : Int) :
    CSF_CTX × World :=
  let ctx2 := { sl.1 with csf_buffer := memset0 sl.1.csf_buffer 0 sl.1.page_sz.toNat }
  let fl := csf_write_fill_loop env start_page (start_page - 1 - page_count).toNat
    page_count ctx2 sl.2
  let gp := csf_write_page env fl.1 fl.2 (i32 (start_page - 1)) fl.1.csf_buffer
    (u64 (Int.tmod fl.1.seek_ptr fl.1.data_sz))
  (gp.1, gp.2.1)

/-- A system with 512-byte pages holding `"AAAAA"` in its one page, with the seek pointer
then moved to offset 2000, which lies in page 4 of a file that has page 0 only. -/
def gapSys : Sys := seekTo xorEnv (writeAll xorEnv (freshSys 512) [65, 65, 65, 65, 65]).1 2000

/-- Page `p` of the backing file decodes to `d`: `csf_read_page(p)` returns the length of `d`
(the `data_sz_used` of the page) and delivers the bytes `d`. -/
def Decodes (env : Env) (ctx : CSF_CTX) (w : World) (p : Nat) (d : List Nat) : Prop :=
  (csf_read_page env ctx w (p : Int) Buf.page_buffer).2.2 = (d.length : Int) ∧
  (csf_read_page env ctx w (p : Int) Buf.page_buffer).1.page_buffer.take d.length = d

/-- The environment `xorEnv` with a descriptor on which every `write` issued at the file
offset `off` fails. -/
def writeFailAt (off : Nat) : Env := { xorEnv with write_fails := fun p => decide (p = off) }

/-- The part of the byte string `content` that page `i` holds when the string is laid out in
pages of `D` data bytes. -/
def pageChunk (D : Nat) (content : List Nat) (i : Nat) : List Nat :=
  (content.drop (i * D)).take D

/-- The backing file `bytes` stores the byte string `content`: it consists of the stored
pages that hold the chunks of `content`, every page but the last one full. -/
def Stored (env : Env) (c : Codec) (bytes content : List Nat) : Prop :=
  Disk env c bytes ((content.length + c.data_sz - 1) / c.data_sz) (pageChunk c.data_sz content)

/-- The system after consecutive `csf_write` calls of the chunks, issued from left to
right. -/
def writeSeq (env : Env) (sys : Sys) (chunks : List (List Nat)) : Sys :=
  chunks.foldl (fun s ch => (writeAll env s ch).1) sys

/-- Consecutive `csf_read` calls with the request sizes `reqs`, each into a buffer of zero
bytes: for every call the buffer after the call and the return value. -/
def readSeq (env : Env) : Sys → List Nat → List (List Nat × Int)
  | _, [] => []
  | sys, n :: rest =>
    ((readN env sys n).2.1, (readN env sys n).2.2) :: readSeq env (readN env sys n).1 rest

/-- What consecutive reads deliver according to the claim, for the stored byte string `s`
and reads that start at offset `a`: each read returns `min (request, bytes remaining)` and
delivers the bytes of `s` at the current offset (the rest of its zero buffer stays zero);
the next read starts where this one ended. -/
def readSeqSpec (s : List Nat) : Nat → List Nat → List (List Nat × Int)
  | _, [] => []
  | a, n :: rest =>
    ((s.drop a).take (min n (s.length - a)) ++ List.replicate (n - min n (s.length - a)) 0,
      ((min n (s.length - a) : Nat) : Int))
      :: readSeqSpec s (a + min n (s.length - a)) rest

/-! # Theorems -/

set_option maxRecDepth 100000

/-! ## Scenarios evaluated on the code -/

/-- C3 (defect of the code): in scenario S3 (`data_sz = 480`, seek to 2000, write `"X"`) the
back-fill stores page 3 with `2000 % 480 = 80` bytes instead of 480, so reading 2001 bytes
from offset 0 returns 1601 bytes, 1600 zeros and `"X"`, not 2000 zeros and `"X"`. -/
theorem backfill_gap_page_is_short :
    pageUsed xorEnv sparseSys 3 = 80 ∧
    (readN xorEnv (seekTo xorEnv sparseSys 0) 2001).2.2 = 1601 ∧
    (readN xorEnv (seekTo xorEnv sparseSys 0) 2001).2.1.take 1601
      = List.replicate 1600 0 ++ [88] := by
  decide!

/-- C7 (defect of the code): after `"A"` is written at offset 0 and `"B"` at offset 480 the
file has two pages, and page 0, which is not the last page, decodes with `data_sz_used = 1`
while `data_sz = 480`. -/
theorem page_before_last_not_full :
    twoWritesSys.2.bytes.length = 2 * 512 ∧ twoWritesSys.1.data_sz = 480 ∧
    pageUsed xorEnv twoWritesSys 0 = 1 := by
  decide!

/-- C13: for a `whence` other than `SEEK_SET`, `SEEK_CUR` and `SEEK_END`, `csf_seek` returns
-1 and leaves the context (and the world) as they were. -/
theorem csf_seek_invalid_whence (env : Env) (ctx : CSF_CTX) (w : World) (offset whence : Int)
    (h0 : whence ≠ SEEK_SET) (h1 : whence ≠ SEEK_CUR) (h2 : whence ≠ SEEK_END) :
    csf_seek env ctx w offset whence = (ctx, w, -1) := by
  simp [csf_seek, h0, h1, h2]

theorem csf_seek_invalid_whence_witness :
    csf_seek xorEnv (freshCtx 512) emptyWorld 10 7 = (freshCtx 512, emptyWorld, -1) :=
  csf_seek_invalid_whence xorEnv (freshCtx 512) emptyWorld 10 7 (by decide) (by decide)
    (by decide)

/-- C16 (defect of the code): a fully read page with the right magic whose length field is
-1 is not reported as empty: `csf_read_page` returns `(size_t)-1`, which is not in
`[0, data_sz]`. -/
theorem negative_length_not_rejected :
    (csf_read_page xorEnv (freshCtx 512) (forgedWorld PAGE_MAGIC_NUM (-1)) 0
      Buf.csf_buffer).2.2 = 18446744073709551615 ∧ (freshCtx 512).data_sz = 480 := by
  decide!

theorem i32_of_range {x : Int} (h1 : -2147483648 ≤ x) (h2 : x < 2147483648) : i32 x = x := by
  unfold i32; omega

theorem u64_of_range {x : Int} (h1 : 0 ≤ x) (h2 : x < 18446744073709551616) : u64 x = x := by
  unfold u64; omega

/-- The header size `csf_ctx_init` computes, for a block size within `int`. -/
theorem ctx_init_header_sz (env : Env) (fh : Int) (keydata : List Nat)
    (key_sz page_sz flags : Int) (h1 : 1 ≤ env.block_size) (h2 : env.block_size < 2147483648) :
    (csf_ctx_init env fh keydata key_sz page_sz flags).1.page_header_sz =
      if Int.tmod 8 env.block_size = 0 then Int.tdiv 8 env.block_size
      else Int.tdiv 8 env.block_size + env.block_size := by
  have hb : i32 env.block_size = env.block_size := i32_of_range (by omega) h2
  have hu : u64 env.block_size = env.block_size := u64_of_range (by omega) (by omega)
  have hq : 0 ≤ Int.tdiv 8 env.block_size ∧ Int.tdiv 8 env.block_size ≤ 8 := by
    rw [Int.tdiv_eq_ediv (by omega) (by omega)]
    constructor
    · exact Int.ediv_nonneg (by omega) (by omega)
    · exact Int.ediv_le_self _ (by omega)
  have hq0 : 9 ≤ env.block_size → Int.tdiv 8 env.block_size = 0 := by
    intro h9
    rw [Int.tdiv_eq_ediv (by omega) (by omega)]
    exact Int.ediv_eq_zero_of_lt (by omega) (by omega)
  simp only [csf_ctx_init, hb, sizeof_CSF_PAGE_HEADER]
  simp only [hu]
  split
  · exact i32_of_range (by omega) (by omega)
  · by_cases h9 : 9 ≤ env.block_size
    · rw [hq0 h9]; exact i32_of_range (by omega) (by omega)
    · exact i32_of_range (by omega) (by omega)

theorem i64_of_range {x : Int} (h1 : -9223372036854775808 ≤ x) (h2 : x < 9223372036854775808) :
    i64 x = x := by
  unfold i64; omega

theorem u32_of_range {x : Int} (h1 : 0 ≤ x) (h2 : x < 4294967296) : u32 x = x := by
  unfold u32; omega

theorem i32_nat {n : Nat} (h : n < 2147483648) : i32 (n : Int) = n := by
  apply i32_of_range <;> omega

theorem u64_nat {n : Nat} (h : n < 2147483648) : u64 (n : Int) = n := by
  apply u64_of_range <;> omega

theorem magic_round_trip : u32 (i32 (i32 PAGE_MAGIC_NUM)) = PAGE_MAGIC_NUM := by
  unfold u32 i32 PAGE_MAGIC_NUM; decide

theorem rd32_le32 (b : List Nat) (x y : Int) (h : b.take 8 = le32 x ++ le32 y) :
    rd32 b 0 = i32 x ∧ rd32 b 4 = i32 y := by
  have hg : ∀ i, i < 8 → b.getD i 0 = (le32 x ++ le32 y).getD i 0 := by
    intro i hi
    rw [← h, List.getD_eq_getElem?_getD, List.getD_eq_getElem?_getD, List.getElem?_take]
    simp [hi]
  have hx : 0 ≤ u32 x ∧ u32 x < 4294967296 := by unfold u32; omega
  have hy : 0 ≤ u32 y ∧ u32 y < 4294967296 := by unfold u32; omega
  obtain ⟨a, ha⟩ := Int.eq_ofNat_of_zero_le hx.1
  obtain ⟨c, hc⟩ := Int.eq_ofNat_of_zero_le hy.1
  have e0 := hg 0 (by omega)
  have e1 := hg 1 (by omega)
  have e2 := hg 2 (by omega)
  have e3 := hg 3 (by omega)
  have e4 := hg 4 (by omega)
  have e5 := hg 5 (by omega)
  have e6 := hg 6 (by omega)
  have e7 := hg 7 (by omega)
  simp only [le32, ha, hc, Int.toNat_ofNat, List.cons_append, List.nil_append,
    List.getD_cons_zero, List.getD_cons_succ] at e0 e1 e2 e3 e4 e5 e6 e7
  constructor
  · unfold rd32
    simp only [zero_add, e0, e1, e2, e3]
    have : (Int.ofNat (a % 256 + 256 * (a / 256 % 256) + 65536 * (a / 65536 % 256)
        + 16777216 * (a / 16777216 % 256))) = u32 x := by
      rw [ha]; simp only [Int.ofNat_eq_coe, Nat.cast_inj]
      have : a < 4294967296 := by omega
      omega
    rw [this]; unfold i32 u32; omega
  · unfold rd32
    simp only [e4, e5, e6, e7]
    have : (Int.ofNat (c % 256 + 256 * (c / 256 % 256) + 65536 * (c / 65536 % 256)
        + 16777216 * (c / 16777216 % 256))) = u32 y := by
      rw [hc]; simp only [Int.ofNat_eq_coe, Nat.cast_inj]
      have : c < 4294967296 := by omega
      omega
    rw [this]; unfold i32 u32; omega

/-- The header fields `csf_read_page` parses from a scratch buffer that starts with the header
of a page holding `n` valid bytes. -/
theorem rd32_header (sb : List Nat) (n : Nat) (hn : n < 2147483648)
    (h : sb.take 8 = le32 (i32 PAGE_MAGIC_NUM) ++ le32 (Int.ofNat n)) :
    u32 (rd32 sb 0) = PAGE_MAGIC_NUM ∧ rd32 sb 4 = (n : Int) := by
  obtain ⟨h0, h4⟩ := rd32_le32 sb _ _ h
  rw [h0, h4]
  exact ⟨magic_round_trip, i32_nat hn⟩

/-! ## Descriptor primitives without faults -/

theorem read_retry_ok {env : Env} (w : World) (h : env.read_fails w.pos = false) (n t : Nat) :
    read_retry env w n t =
      ({ w with pos := w.pos + ((w.bytes.drop w.pos).take n).length },
        Int.ofNat ((w.bytes.drop w.pos).take n).length, (w.bytes.drop w.pos).take n) := by
  cases t <;> simp [read_retry, sys_read, h]

theorem write_retry_ok {env : Env} (w : World) (h : env.write_fails w.pos = false)
    (buf : List Nat) (t : Nat) :
    write_retry env w buf t =
      ({ w with
          bytes := w.bytes.take w.pos ++ List.replicate (w.pos - w.bytes.length) 0 ++ buf
                     ++ w.bytes.drop (w.pos + buf.length),
          pos := w.pos + buf.length }, Int.ofNat buf.length) := by
  cases t <;> simp [write_retry, sys_write, h]

theorem memcpy_all (dst src : List Nat) (h : dst.length = src.length) :
    memcpy dst 0 src src.length = src := by
  simp [memcpy, ← h]

theorem read_page_loop_full {env : Env} (PS : Nat) (hPS1 : 0 < PS)
    (hPS : PS < 2147483648) (pb : List Nat) (w : World) (h : env.read_fails w.pos = false)
    (hpb : pb.length = PS)
    (hlen : w.pos + PS ≤ w.bytes.length) :
    read_page_loop env (PS : Int) (PS + 1) pb w 0 false =
      ((w.bytes.drop w.pos).take PS, { w with pos := w.pos + PS }, false) := by
  obtain ⟨f, rfl⟩ : ∃ f, PS = f + 1 := ⟨PS - 1, by omega⟩
  have hl : ((w.bytes.drop w.pos).take (f + 1)).length = f + 1 := by
    simp only [List.length_take, List.length_drop]; omega
  have hu : u64 ((f + 1 : Nat) : Int) = ((f + 1 : Nat) : Int) := u64_nat hPS
  rw [read_page_loop]
  simp only [hu, read_retry_ok w h, sub_zero, Int.toNat_ofNat, hl]
  simp only [Int.ofNat_eq_coe, zero_add, hu, Int.toNat_zero]
  rw [if_pos (by omega), if_neg (by omega), if_neg (by omega), read_page_loop]
  rw [if_neg (by omega)]
  have hm : memcpy pb 0 (List.take (f + 1) (List.drop w.pos w.bytes)) (f + 1)
      = List.take (f + 1) (List.drop w.pos w.bytes) := by
    have := memcpy_all pb (List.take (f + 1) (List.drop w.pos w.bytes)) (by rw [hl, hpb])
    rwa [hl] at this
  rw [hm]

theorem read_page_loop_eof {env : Env} (PS : Int) (hPS1 : 0 < PS)
    (hPS : PS < 2147483648) (fuel : Nat) (pb : List Nat) (w : World)
    (h : env.read_fails w.pos = false)
    (hlen : w.bytes.length ≤ w.pos) :
    read_page_loop env PS (fuel + 1) pb w 0 false = (pb, w, true) := by
  have hu : u64 PS = PS := u64_of_range (by omega) (by omega)
  have hd : List.drop w.pos w.bytes = [] := List.drop_of_length_le hlen
  rw [read_page_loop]
  simp [hu, read_retry_ok w h, hd, hPS1, memcpy]

theorem write_page_loop_full {env : Env} (PS : Nat) (hPS1 : 0 < PS)
    (hPS : PS < 2147483648) (pb : List Nat) (w : World) (h : env.write_fails w.pos = false)
    (hpb : pb.length = PS) :
    write_page_loop env (PS : Int) pb (PS + 1) w 0 =
      ({ w with
          bytes := w.bytes.take w.pos ++ List.replicate (w.pos - w.bytes.length) 0 ++ pb
                     ++ w.bytes.drop (w.pos + PS),
          pos := w.pos + PS }, false) := by
  obtain ⟨f, rfl⟩ : ∃ f, PS = f + 1 := ⟨PS - 1, by omega⟩
  have hu : u64 ((f + 1 : Nat) : Int) = ((f + 1 : Nat) : Int) := u64_nat hPS
  have hbuf : List.take (f + 1) pb = pb := List.take_of_length_le (by omega)
  rw [write_page_loop]
  simp only [hu, write_retry_ok w h, sub_zero, Int.toNat_ofNat, Int.toNat_zero, List.drop_zero, hbuf,
    hpb, Int.ofNat_eq_coe, zero_add]
  rw [if_pos (by omega), if_neg (by omega), write_page_loop]
  rw [if_neg (by omega)]

/-- The conditional `lseek` of `csf_read_page` leaves the descriptor at the target. -/
theorem lseek_to (w : World) (t : Nat) :
    (if Int.ofNat w.pos ≠ (t : Int) then (sys_lseek_set w (t : Int)).1 else w)
      = { w with pos := t } := by
  by_cases h : Int.ofNat w.pos = (t : Int)
  · have : w.pos = t := by simpa using h
    simp [h, ← this]
  · simp only [ne_eq, h, not_false_eq_true, if_true, sys_lseek_set]
    rw [if_neg (by omega)]
    simp

/-- The conditional `lseek` of `csf_write_page` leaves the descriptor at the target and does
not fail. -/
theorem lseek_pair (w w1 : World) (hpos : w1.pos = w.pos) (t : Nat) :
    (if Int.ofNat w.pos ≠ (t : Int) then sys_lseek_set w1 (t : Int) else (w1, 0)).1
        = { w1 with pos := t } ∧
    ¬ (Int.ofNat w.pos ≠ (t : Int) ∧
        (if Int.ofNat w.pos ≠ (t : Int) then sys_lseek_set w1 (t : Int) else (w1, 0)).2 < 0) := by
  by_cases h : Int.ofNat w.pos = (t : Int)
  · have : w.pos = t := by simpa using h
    simp [h, ← this, ← hpos]
  · simp only [ne_eq, h, not_false_eq_true, if_true, sys_lseek_set, true_and]
    rw [if_neg (by omega)]
    simp

/-! ## The page codec -/

theorem Codec.Valid.page_pos {env : Env} {c : Codec} (hv : c.Valid env) : 0 < c.page_sz := by
  have := hv.data_pos
  unfold Codec.page_sz; omega

/-- The byte offset of page `p`, as `csf_read_page` and `csf_write_page` compute it. -/
theorem page_offset_eq {ctx : CSF_CTX} {c : Codec} (hs : Shape ctx c) (p : Nat)
    (hr : p * c.page_sz < 2147483648) :
    i32 (HDR_SZ + (p : Int) * ctx.page_sz) = ((p * c.page_sz : Nat) : Int) := by
  rw [hs.page]; unfold HDR_SZ
  rw [zero_add, ← Nat.cast_mul]
  exact i32_nat hr

theorem read_page_decode_ok {env : Env} (hc : CipherOK env) {ctx : CSF_CTX} {c : Codec}
    (hs : Shape ctx c) (hv : c.Valid env) (w : World) {d : List Nat}
    (hp : IsPage env c ctx.page_buffer d) (dst : Buf) :
    ∃ sb, sb.length = c.page_sz ∧
      read_page_decode env ctx w dst =
        ((match dst with
          | Buf.page_buffer =>
            { ctx with
              scratch_buffer := sb,
              page_buffer := d ++ ctx.page_buffer.drop d.length }
          | Buf.csf_buffer =>
            { ctx with
              scratch_buffer := sb,
              csf_buffer := d ++ ctx.csf_buffer.drop d.length }), w, (d.length : Int)) := by
  obtain ⟨iv, plain, hiv, hpl, hraw, hhd, hpay, hdl⟩ := hp
  obtain ⟨hk, he, hI, hH, hD, hP, hpb, hsb, hcb⟩ := hs
  obtain ⟨h8, hD0, hsm, hblk⟩ := hv
  have hPS : c.page_sz = c.iv_sz + c.hdr_sz + c.data_sz := rfl
  have hblk' : (plain.length : Int) % env.block_size = 0 := by rw [hpl]; exact hblk
  have hbody : (if c.encrypted ≠ 0 then env.encrypt c.key iv plain else plain).length
      = c.hdr_sz + c.data_sz := by
    split
    · rw [(hc _ _ _ hblk').1, hpl]
    · exact hpl
  have htk : ctx.page_buffer.take c.iv_sz = iv := by
    rw [hraw, ← hiv]; simp
  have hin : (ctx.page_buffer.drop c.iv_sz).take (c.hdr_sz + c.data_sz)
      = (if c.encrypted ≠ 0 then env.encrypt c.key iv plain else plain) := by
    rw [hraw, ← hiv, ← hbody]; simp
  have hout : (if c.encrypted ≠ 0 then env.decrypt c.key iv
      (if c.encrypted ≠ 0 then env.encrypt c.key iv plain else plain)
      else (if c.encrypted ≠ 0 then env.encrypt c.key iv plain else plain)) = plain := by
    split
    · exact (hc _ _ _ hblk').2
    · rfl
  have hsum : ((c.hdr_sz : Int) + (c.data_sz : Int)).toNat = c.hdr_sz + c.data_sz := by omega
  have hdn : d.length < 2147483648 := by omega
  have h8le : 8 ≤ plain.length := by omega
  have hm : memcpy ctx.scratch_buffer 0 plain plain.length
      = plain ++ ctx.scratch_buffer.drop plain.length := by
    simp [memcpy]
  have h8t : (plain ++ ctx.scratch_buffer.drop plain.length).take 8 = plain.take 8 := by
    rw [List.take_append_of_le_length h8le]
  have hdropl : d.length - (List.drop c.hdr_sz plain).length = 0 := by
    simp only [List.length_drop, hpl]; omega
  have hpay' : ((plain ++ ctx.scratch_buffer.drop plain.length).drop c.hdr_sz).take d.length
      = d := by
    rw [List.drop_append_eq_append_drop, List.take_append_eq_append_take, hdropl, hpay]; simp
  have hsbl : (plain ++ ctx.scratch_buffer.drop plain.length).length = c.page_sz := by
    simp only [List.length_append, List.length_drop, hpl, hsb]
    omega
  have hass : ¬ (¬ c.encrypted = 0 ∧
      ¬ i32 (Int.ofNat plain.length) = (c.hdr_sz : Int) + (c.data_sz : Int)) := by
    rintro ⟨-, hne⟩
    apply hne
    rw [hpl, Int.ofNat_eq_coe, i32_nat (by omega)]
    push_cast; rfl
  have hle : ¬ ((d.length : Int) > (c.data_sz : Int)) := by omega
  obtain ⟨hr0, hr4⟩ := rd32_header _ d.length hdn (h8t.trans hhd)
  refine ⟨plain ++ ctx.scratch_buffer.drop plain.length, hsbl, ?_⟩
  unfold read_page_decode
  simp only [hI, hH, hD, hk, he, Int.toNat_ofNat, hsum, htk, hin, hout, hm]
  simp only [hr0, hr4, hle, ne_eq, not_true_eq_false, if_false, u64_nat hdn, Int.toNat_ofNat]
  rw [if_neg hass]
  have hmc : ∀ b : List Nat, memcpy b 0
      (List.drop c.hdr_sz (plain ++ List.drop plain.length ctx.scratch_buffer)) d.length
        = d ++ b.drop d.length := by
    intro b
    simp only [memcpy, List.take_zero, List.nil_append, zero_add, hpay']
  simp only [hmc]
  cases dst <;> rfl

theorem Shape.with_page {ctx : CSF_CTX} {c : Codec} (hs : Shape ctx c) (pb : List Nat)
    (h : pb.length = c.page_sz) : Shape { ctx with page_buffer := pb } c :=
  ⟨hs.key, hs.enc, hs.iv, hs.hdr, hs.data, hs.page, h, hs.scratch_len, hs.csf_len⟩

theorem csf_read_page_hit {env : Env} (hc : CipherOK env) {ctx : CSF_CTX}
    {c : Codec} (hs : Shape ctx c) (hv : c.Valid env) (w : World) (p : Nat)
    (hn : env.read_fails (p * c.page_sz) = false) {d : List Nat}
    (hpg : PageAt env c w.bytes p d) (hlen : p * c.page_sz + c.page_sz ≤ w.bytes.length)
    (hr : p * c.page_sz + c.page_sz < 2147483648) (dst : Buf) :
    ∃ pb sb, pb.length = c.page_sz ∧ sb.length = c.page_sz ∧
      (dst = Buf.page_buffer → pb.take d.length = d) ∧
      csf_read_page env ctx w (p : Int) dst =
        ((match dst with
          | Buf.page_buffer =>
            { ctx with
              page_buffer := pb,
              scratch_buffer := sb }
          | Buf.csf_buffer =>
            { ctx with
              page_buffer := pb,
              scratch_buffer := sb,
              csf_buffer := d ++ ctx.csf_buffer.drop d.length }),
         { w with pos := p * c.page_sz + c.page_sz }, (d.length : Int)) := by
  have hPSpos := hv.page_pos
  have hso := page_offset_eq hs p (by omega)
  have hraw : (List.take c.page_sz (List.drop (p * c.page_sz) w.bytes)).length = c.page_sz := by
    simp only [List.length_take, List.length_drop]; omega
  have hdl : d.length ≤ c.page_sz := by
    obtain ⟨_, _, _, _, _, _, _, h⟩ := hpg
    unfold Codec.page_sz; omega
  obtain ⟨sb, hsb, hdec⟩ := read_page_decode_ok hc (hs.with_page _ hraw) hv
    { w with pos := p * c.page_sz + c.page_sz } hpg dst
  have hnn : ¬ ((p : Int) < 0) := by omega
  unfold csf_read_page
  rw [if_neg hnn]
  simp only [hso, lseek_to]
  rw [hs.page, Int.toNat_ofNat, read_page_loop_full c.page_sz hPSpos (by omega) ctx.page_buffer _
    hn hs.page_len hlen]
  simp only [Bool.false_eq_true, if_false]
  rw [← hs.page]
  cases dst with
  | page_buffer =>
    refine ⟨d ++ (List.take c.page_sz (List.drop (p * c.page_sz) w.bytes)).drop d.length, sb,
      ?_, hsb, fun _ => List.take_left' rfl, hdec⟩
    simp only [List.length_append, List.length_drop, hraw]; omega
  | csf_buffer =>
    refine ⟨_, sb, hraw, hsb, ?_, hdec⟩
    intro h
    cases h

theorem csf_read_page_miss {env : Env} {ctx : CSF_CTX}
    {c : Codec} (hs : Shape ctx c) (hv : c.Valid env) (w : World) (p : Nat)
    (hn : env.read_fails (p * c.page_sz) = false)
    (hlen : w.bytes.length ≤ p * c.page_sz)
    (hr : p * c.page_sz < 2147483648) (dst : Buf) :
    csf_read_page env ctx w (p : Int) dst = (ctx, { w with pos := p * c.page_sz }, 0) := by
  have hPSpos := hv.page_pos
  have hsm := hv.small
  have hso := page_offset_eq hs p hr
  have hnn : ¬ ((p : Int) < 0) := by omega
  unfold csf_read_page
  rw [if_neg hnn]
  simp only [hso, lseek_to]
  rw [hs.page, Int.toNat_ofNat, read_page_loop_eof (c.page_sz : Int) (by omega) (by omega)
    c.page_sz ctx.page_buffer { w with pos := p * c.page_sz } hn hlen]
  simp only [if_true]
  rw [← hs.page]

theorem csf_read_page_neg (env : Env) (ctx : CSF_CTX) (w : World) (pgno : Int) (h : pgno < 0)
    (dst : Buf) : csf_read_page env ctx w pgno dst = (ctx, w, 0) := by
  unfold csf_read_page
  rw [if_pos h]

/-! ## `memcpy` on lists -/

theorem memcpy_length (dst src : List Nat) (off n : Nat) (ho : off + n ≤ dst.length)
    (hn : n ≤ src.length) : (memcpy dst off src n).length = dst.length := by
  simp only [memcpy, List.length_append, List.length_take, List.length_drop]
  omega

theorem memcpy_getElem? (dst src : List Nat) (off n i : Nat) (ho : off ≤ dst.length)
    (hn : n ≤ src.length) :
    (memcpy dst off src n)[i]? =
      if i < off then dst[i]? else if i < off + n then src[i - off]? else dst[i]? := by
  have h1 : (dst.take off).length = off := by simp only [List.length_take]; omega
  have h2 : (src.take n).length = n := by simp only [List.length_take]; omega
  unfold memcpy
  by_cases c1 : i < off
  · rw [if_pos c1, List.append_assoc, List.getElem?_append_left (by omega),
      List.getElem?_take_of_lt c1]
  · rw [if_neg c1, List.append_assoc, List.getElem?_append_right (by omega), h1]
    by_cases c2 : i < off + n
    · rw [if_pos c2, List.getElem?_append_left (by omega), List.getElem?_take_of_lt (by omega)]
    · rw [if_neg c2, List.getElem?_append_right (by omega), h2, List.getElem?_drop]
      congr 1
      omega

theorem take_eq_of_getElem? (a b : List Nat) (n : Nat) (hb : b.length = n)
    (h : ∀ i, i < n → a[i]? = b[i]?) : a.take n = b := by
  apply List.ext_getElem?
  intro i
  by_cases c : i < n
  · rw [List.getElem?_take_of_lt c, h i c]
  · rw [List.getElem?_take_eq_none (by omega), List.getElem?_eq_none (by omega)]

theorem slice_eq_of_getElem? (a b : List Nat) (off n : Nat) (hb : b.length = n)
    (h : ∀ i, i < n → a[off + i]? = b[i]?) : (a.drop off).take n = b := by
  apply take_eq_of_getElem? _ _ _ hb
  intro i hi
  rw [List.getElem?_drop, h i hi]

theorem le32_length (x : Int) : (le32 x).length = 4 := by
  simp [le32]

theorem write_page_encode_ok {env : Env} (hc : CipherOK env) {ctx : CSF_CTX} {c : Codec}
    (hs : Shape ctx c) (hv : c.Valid env) (w : World) (data : List Nat) (n : Nat)
    (hn : n ≤ c.data_sz) (hdata : n ≤ data.length) :
    ∃ pb sb, pb.length = c.page_sz ∧ sb.length = c.page_sz ∧ IsPage env c pb (data.take n) ∧
      write_page_encode env ctx w data (n : Int) =
        ({ ctx with page_buffer := pb, scratch_buffer := sb }, { w with rng := w.rng + 1 }) := by
  obtain ⟨hk, he, hI, hH, hD, hP, hpb, hsb, hcb⟩ := hs
  obtain ⟨h8, hD0, hsm, hblk⟩ := hv
  have hPS : c.page_sz = c.iv_sz + c.hdr_sz + c.data_sz := rfl
  have hsum : ((c.hdr_sz : Int) + (c.data_sz : Int)).toNat = c.hdr_sz + c.data_sz := by omega
  have h8n : sizeof_CSF_PAGE_HEADER.toNat = 8 := rfl
  have hnn : n < 2147483648 := by omega
  have hass0 : (n : Int) ≤ u64 (c.data_sz : Int) := by
    rw [u64_nat (by omega)]; omega
  -- the IV and the raw-page buffer that holds it
  have hivl : (List.map (env.rand w.rng) (List.range c.iv_sz)).length = c.iv_sz := by simp
  have hpb1 : List.take c.iv_sz
      (memcpy ctx.page_buffer 0 (List.map (env.rand w.rng) (List.range c.iv_sz)) c.iv_sz)
      = List.map (env.rand w.rng) (List.range c.iv_sz) := by
    apply take_eq_of_getElem? _ _ _ hivl
    intro i hi
    rw [memcpy_getElem? _ _ _ _ _ (by omega) (by omega), if_neg (by omega), if_pos (by omega)]
    rfl
  have hpb1l : (memcpy ctx.page_buffer 0 (List.map (env.rand w.rng) (List.range c.iv_sz))
      c.iv_sz).length = c.page_sz := by
    rw [memcpy_length _ _ _ _ (by omega) (by omega), hpb]
  -- the scratch buffer
  have hh8 : (le32 (i32 PAGE_MAGIC_NUM) ++ le32 (n : Int)).length = 8 := by
    rw [List.length_append, le32_length, le32_length]
  have hs1l : (memcpy ctx.scratch_buffer 0 (le32 (i32 PAGE_MAGIC_NUM) ++ le32 (n : Int)) 8).length
      = c.page_sz := by
    rw [memcpy_length _ _ _ _ (by omega) (by omega), hsb]
  have hs2l : (memcpy (memcpy ctx.scratch_buffer 0 (le32 (i32 PAGE_MAGIC_NUM) ++ le32 (n : Int)) 8)
      c.hdr_sz data n).length = c.page_sz := by
    rw [memcpy_length _ _ _ _ (by omega) hdata, hs1l]
  have hpll : (List.take (c.hdr_sz + c.data_sz)
      (memcpy (memcpy ctx.scratch_buffer 0 (le32 (i32 PAGE_MAGIC_NUM) ++ le32 (n : Int)) 8)
        c.hdr_sz data n)).length = c.hdr_sz + c.data_sz := by
    rw [List.length_take, hs2l]; omega
  have hdtl : (List.take n data).length = n := by rw [List.length_take]; omega
  have hp8 : List.take 8 (List.take (c.hdr_sz + c.data_sz)
      (memcpy (memcpy ctx.scratch_buffer 0 (le32 (i32 PAGE_MAGIC_NUM) ++ le32 (n : Int)) 8)
        c.hdr_sz data n)) = le32 (i32 PAGE_MAGIC_NUM) ++ le32 (Int.ofNat (List.take n data).length) := by
    rw [hdtl]
    apply take_eq_of_getElem? _ _ _ hh8
    intro i hi
    rw [List.getElem?_take_of_lt (by omega), memcpy_getElem? _ _ _ _ _ (by omega) hdata,
      if_pos (by omega), memcpy_getElem? _ _ _ _ _ (by omega) (by omega), if_neg (by omega),
      if_pos (by omega)]
    rfl
  have hpay : List.take (List.take n data).length (List.drop c.hdr_sz
      (List.take (c.hdr_sz + c.data_sz)
        (memcpy (memcpy ctx.scratch_buffer 0 (le32 (i32 PAGE_MAGIC_NUM) ++ le32 (n : Int)) 8)
          c.hdr_sz data n))) = List.take n data := by
    rw [hdtl]
    apply slice_eq_of_getElem? _ _ _ _ hdtl
    intro i hi
    rw [List.getElem?_take_of_lt (by omega), memcpy_getElem? _ _ _ _ _ (by omega) hdata,
      if_neg (by omega), if_pos (by omega), List.getElem?_take_of_lt hi]
    congr 1
    omega
  unfold write_page_encode
  simp only [hI, hH, hD, hk, he, Int.toNat_ofNat, hsum, h8n, hass0, if_true, i32_nat hnn]
  simp only [hpb1]
  generalize hiv : List.map (env.rand w.rng) (List.range c.iv_sz) = iv at *
  generalize hpb1g : memcpy ctx.page_buffer 0 iv c.iv_sz = pb1 at *
  generalize hs2 : memcpy (memcpy ctx.scratch_buffer 0 (le32 (i32 PAGE_MAGIC_NUM) ++ le32 (n : Int)) 8)
      c.hdr_sz data n = s2 at *
  generalize hplain : List.take (c.hdr_sz + c.data_sz) s2 = plain at *
  have hblk' : (plain.length : Int) % env.block_size = 0 := by rw [hpll]; exact hblk
  have houtl : (if c.encrypted ≠ 0 then env.encrypt c.key iv plain else plain).length
      = c.hdr_sz + c.data_sz := by
    split
    · rw [(hc _ _ _ hblk').1, hpll]
    · exact hpll
  generalize hout : (if c.encrypted ≠ 0 then env.encrypt c.key iv plain else plain) = out at *
  have hass : ¬ (c.encrypted ≠ 0 ∧ i32 (Int.ofNat out.length) ≠ (c.hdr_sz : Int) + (c.data_sz : Int)) := by
    rintro ⟨-, hne⟩
    apply hne
    rw [houtl, Int.ofNat_eq_coe, i32_nat (by omega)]
    push_cast; rfl
  rw [if_neg hass]
  have hpb2 : memcpy pb1 c.iv_sz out out.length = iv ++ out := by
    unfold memcpy
    rw [hpb1, List.take_length, List.drop_of_length_le (by omega), List.append_nil]
  rw [hpb2]
  refine ⟨iv ++ out, s2, ?_, hs2l, ⟨iv, plain, hivl, hpll, ?_, hp8, hpay, ?_⟩, rfl⟩
  · rw [List.length_append, hivl, houtl]; omega
  · rw [hout]
  · rw [hdtl]; exact hn

theorem csf_write_page_ok {env : Env} (hc : CipherOK env) {ctx : CSF_CTX}
    {c : Codec} (hs : Shape ctx c) (hv : c.Valid env) (w : World) (p : Nat)
    (hn : env.write_fails (p * c.page_sz) = false) (data : List Nat)
    (n : Nat) (hnd : n ≤ c.data_sz) (hdata : n ≤ data.length)
    (hr : p * c.page_sz + c.page_sz < 2147483648) :
    ∃ pb sb, pb.length = c.page_sz ∧ sb.length = c.page_sz ∧ IsPage env c pb (data.take n) ∧
      csf_write_page env ctx w (p : Int) data (n : Int) =
        ({ ctx with page_buffer := pb, scratch_buffer := sb },
         { w with
            bytes := w.bytes.take (p * c.page_sz)
              ++ List.replicate (p * c.page_sz - w.bytes.length) 0 ++ pb
              ++ w.bytes.drop (p * c.page_sz + c.page_sz),
            pos := p * c.page_sz + c.page_sz,
            rng := w.rng + 1 }, (n : Int)) := by
  have hPSpos := hv.page_pos
  have hsm := hv.small
  have hso := page_offset_eq hs p (by omega)
  obtain ⟨pb, sb, hpbl, hsbl, hpage, henc⟩ := write_page_encode_ok hc hs hv w data n hnd hdata
  obtain ⟨hsk1, hsk2⟩ := lseek_pair w { w with rng := w.rng + 1 } rfl (p * c.page_sz)
  refine ⟨pb, sb, hpbl, hsbl, hpage, ?_⟩
  unfold csf_write_page
  simp only [hso, henc]
  rw [if_neg hsk2, hsk1, hs.page, Int.toNat_ofNat,
    write_page_loop_full c.page_sz hPSpos hsm pb _ hn hpbl]
  simp only [Bool.false_eq_true, if_false]

/-! ## The concrete environment -/

theorem noFaults_xorEnv : NoFaults xorEnv := ⟨fun _ => rfl, fun _ => rfl⟩

theorem xorStream_length (key iv : List Nat) (n : Nat) : (xorStream key iv n).length = n := by
  simp [xorStream]

theorem xorCipher_length (key iv p : List Nat) : (xorCipher key iv p).length = p.length := by
  simp [xorCipher, xorStream_length]

theorem zipWith_xor_cancel : ∀ (p ks : List Nat), p.length ≤ ks.length →
    List.zipWith Nat.xor (List.zipWith Nat.xor p ks) ks = p
  | [], _, _ => by simp
  | _ :: _, [], h => by simp at h
  | a :: p, k :: ks, h => by
    have ih := zipWith_xor_cancel p ks (by simpa using h)
    have hx : Nat.xor (Nat.xor a k) k = a := by
      show (a ^^^ k) ^^^ k = a
      rw [Nat.xor_assoc, Nat.xor_self, Nat.xor_zero]
    simp only [List.zipWith_cons_cons, hx, ih]

theorem cipherOK_xorEnv : CipherOK xorEnv := by
  intro key iv p _
  refine ⟨xorCipher_length key iv p, ?_⟩
  show xorCipher key iv (xorCipher key iv p) = p
  unfold xorCipher
  rw [List.length_zipWith, xorStream_length, Nat.min_self]
  exact zipWith_xor_cancel p _ (by rw [xorStream_length])

theorem shape_freshCtx_512 : Shape (freshCtx 512) (codecOf (freshCtx 512)) :=
  ⟨rfl, rfl, by decide!, by decide!, by decide!, by decide!, by decide!, by decide!, by decide!⟩

theorem valid_freshCtx_512 : (codecOf (freshCtx 512)).Valid xorEnv :=
  ⟨by decide!, by decide!, by decide!, by decide!⟩

/-! ## Storing a page in the backing file -/

theorem put_getElem? (bytes pb : List Nat) (off i : Nat) :
    (bytes.take off ++ List.replicate (off - bytes.length) 0 ++ pb
        ++ bytes.drop (off + pb.length))[i]? =
      if i < off then (if i < bytes.length then bytes[i]? else some 0)
      else if i < off + pb.length then pb[i - off]? else bytes[i]? := by
  have h1 : (bytes.take off).length = min off bytes.length := List.length_take _ _
  have h2 : (bytes.take off ++ List.replicate (off - bytes.length) 0).length = off := by
    rw [List.length_append, h1, List.length_replicate]; omega
  by_cases c1 : i < off
  · rw [if_pos c1, List.append_assoc, List.getElem?_append_left (by omega)]
    by_cases c2 : i < bytes.length
    · rw [if_pos c2, List.getElem?_append_left (by omega), List.getElem?_take_of_lt c1]
    · rw [if_neg c2, List.getElem?_append_right (by omega), h1, List.getElem?_replicate,
        if_pos (by omega)]
  · rw [if_neg c1, List.append_assoc, List.getElem?_append_right (by omega), h2]
    by_cases c2 : i < off + pb.length
    · rw [if_pos c2, List.getElem?_append_left (by omega)]
    · rw [if_neg c2, List.getElem?_append_right (by omega), List.getElem?_drop]
      congr 1
      omega

theorem put_length (bytes pb : List Nat) (off : Nat) :
    (bytes.take off ++ List.replicate (off - bytes.length) 0 ++ pb
        ++ bytes.drop (off + pb.length)).length = max bytes.length (off + pb.length) := by
  simp only [List.length_append, List.length_take, List.length_replicate, List.length_drop]
  omega

theorem put_slice (bytes pb : List Nat) (off : Nat) :
    ((bytes.take off ++ List.replicate (off - bytes.length) 0 ++ pb
        ++ bytes.drop (off + pb.length)).drop off).take pb.length = pb := by
  apply slice_eq_of_getElem? _ _ _ _ rfl
  intro i hi
  rw [put_getElem?, if_neg (by omega), if_pos (by omega)]
  congr 1
  omega

theorem put_other (bytes pb : List Nat) (off a m : Nat) (hin : a + m ≤ bytes.length)
    (hdis : a + m ≤ off ∨ off + pb.length ≤ a) :
    ((bytes.take off ++ List.replicate (off - bytes.length) 0 ++ pb
        ++ bytes.drop (off + pb.length)).drop a).take m = (bytes.drop a).take m := by
  apply List.ext_getElem?
  intro i
  by_cases c : i < m
  · rw [List.getElem?_take_of_lt c, List.getElem?_take_of_lt c, List.getElem?_drop,
      List.getElem?_drop, put_getElem?]
    rcases hdis with h | h
    · rw [if_pos (by omega), if_pos (by omega)]
    · rw [if_neg (by omega), if_neg (by omega)]
  · rw [List.getElem?_take_eq_none (by omega), List.getElem?_take_eq_none (by omega)]

/-- C15: for a page number `p` whose page lies within `int` offsets, a length `n` with
`0 <= n <= data_sz` and a buffer holding at least `n` bytes, `csf_write_page(p, data, n)`
returns `n`, and `csf_read_page(p)` right after it returns `n` and delivers the first `n`
bytes of `data` into the buffer it is given; this holds with and without encryption, for a
cipher whose decryption inverts its encryption, when no `read` or `write` fails. -/
theorem page_codec_round_trip {env : Env} (hn : NoFaults env) (hc : CipherOK env)
    {ctx : CSF_CTX} {c : Codec} (hs : Shape ctx c) (hv : c.Valid env) (w : World) (p : Nat)
    (data : List Nat) (n : Nat) (hnd : n ≤ c.data_sz) (hdata : n ≤ data.length)
    (hr : p * c.page_sz + c.page_sz < 2147483648) (dst : Buf) :
    (csf_write_page env ctx w (p : Int) data (n : Int)).2.2 = (n : Int) ∧
    (csf_read_page env (csf_write_page env ctx w (p : Int) data (n : Int)).1
      (csf_write_page env ctx w (p : Int) data (n : Int)).2.1 (p : Int) dst).2.2 = (n : Int) ∧
    (match dst with
      | Buf.page_buffer =>
        (csf_read_page env (csf_write_page env ctx w (p : Int) data (n : Int)).1
          (csf_write_page env ctx w (p : Int) data (n : Int)).2.1 (p : Int) dst).1.page_buffer
      | Buf.csf_buffer =>
        (csf_read_page env (csf_write_page env ctx w (p : Int) data (n : Int)).1
          (csf_write_page env ctx w (p : Int) data (n : Int)).2.1 (p : Int) dst).1.csf_buffer).take n
      = data.take n := by
  obtain ⟨pb, sb, hpbl, hsbl, hpage, hwr⟩ := csf_write_page_ok hc hs hv w p (hn.2 _) data n hnd hdata hr
  have hdl : (data.take n).length = n := by rw [List.length_take]; omega
  have hs1 : Shape { ctx with page_buffer := pb, scratch_buffer := sb } c :=
    ⟨hs.key, hs.enc, hs.iv, hs.hdr, hs.data, hs.page, hpbl, hsbl, hs.csf_len⟩
  rw [hwr]
  have hat : PageAt env c (w.bytes.take (p * c.page_sz)
      ++ List.replicate (p * c.page_sz - w.bytes.length) 0 ++ pb
      ++ w.bytes.drop (p * c.page_sz + c.page_sz)) p (data.take n) := by
    unfold PageAt
    have := put_slice w.bytes pb (p * c.page_sz)
    rw [hpbl] at this
    rw [this]
    exact hpage
  have hlen : p * c.page_sz + c.page_sz ≤ (w.bytes.take (p * c.page_sz)
      ++ List.replicate (p * c.page_sz - w.bytes.length) 0 ++ pb
      ++ w.bytes.drop (p * c.page_sz + c.page_sz)).length := by
    have := put_length w.bytes pb (p * c.page_sz)
    rw [hpbl] at this
    rw [this]
    omega
  obtain ⟨pb2, sb2, -, -, hpg, hrd⟩ := csf_read_page_hit hc hs1 hv
    { w with
      bytes := w.bytes.take (p * c.page_sz)
        ++ List.replicate (p * c.page_sz - w.bytes.length) 0 ++ pb
        ++ w.bytes.drop (p * c.page_sz + c.page_sz),
      pos := p * c.page_sz + c.page_sz,
      rng := w.rng + 1 } p (hn.1 _) hat hlen hr dst
  rw [hdl] at hrd hpg
  refine ⟨rfl, ?_, ?_⟩
  · rw [hrd]
  · rw [hrd]
    revert hpg
    cases dst with
    | page_buffer => exact fun hpg => hpg rfl
    | csf_buffer => exact fun _ => List.take_left' hdl

theorem page_codec_round_trip_witness :
    (csf_write_page xorEnv (freshCtx 512) emptyWorld ((3 : Nat) : Int) [10, 20, 30]
      ((3 : Nat) : Int)).2.2 = ((3 : Nat) : Int) ∧
    (csf_read_page xorEnv
      (csf_write_page xorEnv (freshCtx 512) emptyWorld ((3 : Nat) : Int) [10, 20, 30]
        ((3 : Nat) : Int)).1
      (csf_write_page xorEnv (freshCtx 512) emptyWorld ((3 : Nat) : Int) [10, 20, 30]
        ((3 : Nat) : Int)).2.1 ((3 : Nat) : Int) Buf.csf_buffer).2.2 = ((3 : Nat) : Int) ∧
    (csf_read_page xorEnv
      (csf_write_page xorEnv (freshCtx 512) emptyWorld ((3 : Nat) : Int) [10, 20, 30]
        ((3 : Nat) : Int)).1
      (csf_write_page xorEnv (freshCtx 512) emptyWorld ((3 : Nat) : Int) [10, 20, 30]
        ((3 : Nat) : Int)).2.1 ((3 : Nat) : Int) Buf.csf_buffer).1.csf_buffer.take 3
      = [10, 20, 30].take 3 :=
  page_codec_round_trip noFaults_xorEnv cipherOK_xorEnv shape_freshCtx_512 valid_freshCtx_512
    emptyWorld 3 [10, 20, 30] 3 (by decide!) (by decide) (by decide!) Buf.csf_buffer

/-! ## What the page functions leave alone -/

theorem SameButBuffers.refl (ctx : CSF_CTX) : SameButBuffers ctx ctx := rfl

theorem SameButBuffers.trans {a b c : CSF_CTX} (h1 : SameButBuffers a b)
    (h2 : SameButBuffers b c) : SameButBuffers a c := by
  unfold SameButBuffers at *
  rw [h2, h1]

theorem SameButBuffers.seek_ptr {a b : CSF_CTX} (h : SameButBuffers a b) :
    b.seek_ptr = a.seek_ptr := by
  unfold SameButBuffers at h; rw [h]

theorem SameButBuffers.data_sz {a b : CSF_CTX} (h : SameButBuffers a b) :
    b.data_sz = a.data_sz := by
  unfold SameButBuffers at h; rw [h]

theorem SameButBuffers.page_sz {a b : CSF_CTX} (h : SameButBuffers a b) :
    b.page_sz = a.page_sz := by
  unfold SameButBuffers at h; rw [h]

theorem i32_range (x : Int) : -2147483648 ≤ i32 x ∧ i32 x < 2147483648 := by
  unfold i32; omega

theorem i32_idem (x : Int) : i32 (i32 x) = i32 x :=
  i32_of_range (i32_range x).1 (i32_range x).2

theorem i32_u64 (x : Int) : i32 (u64 x) = i32 x := by
  unfold i32 u64; omega

theorem rd32_range (b : List Nat) (off : Nat) :
    -2147483648 ≤ rd32 b off ∧ rd32 b off < 2147483648 := by
  unfold rd32; exact i32_range _

theorem read_page_loop_bytes (env : Env) (to_read : Int) :
    ∀ (fuel : Nat) (pb : List Nat) (w : World) (read_sz : Int) (any : Bool),
      (read_page_loop env to_read fuel pb w read_sz any).2.1.bytes = w.bytes
  | 0, _, _, _, _ => rfl
  | fuel + 1, pb, w, read_sz, any => by
    have hr : ∀ (w0 : World) (n t : Nat), (read_retry env w0 n t).1.bytes = w0.bytes := by
      intro w0 n t
      induction t generalizing w0 with
      | zero => unfold read_retry sys_read; split <;> rfl
      | succ t ih =>
        unfold read_retry
        simp only
        split
        · rw [ih]; unfold sys_read; split <;> rfl
        · unfold sys_read; split <;> rfl
    unfold read_page_loop
    split
    · simp only
      split
      · split <;> exact hr _ _ _
      · split
        · exact hr _ _ _
        · rw [read_page_loop_bytes env to_read fuel]; exact hr _ _ _
    · rfl

theorem ite_assert_bytes (P : Prop) [Decidable P] (w : World) :
    (if P then { w with assert_failed := true } else w).bytes = w.bytes := by
  split <;> rfl

theorem decode_len_le (m x D : Int) (hx : -2147483648 ≤ x ∧ x < 2147483648) :
    i32 (if u32 m ≠ PAGE_MAGIC_NUM then 0 else if x > D then 0 else x) ≤ max 0 D := by
  split
  · rw [i32_of_range (by omega) (by omega)]; omega
  · split
    · rw [i32_of_range (by omega) (by omega)]; omega
    · rw [i32_of_range hx.1 hx.2]; omega

theorem read_page_decode_frame (env : Env) (ctx : CSF_CTX) (w : World) (dst : Buf) :
    SameButBuffers ctx (read_page_decode env ctx w dst).1 ∧
    (read_page_decode env ctx w dst).2.1.bytes = w.bytes ∧
    i32 (read_page_decode env ctx w dst).2.2 ≤ max 0 ctx.data_sz := by
  refine ⟨?_, ?_, ?_⟩
  · unfold read_page_decode SameButBuffers
    cases dst <;> rfl
  · unfold read_page_decode
    exact ite_assert_bytes _ w
  · unfold read_page_decode
    simp only [i32_u64]
    exact decode_len_le _ _ _ (rd32_range _ _)



theorem read_page_tail_frame (env : Env) (ctx : CSF_CTX) (w1 : World) (dst : Buf) :
    SameButBuffers ctx
      (if (read_page_loop env ctx.page_sz (ctx.page_sz.toNat + 1) ctx.page_buffer w1 0 false).2.2
        then ({ ctx with page_buffer := (read_page_loop env ctx.page_sz (ctx.page_sz.toNat + 1)
            ctx.page_buffer w1 0 false).1 },
          (read_page_loop env ctx.page_sz (ctx.page_sz.toNat + 1) ctx.page_buffer w1 0 false).2.1,
          (0 : Int))
        else read_page_decode env
          { ctx with page_buffer := (read_page_loop env ctx.page_sz (ctx.page_sz.toNat + 1)
            ctx.page_buffer w1 0 false).1 }
          (read_page_loop env ctx.page_sz (ctx.page_sz.toNat + 1) ctx.page_buffer w1 0 false).2.1
          dst).1 ∧
    (if (read_page_loop env ctx.page_sz (ctx.page_sz.toNat + 1) ctx.page_buffer w1 0 false).2.2
        then ({ ctx with page_buffer := (read_page_loop env ctx.page_sz (ctx.page_sz.toNat + 1)
            ctx.page_buffer w1 0 false).1 },
          (read_page_loop env ctx.page_sz (ctx.page_sz.toNat + 1) ctx.page_buffer w1 0 false).2.1,
          (0 : Int))
        else read_page_decode env
          { ctx with page_buffer := (read_page_loop env ctx.page_sz (ctx.page_sz.toNat + 1)
            ctx.page_buffer w1 0 false).1 }
          (read_page_loop env ctx.page_sz (ctx.page_sz.toNat + 1) ctx.page_buffer w1 0 false).2.1
          dst).2.1.bytes = w1.bytes ∧
    i32 (if (read_page_loop env ctx.page_sz (ctx.page_sz.toNat + 1) ctx.page_buffer w1 0 false).2.2
        then ({ ctx with page_buffer := (read_page_loop env ctx.page_sz (ctx.page_sz.toNat + 1)
            ctx.page_buffer w1 0 false).1 },
          (read_page_loop env ctx.page_sz (ctx.page_sz.toNat + 1) ctx.page_buffer w1 0 false).2.1,
          (0 : Int))
        else read_page_decode env
          { ctx with page_buffer := (read_page_loop env ctx.page_sz (ctx.page_sz.toNat + 1)
            ctx.page_buffer w1 0 false).1 }
          (read_page_loop env ctx.page_sz (ctx.page_sz.toNat + 1) ctx.page_buffer w1 0 false).2.1
          dst).2.2 ≤ max 0 ctx.data_sz := by
  have h0 : i32 0 ≤ max 0 ctx.data_sz := by
    rw [i32_of_range (by omega) (by omega)]; omega
  have hb := read_page_loop_bytes env ctx.page_sz (ctx.page_sz.toNat + 1) ctx.page_buffer w1 0 false
  generalize read_page_loop env ctx.page_sz (ctx.page_sz.toNat + 1) ctx.page_buffer w1 0 false
    = lp at *
  by_cases hc : lp.2.2 = true
  · simp only [hc, if_true]
    exact ⟨rfl, hb, h0⟩
  · simp only [hc, if_false]
    obtain ⟨f1, f2, f3⟩ := read_page_decode_frame env { ctx with page_buffer := lp.1 } lp.2.1 dst
    exact ⟨SameButBuffers.trans (show SameButBuffers ctx { ctx with page_buffer := lp.1 } from rfl) f1,
      f2.trans hb, f3⟩

theorem csf_read_page_frame (env : Env) (ctx : CSF_CTX) (w : World) (pgno : Int) (dst : Buf) :
    SameButBuffers ctx (csf_read_page env ctx w pgno dst).1 ∧
    (csf_read_page env ctx w pgno dst).2.1.bytes = w.bytes ∧
    i32 (csf_read_page env ctx w pgno dst).2.2 ≤ max 0 ctx.data_sz := by
  have h0 : i32 0 ≤ max 0 ctx.data_sz := by
    rw [i32_of_range (by omega) (by omega)]; omega
  have hsk : ∀ (w0 : World) (o : Int), (sys_lseek_set w0 o).1.bytes = w0.bytes := by
    intro w0 o; unfold sys_lseek_set; split <;> rfl
  have hw1 : (if Int.ofNat w.pos ≠ i32 (HDR_SZ + pgno * ctx.page_sz)
      then (sys_lseek_set w (i32 (HDR_SZ + pgno * ctx.page_sz))).1 else w).bytes = w.bytes := by
    split
    · exact hsk _ _
    · rfl
  unfold csf_read_page
  by_cases hneg : pgno < 0
  · rw [if_pos hneg]
    exact ⟨SameButBuffers.refl ctx, rfl, h0⟩
  · rw [if_neg hneg]
    have := read_page_tail_frame env ctx (if Int.ofNat w.pos ≠ i32 (HDR_SZ + pgno * ctx.page_sz)
      then (sys_lseek_set w (i32 (HDR_SZ + pgno * ctx.page_sz))).1 else w) dst
    rw [hw1] at this
    exact this

/-- C15 (as stated, refuted): for the page number 4194304 and 512-byte pages the offset
`pgno * page_sz = 2^31` does not fit the `int` it is computed in, the `lseek` to the wrapped
offset fails and `csf_write_page` returns `(size_t)-1` instead of the length 3. -/
theorem page_offset_beyond_int_fails :
    (csf_write_page xorEnv (freshCtx 512) emptyWorld 4194304 [1, 2, 3] 3).2.2
      = 18446744073709551615 := by
  decide!

/-- C21 (as stated, refuted): for the offset `2^32` and `data_sz = 480` the start page computed
through the `int` parameter of `csf_pageno_for_offset` is 0, not `2^32 / 480 = 8947848`. -/
theorem start_page_truncates_offset :
    i32 (csf_pageno_for_offset (freshCtx 512) 4294967296) = 0 ∧
    (freshCtx 512).data_sz = 480 ∧ (4294967296 : Int) / 480 = 8947848 := by
  decide!

/-- The start page and the intra-page offset that `csf_read` and `csf_write` compute for an
offset within `int`. -/
theorem start_page_eq (ctx : CSF_CTX) (off : Int) (hD : 0 < ctx.data_sz)
    (hD1 : ctx.data_sz < 2147483648) (h0 : 0 ≤ off) (h1 : off < 2147483648) :
    i32 (csf_pageno_for_offset ctx off) = off / ctx.data_sz ∧
    i32 (Int.tmod off ctx.data_sz) = off % ctx.data_sz ∧
    off = off / ctx.data_sz * ctx.data_sz + off % ctx.data_sz ∧
    0 ≤ off % ctx.data_sz ∧ off % ctx.data_sz < ctx.data_sz := by
  have hq0 : 0 ≤ off / ctx.data_sz := Int.ediv_nonneg h0 (by omega)
  have hq1 : off / ctx.data_sz ≤ off := Int.ediv_le_self _ h0
  have hm := Int.emod_nonneg off (by omega : ctx.data_sz ≠ 0)
  have hm2 := Int.emod_lt_of_pos off hD
  have hdm := Int.ediv_add_emod off ctx.data_sz
  refine ⟨?_, ?_, ?_, hm, hm2⟩
  · unfold csf_pageno_for_offset
    rw [i32_of_range (by omega) h1, Int.tdiv_eq_ediv h0 (by omega)]
    exact i32_of_range (by omega) (by omega)
  · rw [Int.tmod_eq_emod h0 (by omega)]
    exact i32_of_range (by omega) (by omega)
  · rw [mul_comm]; omega

/-- C21 (amended): for every `data_sz > 0` and every offset `off` with `0 <= off <= INT_MAX`,
the start page that `csf_read` and `csf_write` compute is `off / data_sz`, the intra-page offset
they compute is `off mod data_sz`, and `off = page * data_sz + intra` with
`0 <= intra < data_sz`. -/
theorem start_page_geometry (ctx : CSF_CTX) (off : Int) (hD : 0 < ctx.data_sz)
    (hD1 : ctx.data_sz < 2147483648) (h0 : 0 ≤ off) (h1 : off < 2147483648) :
    i32 (csf_pageno_for_offset ctx off) = off / ctx.data_sz ∧
    i32 (Int.tmod off ctx.data_sz) = off % ctx.data_sz ∧
    off = off / ctx.data_sz * ctx.data_sz + off % ctx.data_sz ∧
    0 ≤ off % ctx.data_sz ∧ off % ctx.data_sz < ctx.data_sz :=
  start_page_eq ctx off hD hD1 h0 h1

theorem start_page_geometry_witness :
    i32 (csf_pageno_for_offset (freshCtx 512) 2000) = 2000 / (freshCtx 512).data_sz ∧
    i32 (Int.tmod 2000 (freshCtx 512).data_sz) = 2000 % (freshCtx 512).data_sz ∧
    (2000 : Int) = 2000 / (freshCtx 512).data_sz * (freshCtx 512).data_sz
      + 2000 % (freshCtx 512).data_sz ∧
    0 ≤ (2000 : Int) % (freshCtx 512).data_sz ∧
    (2000 : Int) % (freshCtx 512).data_sz < (freshCtx 512).data_sz :=
  start_page_geometry (freshCtx 512) 2000 (by decide!) (by decide!) (by decide) (by decide)

/-- C23 (defect of the code): on a one-page file holding `"hello"` whose every `read` fails,
`csf_file_size` does not return -1: it returns 5 in the context that wrote the page (the page
still in `ctx->page_buffer` is decoded) and 0 in a fresh context. -/
theorem file_size_ignores_read_failure :
    helloSys.2.bytes.length = 512 ∧
    sizeOf readFailEnv helloSys = 5 ∧
    sizeOf readFailEnv (freshCtx 512, helloSys.2) = 0 := by
  decide!

theorem read_retry_fails {env : Env} (w : World) (h : env.read_fails w.pos = true) (n : Nat) :
    ∀ t : Nat, read_retry env w n t = (w, -1, [])
  | 0 => by simp [read_retry, sys_read, h]
  | t + 1 => by
    have ih := read_retry_fails w h n t
    simp [read_retry, sys_read, h, ih]

/-- C29 (defect of the code): page 1 holds `u = 1` valid byte (`"B"`) and the assembly buffer
still holds `"AAAAA"`, left there by a read of page 0 that ended by `break`; a write of `"X"`
at intra-page offset `o = 3` of page 1 stores `"BAAX"`: the bytes in `[u, o)` read back as
`"AA"`, plaintext of page 0, not as zeros. -/
theorem in_page_gap_leaks_stale_bytes :
    pageUsed xorEnv staleSys 1 = 1 ∧
    staleSys.1.csf_buffer.take 5 = [65, 65, 65, 65, 65] ∧
    (readN xorEnv (seekTo xorEnv leakSys 480) 4).2 = ([66, 65, 65, 88], 4) := by
  decide!

/-- A page that lies within the file and is read without a fault reaches the codec half of
`csf_read_page` as the `page_sz` bytes at its offset. -/
theorem csf_read_page_eq_decode {env : Env} (ctx : CSF_CTX) (w : World) (p PS : Nat) (dst : Buf)
    (hps : ctx.page_sz = (PS : Int)) (hPS0 : 0 < PS) (hpb : ctx.page_buffer.length = PS)
    (hr : p * PS + PS < 2147483648) (hn : env.read_fails (p * PS) = false)
    (hlen : p * PS + PS ≤ w.bytes.length) :
    csf_read_page env ctx w (p : Int) dst =
      read_page_decode env { ctx with page_buffer := (w.bytes.drop (p * PS)).take PS }
        { w with pos := p * PS + PS } dst := by
  have hso : i32 (HDR_SZ + (p : Int) * ctx.page_sz) = ((p * PS : Nat) : Int) := by
    rw [hps]; unfold HDR_SZ
    rw [zero_add, ← Nat.cast_mul]
    exact i32_nat (by omega)
  have hnn : ¬ ((p : Int) < 0) := by omega
  unfold csf_read_page
  rw [if_neg hnn]
  simp only [hso, lseek_to]
  rw [hps, Int.toNat_ofNat, read_page_loop_full PS hPS0 (by omega) ctx.page_buffer _ hn hpb hlen]
  simp only [Bool.false_eq_true, if_false]

theorem read_page_decode_world (env : Env) (ctx : CSF_CTX) (w1 w2 : World) (dst : Buf) :
    (read_page_decode env ctx w1 dst).1 = (read_page_decode env ctx w2 dst).1 ∧
    (read_page_decode env ctx w1 dst).2.2 = (read_page_decode env ctx w2 dst).2.2 := by
  unfold read_page_decode
  exact ⟨rfl, rfl⟩

/-- C26 (amended): for every key (every context), every page number `p` whose page ends within
`INT_MAX` (`(p + 1) * page_sz < 2^31`) and every two backing files that hold page `p` in full
and agree on its `page_sz` bytes, a `csf_read_page(p)` whose `read` does not fail returns the
same length on both files and leaves the same context, hence the same payload bytes in the
buffer it fills; bytes outside the page do not influence the result. -/
theorem page_decode_independent {env : Env} (ctx : CSF_CTX) (w1 w2 : World) (p PS : Nat)
    (dst : Buf) (hps : ctx.page_sz = (PS : Int)) (hPS0 : 0 < PS)
    (hpb : ctx.page_buffer.length = PS) (hr : p * PS + PS < 2147483648)
    (hn : env.read_fails (p * PS) = false)
    (hlen1 : p * PS + PS ≤ w1.bytes.length) (hlen2 : p * PS + PS ≤ w2.bytes.length)
    (hsame : (w1.bytes.drop (p * PS)).take PS = (w2.bytes.drop (p * PS)).take PS) :
    (csf_read_page env ctx w1 (p : Int) dst).2.2 = (csf_read_page env ctx w2 (p : Int) dst).2.2 ∧
    (csf_read_page env ctx w1 (p : Int) dst).1 = (csf_read_page env ctx w2 (p : Int) dst).1 := by
  rw [csf_read_page_eq_decode ctx w1 p PS dst hps hPS0 hpb hr hn hlen1,
    csf_read_page_eq_decode ctx w2 p PS dst hps hPS0 hpb hr hn hlen2, hsame]
  have h := read_page_decode_world env
    { ctx with page_buffer := (w2.bytes.drop (p * PS)).take PS }
    { w1 with pos := p * PS + PS } { w2 with pos := p * PS + PS } dst
  exact ⟨h.2, h.1⟩

theorem page_decode_independent_witness :
    (csf_read_page xorEnv (freshCtx 512) twoWritesSys.2 ((0 : Nat) : Int) Buf.csf_buffer).2.2 =
      (csf_read_page xorEnv (freshCtx 512)
        { emptyWorld with bytes := twoWritesSys.2.bytes.take 512 } ((0 : Nat) : Int)
        Buf.csf_buffer).2.2 ∧
    (csf_read_page xorEnv (freshCtx 512) twoWritesSys.2 ((0 : Nat) : Int) Buf.csf_buffer).1 =
      (csf_read_page xorEnv (freshCtx 512)
        { emptyWorld with bytes := twoWritesSys.2.bytes.take 512 } ((0 : Nat) : Int)
        Buf.csf_buffer).1 :=
  page_decode_independent (freshCtx 512) twoWritesSys.2
    { emptyWorld with bytes := twoWritesSys.2.bytes.take 512 } 0 512 Buf.csf_buffer
    (by decide!) (by decide) (by decide!) (by decide) rfl (by decide!) (by decide!) (by decide!)

/-! ## Page arithmetic -/

/-- The number of pages `csf_page_count_for_length` computes for a non-negative length: turn
`k` of a loop over the pages is due exactly when page `k` starts before the length. -/
theorem page_count_for_length_spec (ctx : CSF_CTX) (T : Int) (hD : 0 < ctx.data_sz)
    (hT0 : 0 ≤ T) (hT1 : T < 2147483648) :
    0 ≤ csf_page_count_for_length ctx T ∧
    csf_page_count_for_length ctx T ≤ T ∧
    ∀ k : Int, (k < csf_page_count_for_length ctx T ↔ k * ctx.data_sz < T) := by
  unfold csf_page_count_for_length
  generalize ctx.data_sz = D at *
  have hT : i32 T = T := i32_of_range (by omega) hT1
  have hq0 : 0 ≤ T / D := Int.ediv_nonneg hT0 (by omega)
  have hq1 : T / D ≤ T := Int.ediv_le_self _ hT0
  have hm := Int.emod_nonneg T (by omega : D ≠ 0)
  have hm2 := Int.emod_lt_of_pos T hD
  have hdm := Int.ediv_add_emod T D
  have hqi : i32 (T / D) = T / D := i32_of_range (by omega) (by omega)
  have hmul : ∀ k : Int, (k ≤ T / D ↔ k * D ≤ T) := fun k => Int.le_ediv_iff_mul_le hD
  simp only [hT, Int.tdiv_eq_ediv hT0 (by omega : 0 ≤ D), Int.tmod_eq_emod hT0 (by omega : 0 ≤ D), hqi]
  by_cases hz : T % D = 0
  · rw [if_neg (not_not.2 hz)]
    refine ⟨hq0, hq1, fun k => ?_⟩
    have hTe : T = T / D * D := by rw [mul_comm]; omega
    constructor
    · intro hk
      have := (mul_lt_mul_right hD).2 hk
      omega
    · intro hk
      rw [hTe] at hk
      exact (mul_lt_mul_right hD).1 hk
  · rw [if_pos hz]
    have hlt : T / D < T := by
      rcases lt_or_ge (T / D) T with h | h
      · exact h
      · exfalso
        have hqe : T / D = T := by omega
        rw [hqe] at hdm
        have h2 : 1 * T ≤ D * T := Int.mul_le_mul_of_nonneg_right (by omega) hT0
        have h3 : T % D = 0 := by omega
        exact hz h3
    have hs : i32 (T / D + 1) = T / D + 1 := i32_of_range (by omega) (by omega)
    rw [hs]
    refine ⟨by omega, by omega, fun k => ?_⟩
    constructor
    · intro hk
      have h1 := (hmul k).1 (by omega)
      rcases lt_or_ge (k * D) T with h | h
      · exact h
      · exfalso
        have : T = k * D := by omega
        apply hz
        rw [this]
        exact Int.mul_emod_left k D
    · intro hk
      have := (hmul k).2 (by omega)
      omega

theorem SameButBuffers.with_seek {a b : CSF_CTX} (h : SameButBuffers a b) (x : Int) :
    SameButBuffers { a with seek_ptr := x } { b with seek_ptr := x } := by
  unfold SameButBuffers at *
  rw [h]

theorem SameButBuffers.symm_seek {a b : CSF_CTX} (h : SameButBuffers a b) :
    a.seek_ptr = b.seek_ptr := h.seek_ptr.symm

theorem csf_page_count_for_file_world (ctx : CSF_CTX) (w : World) :
    (csf_page_count_for_file ctx w).1 = w := by
  unfold csf_page_count_for_file sys_lseek_set
  simp only
  rw [if_neg (by simp only [Int.ofNat_eq_coe]; omega)]
  simp

/-- The page count `csf_page_count_for_file` computes for a positive page size and a file of
fewer than `2^31` pages. -/
theorem csf_page_count_for_file_count (ctx : CSF_CTX) (w : World) (hPS : 0 < ctx.page_sz)
    (hN : (w.bytes.length : Int) / ctx.page_sz < 2147483648) :
    (csf_page_count_for_file ctx w).2 = (w.bytes.length : Int) / ctx.page_sz := by
  have h0 : 0 ≤ (w.bytes.length : Int) / ctx.page_sz := Int.ediv_nonneg (by omega) (by omega)
  unfold csf_page_count_for_file HDR_SZ
  simp only [Int.ofNat_eq_coe, sub_zero]
  rw [Int.tdiv_eq_ediv (by omega) (by omega), u64_of_range h0 (by omega)]
  exact i32_of_range (by omega) hN

theorem csf_file_size_frame (env : Env) (ctx : CSF_CTX) (w : World) :
    SameButBuffers ctx (csf_file_size env ctx w).1 ∧
    (csf_file_size env ctx w).2.1.bytes = w.bytes ∧
    i32 (csf_file_size env ctx w).2.2 = (csf_file_size env ctx w).2.2 := by
  have hf := csf_read_page_frame env ctx w
    (i32 ((csf_page_count_for_file ctx w).2 - 1)) Buf.page_buffer
  unfold csf_file_size
  simp only [csf_page_count_for_file_world]
  refine ⟨?_, ?_, ?_⟩
  · simp only [apply_ite Prod.fst, ite_self]
    exact hf.1
  · simp only [apply_ite Prod.snd, apply_ite Prod.fst, ite_self]
    exact hf.2.1
  · simp only [apply_ite Prod.snd, apply_ite i32]
    split
    · exact i32_of_range (by omega) (by omega)
    · split
      · exact i32_idem _
      · exact i32_idem _

/-- C6 (defect of the code): on a one-page file whose last page has the magic and the length
field -2, `csf_read_page` does not reject the negative length (the defect of C16) and hands
`(size_t)-2` to `csf_file_size`, which returns -1 and not `(N - 1) * data_sz + u` for `N = 1`
and a length `u` in `[0, data_sz]`. -/
theorem file_size_negative_length :
    (forgedWorld PAGE_MAGIC_NUM (-2)).bytes.length = 1 * 512 ∧
    (csf_read_page xorEnv (freshCtx 512) (forgedWorld PAGE_MAGIC_NUM (-2)) 0
      Buf.page_buffer).2.2 = 18446744073709551614 ∧
    (csf_file_size xorEnv (freshCtx 512) (forgedWorld PAGE_MAGIC_NUM (-2))).2.2 = -1 := by
  decide!

/-- The value of `csf_file_size` in terms of the page count and of what `csf_read_page` reports
for the last page. -/
theorem csf_file_size_eq (env : Env) (ctx : CSF_CTX) (w : World) (hPS : 0 < ctx.page_sz)
    (hN : (w.bytes.length : Int) / ctx.page_sz < 2147483648)
    (hfit : -2147483648 ≤ ((w.bytes.length : Int) / ctx.page_sz - 1) * ctx.data_sz
        + i32 (csf_read_page env ctx w ((w.bytes.length : Int) / ctx.page_sz - 1)
          Buf.page_buffer).2.2 ∧
      ((w.bytes.length : Int) / ctx.page_sz - 1) * ctx.data_sz
        + i32 (csf_read_page env ctx w ((w.bytes.length : Int) / ctx.page_sz - 1)
          Buf.page_buffer).2.2 < 2147483648) :
    (csf_file_size env ctx w).2.2 =
      if i32 (csf_read_page env ctx w ((w.bytes.length : Int) / ctx.page_sz - 1)
          Buf.page_buffer).2.2 < 0 then -1
      else if (w.bytes.length : Int) / ctx.page_sz = 0 then 0
      else ((w.bytes.length : Int) / ctx.page_sz - 1) * ctx.data_sz
        + i32 (csf_read_page env ctx w ((w.bytes.length : Int) / ctx.page_sz - 1)
          Buf.page_buffer).2.2 := by
  have h0 : 0 ≤ (w.bytes.length : Int) / ctx.page_sz := Int.ediv_nonneg (by omega) (by omega)
  have hcnt := csf_page_count_for_file_count ctx w hPS hN
  have hds := (csf_read_page_frame env ctx w ((w.bytes.length : Int) / ctx.page_sz - 1)
    Buf.page_buffer).1.data_sz
  have hi : i32 ((w.bytes.length : Int) / ctx.page_sz - 1)
      = (w.bytes.length : Int) / ctx.page_sz - 1 := i32_of_range (by omega) (by omega)
  unfold csf_file_size
  simp only [csf_page_count_for_file_world, hcnt, hi, hds]
  by_cases hz : (w.bytes.length : Int) / ctx.page_sz = 0
  · have hneg : (w.bytes.length : Int) / ctx.page_sz - 1 < 0 := by omega
    rw [csf_read_page_neg env ctx w _ hneg]
    simp only [hz]
    rw [i32_of_range (by omega) (by omega)]
    simp
  · generalize i32 (csf_read_page env ctx w ((w.bytes.length : Int) / ctx.page_sz - 1)
      Buf.page_buffer).2.2 = u at *
    split
    · rfl
    · exact i32_of_range hfit.1 hfit.2

theorem csf_seek_invalid_whence_aux (env : Env) (ctx : CSF_CTX) (w : World)
    (offset whence : Int) (h0 : whence ≠ SEEK_SET) (h1 : whence ≠ SEEK_CUR)
    (h2 : whence ≠ SEEK_END) : csf_seek env ctx w offset whence = (ctx, w, -1) := by
  simp [csf_seek, h0, h1, h2]

theorem slice_take (bytes : List Nat) (a m k : Nat) (h : a + m ≤ k) :
    ((bytes.take k).drop a).take m = (bytes.drop a).take m := by
  apply List.ext_getElem?
  intro i
  by_cases c : i < m
  · rw [List.getElem?_take_of_lt c, List.getElem?_take_of_lt c, List.getElem?_drop,
      List.getElem?_drop, List.getElem?_take_of_lt (by omega)]
  · rw [List.getElem?_take_eq_none (by omega), List.getElem?_take_eq_none (by omega)]

/-- The file size `csf_file_size` computes for a file of `N + 1` whole pages whose last page is
a stored page with the valid bytes `d`. -/
theorem csf_file_size_hit {env : Env} (hc : CipherOK env) {ctx : CSF_CTX} {c : Codec}
    (hs : Shape ctx c) (hv : c.Valid env) (w : World) (N : Nat) {d : List Nat}
    (hlen : w.bytes.length = (N + 1) * c.page_sz)
    (hr : (N + 1) * c.page_sz < 2147483648)
    (hn : env.read_fails (N * c.page_sz) = false)
    (hpg : PageAt env c w.bytes N d) :
    (csf_file_size env ctx w).2.2 = (N : Int) * (c.data_sz : Int) + (d.length : Int) := by
  have hPSpos := hv.page_pos
  have hD0 := hv.data_pos
  have hsm := hv.small
  have hmul : (N + 1) * c.page_sz = N * c.page_sz + c.page_sz := by ring
  have hdl : d.length ≤ c.data_sz := by
    obtain ⟨_, _, _, _, _, _, _, h⟩ := hpg
    exact h
  have hDle : c.data_sz ≤ c.page_sz := by unfold Codec.page_sz; omega
  have hND : N * c.data_sz ≤ N * c.page_sz := Nat.mul_le_mul_left N hDle
  have hNle : N ≤ N * c.page_sz := Nat.le_mul_of_pos_right N hPSpos
  have hq : (w.bytes.length : Int) / ctx.page_sz = ((N + 1 : Nat) : Int) := by
    rw [hs.page, hlen]
    push_cast
    rw [Int.mul_ediv_cancel _ (by omega)]
  have hq1 : (w.bytes.length : Int) / ctx.page_sz - 1 = (N : Int) := by
    rw [hq]; push_cast; omega
  obtain ⟨pb, sb, -, -, -, hrd⟩ := csf_read_page_hit hc hs hv w N hn hpg (by omega) (by omega)
    Buf.page_buffer
  have hu : i32 (csf_read_page env ctx w ((w.bytes.length : Int) / ctx.page_sz - 1)
      Buf.page_buffer).2.2 = (d.length : Int) := by
    rw [hq1, hrd]
    exact i32_nat (by omega)
  have hsum : (N : Int) * (c.data_sz : Int) + (d.length : Int) < 2147483648 := by
    have : ((N * c.data_sz + d.length : Nat) : Int) < 2147483648 := by omega
    push_cast at this
    exact this
  have hsum0 : 0 ≤ (N : Int) * (c.data_sz : Int) := by positivity
  rw [csf_file_size_eq env ctx w (by rw [hs.page]; omega) (by rw [hq]; omega)
    (by rw [hu, hq1, hs.data]; omega)]
  rw [hu, hq1, hs.data, if_neg (by omega), hq, if_neg (by omega)]

/-- C14 (as stated, refuted): on a two-page file with `data_sz = 480`, `csf_truncate` for the
logical offset `2^32 + 480` receives the `int` 480 and cuts the file to one page (512 bytes),
not to `(2^32 + 480) / 480` pages. -/
theorem truncate_offset_beyond_int :
    twoWritesSys.2.bytes.length = 1024 ∧
    (csf_truncate twoWritesSys.1 twoWritesSys.2 (4294967296 + 480)).2.1.bytes.length = 512 ∧
    ((4294967296 + 480 : Int) / twoWritesSys.1.data_sz) * twoWritesSys.1.page_sz
      = 4581298688 := by
  decide!

/-- What `csf_truncate` does for an offset within `int`. -/
theorem csf_truncate_eq (ctx : CSF_CTX) (w : World) (off : Int) (N : Nat)
    (hD : 0 < ctx.data_sz) (hD1 : ctx.data_sz < 2147483648) (hPS : 0 < ctx.page_sz)
    (h0 : 0 ≤ off) (h1 : off < 2147483648) (hN : (N : Int) = off / ctx.data_sz)
    (hfit : off / ctx.data_sz * ctx.page_sz < 2147483648) :
    csf_truncate ctx w off =
      (ctx, { w with bytes := w.bytes.take (N * ctx.page_sz.toNat)
          ++ List.replicate (N * ctx.page_sz.toNat - w.bytes.length) 0 }, 0) := by
  obtain ⟨hsp, -, -, -, -⟩ := start_page_eq ctx off hD hD1 h0 h1
  have hq0 : 0 ≤ off / ctx.data_sz := Int.ediv_nonneg h0 (by omega)
  have hp0 : 0 ≤ off / ctx.data_sz * ctx.page_sz := Int.mul_nonneg hq0 (by omega)
  have hio : i32 off = off := i32_of_range (by omega) h1
  have hpn : csf_pageno_for_offset ctx off = off / ctx.data_sz := by
    unfold csf_pageno_for_offset
    rw [hio, Int.tdiv_eq_ediv h0 (by omega)]
  have htn : (off / ctx.data_sz * ctx.page_sz).toNat = N * ctx.page_sz.toNat := by
    rw [← hN]
    have : ctx.page_sz = (ctx.page_sz.toNat : Int) := by omega
    rw [this, ← Nat.cast_mul, Int.toNat_ofNat, Int.toNat_ofNat]
  unfold csf_truncate sys_ftruncate
  simp only [hio, hpn, HDR_SZ, zero_add]
  rw [i32_of_range (by omega) hfit, if_neg (by omega), htn]

/-- C14 (amended): for every logical offset `to_offset` with `0 <= to_offset <= INT_MAX`
whose page offset `(to_offset / data_sz) * page_sz` fits an `int`, `csf_truncate` returns 0 and
sets the length of the backing file to exactly `HDR_SZ + (to_offset / data_sz) * page_sz`, so
that afterwards the on-disk page count is `to_offset / data_sz`; and for a file that held at
least that many stored pages of full width, `csf_file_size` then returns
`(to_offset / data_sz) * data_sz`. -/
theorem csf_truncate_page_granular {env : Env} (hc : CipherOK env) {ctx : CSF_CTX} {c : Codec}
    (hs : Shape ctx c) (hv : c.Valid env) (w : World) (off : Int) (N : Nat)
    (h0 : 0 ≤ off) (h1 : off < 2147483648) (hN : (N : Int) = off / ctx.data_sz)
    (hfit : off / ctx.data_sz * ctx.page_sz < 2147483648)
    (hn : ∀ p, env.read_fails p = false) :
    (csf_truncate ctx w off).2.2 = 0 ∧
    ((csf_truncate ctx w off).2.1.bytes.length : Int)
      = HDR_SZ + off / ctx.data_sz * ctx.page_sz ∧
    (csf_page_count_for_file ctx (csf_truncate ctx w off).2.1).2 = off / ctx.data_sz ∧
    ((∀ p, p < N → ∃ d, PageAt env c w.bytes p d ∧ d.length = c.data_sz) →
      N * c.page_sz ≤ w.bytes.length →
      (csf_file_size env (csf_truncate ctx w off).1 (csf_truncate ctx w off).2.1).2.2
        = off / ctx.data_sz * ctx.data_sz) := by
  have hD := hv.data_pos
  have hsm := hv.small
  have hPSpos := hv.page_pos
  have hDle : c.data_sz ≤ c.page_sz := by unfold Codec.page_sz; omega
  have hpsn : ctx.page_sz.toNat = c.page_sz := by rw [hs.page, Int.toNat_ofNat]
  have hfitN : N * c.page_sz < 2147483648 := by
    have : ((N * c.page_sz : Nat) : Int) < 2147483648 := by
      push_cast; rw [hN, ← hs.page]; exact hfit
    omega
  rw [csf_truncate_eq ctx w off N (by rw [hs.data]; omega) (by rw [hs.data]; omega)
    (by rw [hs.page]; omega) h0 h1 hN hfit, hpsn]
  have hlen : (w.bytes.take (N * c.page_sz)
      ++ List.replicate (N * c.page_sz - w.bytes.length) 0).length = N * c.page_sz := by
    rw [List.length_append, List.length_take, List.length_replicate]; omega
  refine ⟨rfl, ?_, ?_, ?_⟩
  · show ((w.bytes.take (N * c.page_sz)
      ++ List.replicate (N * c.page_sz - w.bytes.length) 0).length : Int) = _
    rw [hlen, ← hN, hs.page]
    unfold HDR_SZ
    push_cast; ring
  · rw [csf_page_count_for_file_count]
    · show ((w.bytes.take (N * c.page_sz)
        ++ List.replicate (N * c.page_sz - w.bytes.length) 0).length : Int) / ctx.page_sz = _
      rw [hlen, ← hN, hs.page]
      push_cast
      exact Int.mul_ediv_cancel _ (by omega)
    · rw [hs.page]; omega
    · show ((w.bytes.take (N * c.page_sz)
        ++ List.replicate (N * c.page_sz - w.bytes.length) 0).length : Int) / ctx.page_sz < _
      rw [hlen, hs.page]
      push_cast
      rw [Int.mul_ediv_cancel _ (by omega)]
      have : N ≤ N * c.page_sz := Nat.le_mul_of_pos_right N hPSpos
      omega
  · intro hfull hheld
    have hbytes : w.bytes.take (N * c.page_sz)
        ++ List.replicate (N * c.page_sz - w.bytes.length) 0 = w.bytes.take (N * c.page_sz) := by
      rw [Nat.sub_eq_zero_of_le hheld]; simp
    rw [hbytes, ← hN, hs.data]
    rcases Nat.eq_zero_or_pos N with hz | hz
    · subst hz
      have hw0 : ({ w with bytes := w.bytes.take (0 * c.page_sz) } : World).bytes.length = 0 := by
        simp
      rw [csf_file_size_eq env ctx _ (by rw [hs.page]; omega)
        (by rw [hw0]; simp) (by
          rw [hw0]
          simp only [Nat.cast_zero, Int.zero_ediv, zero_sub]
          rw [csf_read_page_neg env ctx _ (-1) (by omega)]
          simp only
          rw [i32_of_range (by omega) (by omega)]
          rw [hs.data]; omega)]
      rw [hw0]
      simp only [Nat.cast_zero, Int.zero_ediv, zero_sub]
      rw [csf_read_page_neg env ctx _ (-1) (by omega)]
      simp only
      rw [i32_of_range (by omega) (by omega)]
      simp
    · obtain ⟨M, rfl⟩ : ∃ M, N = M + 1 := ⟨N - 1, by omega⟩
      obtain ⟨d, hpd, hdl⟩ := hfull M (by omega)
      have hmul : (M + 1) * c.page_sz = M * c.page_sz + c.page_sz := by ring
      have hat : PageAt env c
          ({ w with bytes := w.bytes.take ((M + 1) * c.page_sz) } : World).bytes M d := by
        unfold PageAt
        show IsPage env c (((w.bytes.take ((M + 1) * c.page_sz)).drop (M * c.page_sz)).take
          c.page_sz) d
        rw [slice_take _ _ _ _ (by omega)]
        exact hpd
      rw [csf_file_size_hit hc hs hv { w with bytes := w.bytes.take ((M + 1) * c.page_sz) } M
        (by show (w.bytes.take ((M + 1) * c.page_sz)).length = _
            rw [List.length_take]; omega)
        hfitN (hn _) hat, hdl]
      push_cast; ring

theorem csf_truncate_page_granular_witness :
    (csf_truncate (freshCtx 512) twoWritesSys.2 480).2.2 = 0 ∧
    ((csf_truncate (freshCtx 512) twoWritesSys.2 480).2.1.bytes.length : Int)
      = HDR_SZ + 480 / (freshCtx 512).data_sz * (freshCtx 512).page_sz :=
  ⟨(csf_truncate_page_granular cipherOK_xorEnv shape_freshCtx_512 valid_freshCtx_512
      twoWritesSys.2 480 1 (by decide) (by decide) (by decide!) (by decide!)
      (fun _ => rfl)).1,
    (csf_truncate_page_granular cipherOK_xorEnv shape_freshCtx_512 valid_freshCtx_512
      twoWritesSys.2 480 1 (by decide) (by decide) (by decide!) (by decide!)
      (fun _ => rfl)).2.1⟩

/-- C17 (as stated, refuted): after a full page of `"A"` bytes has been written, writing the
one-byte page `"B"` leaves `"B"` followed by `"A"` bytes in the payload region of the scratch
buffer that is encrypted: the positions from `len` up to `data_sz` are not zeroed. -/
theorem encode_keeps_stale_payload :
    (afterShortPage.1.scratch_buffer.drop 16).take 4 = [66, 65, 65, 65] ∧
    afterShortPage.2.2 = 1 := by
  decide!

/-- The context and the world `write_page_encode` produces, in closed form. -/
theorem write_page_encode_eq {env : Env} (hc : CipherOK env) {ctx : CSF_CTX} {c : Codec}
    (hs : Shape ctx c) (hv : c.Valid env) (w : World) (data : List Nat) (n : Nat)
    (hn : n ≤ c.data_sz) (hdata : n ≤ data.length) :
    write_page_encode env ctx w data (n : Int) =
      ({ ctx with
          page_buffer := List.map (env.rand w.rng) (List.range c.iv_sz) ++
            (if c.encrypted ≠ 0 then
              env.encrypt c.key (List.map (env.rand w.rng) (List.range c.iv_sz))
                (List.take (c.hdr_sz + c.data_sz)
                  (memcpy (memcpy ctx.scratch_buffer 0
                    (le32 (i32 PAGE_MAGIC_NUM) ++ le32 (n : Int)) 8) c.hdr_sz data n))
            else List.take (c.hdr_sz + c.data_sz)
                  (memcpy (memcpy ctx.scratch_buffer 0
                    (le32 (i32 PAGE_MAGIC_NUM) ++ le32 (n : Int)) 8) c.hdr_sz data n)),
          scratch_buffer := memcpy (memcpy ctx.scratch_buffer 0
            (le32 (i32 PAGE_MAGIC_NUM) ++ le32 (n : Int)) 8) c.hdr_sz data n },
        { w with rng := w.rng + 1 }) := by
  obtain ⟨hk, he, hI, hH, hD, hP, hpb, hsb, hcb⟩ := hs
  obtain ⟨h8, hD0, hsm, hblk⟩ := hv
  have hPS : c.page_sz = c.iv_sz + c.hdr_sz + c.data_sz := rfl
  have hsum : ((c.hdr_sz : Int) + (c.data_sz : Int)).toNat = c.hdr_sz + c.data_sz := by omega
  have h8n : sizeof_CSF_PAGE_HEADER.toNat = 8 := rfl
  have hnn : n < 2147483648 := by omega
  have hass0 : (n : Int) ≤ u64 (c.data_sz : Int) := by
    rw [u64_nat (by omega)]; omega
  have hivl : (List.map (env.rand w.rng) (List.range c.iv_sz)).length = c.iv_sz := by simp
  have hpb1 : List.take c.iv_sz
      (memcpy ctx.page_buffer 0 (List.map (env.rand w.rng) (List.range c.iv_sz)) c.iv_sz)
      = List.map (env.rand w.rng) (List.range c.iv_sz) := by
    apply take_eq_of_getElem? _ _ _ hivl
    intro i hi
    rw [memcpy_getElem? _ _ _ _ _ (by omega) (by omega), if_neg (by omega), if_pos (by omega)]
    rfl
  have hpb1l : (memcpy ctx.page_buffer 0 (List.map (env.rand w.rng) (List.range c.iv_sz))
      c.iv_sz).length = c.page_sz := by
    rw [memcpy_length _ _ _ _ (by omega) (by omega), hpb]
  have hh8 : (le32 (i32 PAGE_MAGIC_NUM) ++ le32 (n : Int)).length = 8 := by
    rw [List.length_append, le32_length, le32_length]
  have hs1l : (memcpy ctx.scratch_buffer 0 (le32 (i32 PAGE_MAGIC_NUM) ++ le32 (n : Int)) 8).length
      = c.page_sz := by
    rw [memcpy_length _ _ _ _ (by omega) (by omega), hsb]
  have hs2l : (memcpy (memcpy ctx.scratch_buffer 0 (le32 (i32 PAGE_MAGIC_NUM) ++ le32 (n : Int)) 8)
      c.hdr_sz data n).length = c.page_sz := by
    rw [memcpy_length _ _ _ _ (by omega) hdata, hs1l]
  have hpll : (List.take (c.hdr_sz + c.data_sz)
      (memcpy (memcpy ctx.scratch_buffer 0 (le32 (i32 PAGE_MAGIC_NUM) ++ le32 (n : Int)) 8)
        c.hdr_sz data n)).length = c.hdr_sz + c.data_sz := by
    rw [List.length_take, hs2l]; omega
  unfold write_page_encode
  simp only [hI, hH, hD, hk, he, Int.toNat_ofNat, hsum, h8n, hass0, if_true, i32_nat hnn]
  simp only [hpb1]
  generalize hiv : List.map (env.rand w.rng) (List.range c.iv_sz) = iv at *
  generalize hpb1g : memcpy ctx.page_buffer 0 iv c.iv_sz = pb1 at *
  generalize hs2 : memcpy (memcpy ctx.scratch_buffer 0 (le32 (i32 PAGE_MAGIC_NUM) ++ le32 (n : Int)) 8)
      c.hdr_sz data n = s2 at *
  generalize hplain : List.take (c.hdr_sz + c.data_sz) s2 = plain at *
  have hblk' : (plain.length : Int) % env.block_size = 0 := by rw [hpll]; exact hblk
  have houtl : (if c.encrypted ≠ 0 then env.encrypt c.key iv plain else plain).length
      = c.hdr_sz + c.data_sz := by
    split
    · rw [(hc _ _ _ hblk').1, hpll]
    · exact hpll
  generalize hout : (if c.encrypted ≠ 0 then env.encrypt c.key iv plain else plain) = out at *
  have hass : ¬ (c.encrypted ≠ 0 ∧ i32 (Int.ofNat out.length) ≠ (c.hdr_sz : Int) + (c.data_sz : Int)) := by
    rintro ⟨-, hne⟩
    apply hne
    rw [houtl, Int.ofNat_eq_coe, i32_nat (by omega)]
    push_cast; rfl
  rw [if_neg hass]
  have hpb2 : memcpy pb1 c.iv_sz out out.length = iv ++ out := by
    unfold memcpy
    rw [hpb1, List.take_length, List.drop_of_length_le (by omega), List.append_nil]
  rw [hpb2]

/-- C19 (as stated, refuted): for the block size 8 `csf_ctx_init` computes the header size
`8 / 8 = 1`, which is not the smallest multiple of 8 that is at least 8, and its own
`assert(ctx->page_header_sz % ctx->block_sz == 0)` is violated. -/
theorem header_sz_block_8_not_multiple :
    (csf_ctx_init { xorEnv with block_size := 8 } 3 testKey 32 512 2).1.page_header_sz = 1 ∧
    (csf_ctx_init { xorEnv with block_size := 8 } 3 testKey 32 512 2).2.2 = true ∧
    ¬ IsLeastMultipleGE 8 8 1 := by
  refine ⟨by decide!, by decide!, ?_⟩
  intro h
  have := h.2.1
  omega

/-- C19 (amended): for the parameters of the configured cipher (AES-256-CBC: block size 16,
IV length 16) and every `int` page size whose `data_sz` does not overflow, `csf_ctx_init`
computes `page_header_sz = 16`, the smallest multiple of `block_sz` that is at least
`sizeof(CSF_PAGE_HEADER) = 8`, and `data_sz = page_sz - iv_sz - page_header_sz`. -/
theorem header_sz_configured_cipher (env : Env) (fh : Int) (keydata : List Nat)
    (key_sz page_sz flags : Int)
    (hb : env.block_size = 16) (hiv : env.iv_length = 16)
    (hps : -2147483648 ≤ page_sz - 32 ∧ page_sz < 2147483648) :
    (csf_ctx_init env fh keydata key_sz page_sz flags).1.block_sz = 16 ∧
    (csf_ctx_init env fh keydata key_sz page_sz flags).1.page_header_sz = 16 ∧
    IsLeastMultipleGE (csf_ctx_init env fh keydata key_sz page_sz flags).1.block_sz
      sizeof_CSF_PAGE_HEADER (csf_ctx_init env fh keydata key_sz page_sz flags).1.page_header_sz ∧
    (csf_ctx_init env fh keydata key_sz page_sz flags).1.data_sz =
      (csf_ctx_init env fh keydata key_sz page_sz flags).1.page_sz
        - (csf_ctx_init env fh keydata key_sz page_sz flags).1.iv_sz
        - (csf_ctx_init env fh keydata key_sz page_sz flags).1.page_header_sz := by
  have hh := ctx_init_header_sz env fh keydata key_sz page_sz flags (by omega) (by omega)
  rw [hb] at hh
  have hh16 : (csf_ctx_init env fh keydata key_sz page_sz flags).1.page_header_sz = 16 := by
    rw [hh]; decide
  have hbs : (csf_ctx_init env fh keydata key_sz page_sz flags).1.block_sz = 16 := by
    simp only [csf_ctx_init, hb]; exact i32_of_range (by omega) (by omega)
  have hivs : (csf_ctx_init env fh keydata key_sz page_sz flags).1.iv_sz = 16 := by
    simp only [csf_ctx_init, hiv]; exact i32_of_range (by omega) (by omega)
  have hpg : (csf_ctx_init env fh keydata key_sz page_sz flags).1.page_sz = page_sz := by
    simp only [csf_ctx_init]
  have hds : (csf_ctx_init env fh keydata key_sz page_sz flags).1.data_sz =
      i32 (page_sz - (csf_ctx_init env fh keydata key_sz page_sz flags).1.iv_sz
        - (csf_ctx_init env fh keydata key_sz page_sz flags).1.page_header_sz) := by
    simp only [csf_ctx_init]
  refine ⟨hbs, hh16, ?_, ?_⟩
  · rw [hbs, hh16, sizeof_CSF_PAGE_HEADER]
    refine ⟨dvd_refl _, by omega, ?_⟩
    intro m hdvd hm
    exact Int.le_of_dvd (by omega) hdvd
  · rw [hds, hpg, hivs, hh16]
    exact i32_of_range (by omega) (by omega)

theorem header_sz_configured_cipher_witness :
    (csf_ctx_init xorEnv 3 testKey 32 512 2).1.block_sz = 16 ∧
    (csf_ctx_init xorEnv 3 testKey 32 512 2).1.page_header_sz = 16 ∧
    IsLeastMultipleGE (csf_ctx_init xorEnv 3 testKey 32 512 2).1.block_sz
      sizeof_CSF_PAGE_HEADER (csf_ctx_init xorEnv 3 testKey 32 512 2).1.page_header_sz ∧
    (csf_ctx_init xorEnv 3 testKey 32 512 2).1.data_sz =
      (csf_ctx_init xorEnv 3 testKey 32 512 2).1.page_sz
        - (csf_ctx_init xorEnv 3 testKey 32 512 2).1.iv_sz
        - (csf_ctx_init xorEnv 3 testKey 32 512 2).1.page_header_sz :=
  header_sz_configured_cipher xorEnv 3 testKey 32 512 2 rfl rfl (by decide)

/-- C20 (as stated, refuted): for the page size 16, which is not above
`iv_sz + page_header_sz = 32`, no assertion of `csf_ctx_init` is violated, it returns 0 and
the context it produces has `data_sz = -16`. -/
theorem ctx_init_accepts_page_sz_16 :
    (csf_ctx_init xorEnv 3 testKey 32 16 2).2.1 = 0 ∧
    (csf_ctx_init xorEnv 3 testKey 32 16 2).2.2 = false ∧
    (csf_ctx_init xorEnv 3 testKey 32 16 2).1.data_sz = -16 ∧
    (csf_ctx_init xorEnv 3 testKey 32 16 2).1.iv_sz = 16 ∧
    (csf_ctx_init xorEnv 3 testKey 32 16 2).1.page_header_sz = 16 := by
  decide!

/-- C20 (amended): `csf_ctx_init` has no error return: its value is 0 for every argument, and
its only checks are the four assertions that `iv_sz`, `page_header_sz`, `data_sz` and
`page_sz` are multiples of `block_sz`, none of which looks at the sign of `data_sz`.  The
`data_sz` of the context is `page_sz - iv_sz - page_header_sz` (for sizes that fit an `int`),
hence positive exactly when `page_sz > iv_sz + page_header_sz`. -/
theorem ctx_init_checks_multiples_only (env : Env) (fh : Int) (keydata : List Nat)
    (key_sz page_sz flags : Int)
    (hfit : -2147483648 ≤ page_sz
        - (csf_ctx_init env fh keydata key_sz page_sz flags).1.iv_sz
        - (csf_ctx_init env fh keydata key_sz page_sz flags).1.page_header_sz ∧
      page_sz - (csf_ctx_init env fh keydata key_sz page_sz flags).1.iv_sz
        - (csf_ctx_init env fh keydata key_sz page_sz flags).1.page_header_sz < 2147483648) :
    (csf_ctx_init env fh keydata key_sz page_sz flags).2.1 = 0 ∧
    ((csf_ctx_init env fh keydata key_sz page_sz flags).2.2 = false ↔
      (Int.tmod (csf_ctx_init env fh keydata key_sz page_sz flags).1.iv_sz
          (csf_ctx_init env fh keydata key_sz page_sz flags).1.block_sz = 0 ∧
        Int.tmod (csf_ctx_init env fh keydata key_sz page_sz flags).1.page_header_sz
          (csf_ctx_init env fh keydata key_sz page_sz flags).1.block_sz = 0 ∧
        Int.tmod (csf_ctx_init env fh keydata key_sz page_sz flags).1.data_sz
          (csf_ctx_init env fh keydata key_sz page_sz flags).1.block_sz = 0 ∧
        Int.tmod (csf_ctx_init env fh keydata key_sz page_sz flags).1.page_sz
          (csf_ctx_init env fh keydata key_sz page_sz flags).1.block_sz = 0)) ∧
    (csf_ctx_init env fh keydata key_sz page_sz flags).1.data_sz =
      (csf_ctx_init env fh keydata key_sz page_sz flags).1.page_sz
        - (csf_ctx_init env fh keydata key_sz page_sz flags).1.iv_sz
        - (csf_ctx_init env fh keydata key_sz page_sz flags).1.page_header_sz ∧
    (0 < (csf_ctx_init env fh keydata key_sz page_sz flags).1.data_sz ↔
      (csf_ctx_init env fh keydata key_sz page_sz flags).1.iv_sz
        + (csf_ctx_init env fh keydata key_sz page_sz flags).1.page_header_sz
        < (csf_ctx_init env fh keydata key_sz page_sz flags).1.page_sz) := by
  have hds : (csf_ctx_init env fh keydata key_sz page_sz flags).1.data_sz =
      i32 (page_sz - (csf_ctx_init env fh keydata key_sz page_sz flags).1.iv_sz
        - (csf_ctx_init env fh keydata key_sz page_sz flags).1.page_header_sz) := by
    simp only [csf_ctx_init]
  have hpg : (csf_ctx_init env fh keydata key_sz page_sz flags).1.page_sz = page_sz := by
    simp only [csf_ctx_init]
  refine ⟨by simp only [csf_ctx_init], ?_, ?_, ?_⟩
  · simp only [csf_ctx_init, decide_eq_false_iff_not, not_not]
  · rw [hds, hpg, i32_of_range hfit.1 hfit.2]
  · rw [hds, hpg, i32_of_range hfit.1 hfit.2]
    omega

theorem ctx_init_checks_multiples_only_witness :
    (csf_ctx_init xorEnv 3 testKey 32 32 2).2.1 = 0 ∧
    ((csf_ctx_init xorEnv 3 testKey 32 32 2).2.2 = false ↔
      (Int.tmod (csf_ctx_init xorEnv 3 testKey 32 32 2).1.iv_sz
          (csf_ctx_init xorEnv 3 testKey 32 32 2).1.block_sz = 0 ∧
        Int.tmod (csf_ctx_init xorEnv 3 testKey 32 32 2).1.page_header_sz
          (csf_ctx_init xorEnv 3 testKey 32 32 2).1.block_sz = 0 ∧
        Int.tmod (csf_ctx_init xorEnv 3 testKey 32 32 2).1.data_sz
          (csf_ctx_init xorEnv 3 testKey 32 32 2).1.block_sz = 0 ∧
        Int.tmod (csf_ctx_init xorEnv 3 testKey 32 32 2).1.page_sz
          (csf_ctx_init xorEnv 3 testKey 32 32 2).1.block_sz = 0)) ∧
    (csf_ctx_init xorEnv 3 testKey 32 32 2).1.data_sz =
      (csf_ctx_init xorEnv 3 testKey 32 32 2).1.page_sz
        - (csf_ctx_init xorEnv 3 testKey 32 32 2).1.iv_sz
        - (csf_ctx_init xorEnv 3 testKey 32 32 2).1.page_header_sz ∧
    (0 < (csf_ctx_init xorEnv 3 testKey 32 32 2).1.data_sz ↔
      (csf_ctx_init xorEnv 3 testKey 32 32 2).1.iv_sz
        + (csf_ctx_init xorEnv 3 testKey 32 32 2).1.page_header_sz
        < (csf_ctx_init xorEnv 3 testKey 32 32 2).1.page_sz) :=
  ctx_init_checks_multiples_only xorEnv 3 testKey 32 32 2 (by decide!)

/-- The assertions of `csf_ctx_init` at work: for the page size 500 the configured cipher
gives `data_sz = 468`, which is not a multiple of the block size 16, and
`assert(ctx->data_sz % ctx->block_sz == 0)` is violated. -/
theorem ctx_init_page_sz_500_violates_assert :
    (csf_ctx_init xorEnv 3 testKey 32 500 2).1.data_sz = 468 ∧
    (csf_ctx_init xorEnv 3 testKey 32 500 2).2.2 = true := by
  decide!

/-- C12 (as stated, refuted): with the seek pointer at 481, `csf_seek` with `SEEK_CUR` and the
offset `2^63 - 1` does not set the seek pointer to `481 + (2^63 - 1)`: the sum is not an
`off_t` value, and the seek pointer becomes `-2^63 + 480`; the same happens with `SEEK_END`
on a file of size 481. -/
theorem seek_sum_wraps_off_t :
    (seekTo xorEnv (freshSys 512) 481).1.seek_ptr = 481 ∧
    (csf_seek xorEnv (seekTo xorEnv (freshSys 512) 481).1 (seekTo xorEnv (freshSys 512) 481).2
      9223372036854775807 SEEK_CUR).1.seek_ptr = -9223372036854775328 ∧
    (csf_seek xorEnv (seekTo xorEnv (freshSys 512) 481).1 (seekTo xorEnv (freshSys 512) 481).2
      9223372036854775807 SEEK_CUR).2.2 = -9223372036854775328 ∧
    (csf_file_size xorEnv twoWritesSys.1 twoWritesSys.2).2.2 = 481 ∧
    (csf_seek xorEnv twoWritesSys.1 twoWritesSys.2 9223372036854775807 SEEK_END).1.seek_ptr
      = -9223372036854775328 := by
  decide!

/-- C12 (amended): for every offset, `csf_seek` with `SEEK_SET` sets `seek_ptr` to, and
returns, `offset`; with `SEEK_CUR` it sets and returns `seek_ptr + offset` whenever that sum
is an `off_t` value; with `SEEK_END` it sets and returns `csf_file_size() + offset` whenever
`csf_file_size()` is not negative and the sum is an `off_t` value, leaving the other scalar
fields of the context as they are.  No bound against the file size is checked, and the bytes
of the backing file are not modified, whatever `whence` is. -/
theorem csf_seek_targets (env : Env) (ctx : CSF_CTX) (w : World) (offset : Int) :
    csf_seek env ctx w offset SEEK_SET = ({ ctx with seek_ptr := offset }, w, offset) ∧
    (-9223372036854775808 ≤ ctx.seek_ptr + offset →
      ctx.seek_ptr + offset < 9223372036854775808 →
      csf_seek env ctx w offset SEEK_CUR =
        ({ ctx with seek_ptr := ctx.seek_ptr + offset }, w, ctx.seek_ptr + offset)) ∧
    (0 ≤ (csf_file_size env ctx w).2.2 →
      (csf_file_size env ctx w).2.2 + offset < 9223372036854775808 →
      -9223372036854775808 ≤ (csf_file_size env ctx w).2.2 + offset →
      (csf_seek env ctx w offset SEEK_END).1.seek_ptr = (csf_file_size env ctx w).2.2 + offset ∧
      (csf_seek env ctx w offset SEEK_END).2.2 = (csf_file_size env ctx w).2.2 + offset ∧
      SameButBuffers { ctx with seek_ptr := (csf_file_size env ctx w).2.2 + offset }
        (csf_seek env ctx w offset SEEK_END).1) ∧
    ∀ whence : Int, (csf_seek env ctx w offset whence).2.1.bytes = w.bytes := by
  obtain ⟨hf1, hf2, hf3⟩ := csf_file_size_frame env ctx w
  have hset : csf_seek env ctx w offset SEEK_SET = ({ ctx with seek_ptr := offset }, w, offset) := by
    unfold csf_seek
    rw [if_pos rfl]
  have hcb : (csf_seek env ctx w offset SEEK_CUR).2.1.bytes = w.bytes := by
    unfold csf_seek
    rw [if_neg (by decide), if_pos rfl]
  have heb : (csf_seek env ctx w offset SEEK_END).2.1.bytes = w.bytes := by
    unfold csf_seek
    rw [if_neg (by decide), if_neg (by decide), if_pos rfl]
    exact hf2
  refine ⟨hset, ?_, ?_, ?_⟩
  · intro h1 h2
    unfold csf_seek
    rw [if_neg (by decide), if_pos rfl]
    simp only [i64_of_range h1 h2]
  · intro h0 h2 h1
    have he : csf_seek env ctx w offset SEEK_END =
        ({ (csf_file_size env ctx w).1 with
            seek_ptr := (csf_file_size env ctx w).2.2 + offset },
          (csf_file_size env ctx w).2.1, (csf_file_size env ctx w).2.2 + offset) := by
      unfold csf_seek
      rw [if_neg (by decide), if_neg (by decide), if_pos rfl]
      simp only [hf3, if_neg (not_lt.2 h0), i64_of_range h1 h2]
    rw [he]
    exact ⟨rfl, rfl, hf1.with_seek _⟩
  · intro whence
    by_cases h0 : whence = SEEK_SET
    · rw [h0, hset]
    · by_cases h1 : whence = SEEK_CUR
      · rw [h1]; exact hcb
      · by_cases h2 : whence = SEEK_END
        · rw [h2]; exact heb
        · rw [csf_seek_invalid_whence_aux env ctx w offset whence h0 h1 h2]

theorem csf_seek_targets_witness :
    csf_seek xorEnv twoWritesSys.1 twoWritesSys.2 7 SEEK_SET =
      ({ twoWritesSys.1 with seek_ptr := 7 }, twoWritesSys.2, 7) ∧
    csf_seek xorEnv twoWritesSys.1 twoWritesSys.2 7 SEEK_CUR =
      ({ twoWritesSys.1 with seek_ptr := twoWritesSys.1.seek_ptr + 7 }, twoWritesSys.2,
        twoWritesSys.1.seek_ptr + 7) ∧
    ((csf_seek xorEnv twoWritesSys.1 twoWritesSys.2 7 SEEK_END).1.seek_ptr =
        (csf_file_size xorEnv twoWritesSys.1 twoWritesSys.2).2.2 + 7 ∧
      (csf_seek xorEnv twoWritesSys.1 twoWritesSys.2 7 SEEK_END).2.2 =
        (csf_file_size xorEnv twoWritesSys.1 twoWritesSys.2).2.2 + 7 ∧
      SameButBuffers
        { twoWritesSys.1 with
          seek_ptr := (csf_file_size xorEnv twoWritesSys.1 twoWritesSys.2).2.2 + 7 }
        (csf_seek xorEnv twoWritesSys.1 twoWritesSys.2 7 SEEK_END).1) ∧
    ∀ whence : Int, (csf_seek xorEnv twoWritesSys.1 twoWritesSys.2 7 whence).2.1.bytes
      = twoWritesSys.2.bytes :=
  ⟨(csf_seek_targets xorEnv twoWritesSys.1 twoWritesSys.2 7).1,
    (csf_seek_targets xorEnv twoWritesSys.1 twoWritesSys.2 7).2.1 (by decide!) (by decide!),
    (csf_seek_targets xorEnv twoWritesSys.1 twoWritesSys.2 7).2.2.1 (by decide!) (by decide!)
      (by decide!),
    (csf_seek_targets xorEnv twoWritesSys.1 twoWritesSys.2 7).2.2.2⟩

/-- The result of `csf_write_page` in terms of its codec half, when the `write` does not fail
and the page offset fits an `int`: the raw-page buffer is stored at the page offset. -/
theorem csf_write_page_eq {env : Env} (hc : CipherOK env) {ctx : CSF_CTX}
    {c : Codec} (hs : Shape ctx c) (hv : c.Valid env) (w : World) (p : Nat)
    (hn : env.write_fails (p * c.page_sz) = false) (data : List Nat)
    (n : Nat) (hnd : n ≤ c.data_sz) (hdata : n ≤ data.length)
    (hr : p * c.page_sz + c.page_sz < 2147483648) :
    csf_write_page env ctx w (p : Int) data (n : Int) =
      ((write_page_encode env ctx w data (n : Int)).1,
       { w with
          bytes := w.bytes.take (p * c.page_sz)
            ++ List.replicate (p * c.page_sz - w.bytes.length) 0
            ++ (write_page_encode env ctx w data (n : Int)).1.page_buffer
            ++ w.bytes.drop (p * c.page_sz + c.page_sz),
          pos := p * c.page_sz + c.page_sz,
          rng := w.rng + 1 }, (n : Int)) := by
  have hPSpos := hv.page_pos
  have hsm := hv.small
  have hso := page_offset_eq hs p (by omega)
  obtain ⟨pb, sb, hpbl, hsbl, hpage, henc⟩ := write_page_encode_ok hc hs hv w data n hnd hdata
  obtain ⟨hsk1, hsk2⟩ := lseek_pair w { w with rng := w.rng + 1 } rfl (p * c.page_sz)
  unfold csf_write_page
  simp only [hso, henc]
  rw [if_neg hsk2, hsk1, hs.page, Int.toNat_ofNat,
    write_page_loop_full c.page_sz hPSpos hsm pb _ hn hpbl]
  simp only [Bool.false_eq_true, if_false]

theorem csf_write_page_ctx (env : Env) (ctx : CSF_CTX) (w : World) (pgno : Int)
    (data : List Nat) (data_sz : Int) :
    (csf_write_page env ctx w pgno data data_sz).1 = (write_page_encode env ctx w data data_sz).1 := by
  unfold csf_write_page
  simp only [apply_ite Prod.fst, ite_self]

/-- C17 (amended): for a well-formed context and a `csf_write_page` call with `len <= data_sz`,
the scratch buffer after the call holds the 8-byte header (magic, `len`), keeps what it held
before in the positions from 8 up to `page_header_sz`, holds the `len` plaintext bytes from
`page_header_sz` on, and keeps what it held before in every position from
`page_header_sz + len` on (nothing is zeroed).  When the `write` of the page does not fail
(the page offset being an `int`), the call returns `len` and the page stored on disk is a
fresh IV followed by the first `page_header_sz + data_sz` bytes of that scratch buffer,
encrypted in encrypted mode and as they are in non-encrypted mode. -/
theorem encode_scratch_layout {env : Env} (hc : CipherOK env) {ctx : CSF_CTX} {c : Codec}
    (hs : Shape ctx c) (hv : c.Valid env) (w : World) (p : Nat) (data : List Nat) (n : Nat)
    (hn : n ≤ c.data_sz) (hdata : n ≤ data.length) :
    (csf_write_page env ctx w (p : Int) data (n : Int)).1.scratch_buffer.take 8
      = le32 (i32 PAGE_MAGIC_NUM) ++ le32 (n : Int) ∧
    (∀ j, 8 ≤ j → j < c.hdr_sz →
      (csf_write_page env ctx w (p : Int) data (n : Int)).1.scratch_buffer[j]?
        = ctx.scratch_buffer[j]?) ∧
    ((csf_write_page env ctx w (p : Int) data (n : Int)).1.scratch_buffer.drop c.hdr_sz).take n
      = data.take n ∧
    (∀ j, c.hdr_sz + n ≤ j →
      (csf_write_page env ctx w (p : Int) data (n : Int)).1.scratch_buffer[j]?
        = ctx.scratch_buffer[j]?) ∧
    (env.write_fails (p * c.page_sz) = false → p * c.page_sz + c.page_sz < 2147483648 →
      (csf_write_page env ctx w (p : Int) data (n : Int)).2.2 = (n : Int) ∧
      ((csf_write_page env ctx w (p : Int) data (n : Int)).2.1.bytes.drop (p * c.page_sz)).take
          c.iv_sz = List.map (env.rand w.rng) (List.range c.iv_sz) ∧
      ((csf_write_page env ctx w (p : Int) data (n : Int)).2.1.bytes.drop
          (p * c.page_sz + c.iv_sz)).take (c.hdr_sz + c.data_sz) =
        (if c.encrypted ≠ 0 then
          env.encrypt c.key (List.map (env.rand w.rng) (List.range c.iv_sz))
            ((csf_write_page env ctx w (p : Int) data (n : Int)).1.scratch_buffer.take
              (c.hdr_sz + c.data_sz))
        else (csf_write_page env ctx w (p : Int) data (n : Int)).1.scratch_buffer.take
          (c.hdr_sz + c.data_sz))) := by
  have h8 := hv.hdr_ge
  have hsm := hv.small
  have hPS : c.page_sz = c.iv_sz + c.hdr_sz + c.data_sz := rfl
  have hsb := hs.scratch_len
  have hh8 : (le32 (i32 PAGE_MAGIC_NUM) ++ le32 (n : Int)).length = 8 := by
    rw [List.length_append, le32_length, le32_length]
  have hs1l : (memcpy ctx.scratch_buffer 0 (le32 (i32 PAGE_MAGIC_NUM) ++ le32 (n : Int)) 8).length
      = c.page_sz := by
    rw [memcpy_length _ _ _ _ (by omega) (by omega), hsb]
  have hs2l : (memcpy (memcpy ctx.scratch_buffer 0 (le32 (i32 PAGE_MAGIC_NUM) ++ le32 (n : Int)) 8)
      c.hdr_sz data n).length = c.page_sz := by
    rw [memcpy_length _ _ _ _ (by omega) hdata, hs1l]
  have hdtl : (List.take n data).length = n := by rw [List.length_take]; omega
  have hivl : (List.map (env.rand w.rng) (List.range c.iv_sz)).length = c.iv_sz := by simp
  have hpll : (List.take (c.hdr_sz + c.data_sz)
      (memcpy (memcpy ctx.scratch_buffer 0 (le32 (i32 PAGE_MAGIC_NUM) ++ le32 (n : Int)) 8)
        c.hdr_sz data n)).length = c.hdr_sz + c.data_sz := by
    rw [List.length_take, hs2l]; omega
  have hsceq : (csf_write_page env ctx w (p : Int) data (n : Int)).1.scratch_buffer
      = memcpy (memcpy ctx.scratch_buffer 0
          (le32 (i32 PAGE_MAGIC_NUM) ++ le32 (n : Int)) 8) c.hdr_sz data n := by
    rw [csf_write_page_ctx, write_page_encode_eq hc hs hv w data n hn hdata]
  rw [hsceq]
  refine ⟨?_, ?_, ?_, ?_, ?_⟩
  · apply take_eq_of_getElem? _ _ _ hh8
    intro i hi
    rw [memcpy_getElem? _ _ _ _ _ (by omega) hdata,
      if_pos (by omega), memcpy_getElem? _ _ _ _ _ (by omega) (by omega), if_neg (by omega),
      if_pos (by omega)]
    rfl
  · intro j hj1 hj2
    rw [memcpy_getElem? _ _ _ _ _ (by omega) hdata,
      if_pos (by omega), memcpy_getElem? _ _ _ _ _ (by omega) (by omega), if_neg (by omega),
      if_neg (by omega)]
  · apply slice_eq_of_getElem? _ _ _ _ hdtl
    intro i hi
    rw [memcpy_getElem? _ _ _ _ _ (by omega) hdata,
      if_neg (by omega), if_pos (by omega), List.getElem?_take_of_lt hi]
    congr 1
    omega
  · intro j hj
    rw [memcpy_getElem? _ _ _ _ _ (by omega) hdata,
      if_neg (by omega), if_neg (by omega), memcpy_getElem? _ _ _ _ _ (by omega) (by omega),
      if_neg (by omega), if_neg (by omega)]
  · intro hf hr
    rw [csf_write_page_eq hc hs hv w p hf data n hn hdata hr,
      write_page_encode_eq hc hs hv w data n hn hdata]
    simp only
    generalize hsc : memcpy (memcpy ctx.scratch_buffer 0
      (le32 (i32 PAGE_MAGIC_NUM) ++ le32 (n : Int)) 8) c.hdr_sz data n = sc at *
    generalize hiv : List.map (env.rand w.rng) (List.range c.iv_sz) = iv at *
    have houtl : (if c.encrypted ≠ 0
        then env.encrypt c.key iv (List.take (c.hdr_sz + c.data_sz) sc)
        else List.take (c.hdr_sz + c.data_sz) sc).length = c.hdr_sz + c.data_sz := by
      split
      · rw [(hc _ _ _ (by rw [hpll]; exact hv.blocks)).1, hpll]
      · exact hpll
    generalize hout : (if c.encrypted ≠ 0 then
        env.encrypt c.key iv (List.take (c.hdr_sz + c.data_sz) sc)
        else List.take (c.hdr_sz + c.data_sz) sc) = out at *
    have hpbl : (iv ++ out).length = c.page_sz := by
      rw [List.length_append, hivl, houtl, hPS]; omega
    have hslice := put_slice w.bytes (iv ++ out) (p * c.page_sz)
    rw [hpbl] at hslice
    refine ⟨trivial, ?_, ?_⟩
    · have e : List.take c.iv_sz (List.take c.page_sz (List.drop (p * c.page_sz)
          (List.take (p * c.page_sz) w.bytes
            ++ List.replicate (p * c.page_sz - w.bytes.length) 0 ++ (iv ++ out)
            ++ List.drop (p * c.page_sz + c.page_sz) w.bytes)))
          = List.take c.iv_sz (iv ++ out) := by rw [hslice]
      rw [List.take_take, Nat.min_eq_left (by omega)] at e
      rw [e, List.take_left' hivl]
    · have e : List.drop c.iv_sz (List.take c.page_sz (List.drop (p * c.page_sz)
          (List.take (p * c.page_sz) w.bytes
            ++ List.replicate (p * c.page_sz - w.bytes.length) 0 ++ (iv ++ out)
            ++ List.drop (p * c.page_sz + c.page_sz) w.bytes)))
          = List.drop c.iv_sz (iv ++ out) := by rw [hslice]
      rw [List.drop_left' hivl, List.drop_take, List.drop_drop] at e
      have e2 : c.page_sz - c.iv_sz = c.hdr_sz + c.data_sz := by omega
      rw [e2] at e
      exact e

theorem shape_plainStaleCtx : Shape plainStaleCtx (codecOf plainStaleCtx) :=
  ⟨rfl, rfl, by decide!, by decide!, by decide!, by decide!, by decide!, by decide!, by decide!⟩

theorem valid_plainStaleCtx : (codecOf plainStaleCtx).Valid xorEnv :=
  ⟨by decide!, by decide!, by decide!, by decide!⟩

theorem encode_scratch_layout_witness :
    (csf_write_page xorEnv plainStaleCtx afterFullPage.2.1 ((1 : Nat) : Int) [66]
      ((1 : Nat) : Int)).1.scratch_buffer.take 8
      = le32 (i32 PAGE_MAGIC_NUM) ++ le32 ((1 : Nat) : Int) ∧
    (∀ j, 8 ≤ j → j < (codecOf plainStaleCtx).hdr_sz →
      (csf_write_page xorEnv plainStaleCtx afterFullPage.2.1 ((1 : Nat) : Int) [66]
        ((1 : Nat) : Int)).1.scratch_buffer[j]?
        = plainStaleCtx.scratch_buffer[j]?) ∧
    ((csf_write_page xorEnv plainStaleCtx afterFullPage.2.1 ((1 : Nat) : Int) [66]
      ((1 : Nat) : Int)).1.scratch_buffer.drop (codecOf plainStaleCtx).hdr_sz).take 1
      = [66].take 1 ∧
    (∀ j, (codecOf plainStaleCtx).hdr_sz + 1 ≤ j →
      (csf_write_page xorEnv plainStaleCtx afterFullPage.2.1 ((1 : Nat) : Int) [66]
        ((1 : Nat) : Int)).1.scratch_buffer[j]?
        = plainStaleCtx.scratch_buffer[j]?) ∧
    (csf_write_page xorEnv plainStaleCtx afterFullPage.2.1 ((1 : Nat) : Int) [66]
      ((1 : Nat) : Int)).2.2 = ((1 : Nat) : Int) ∧
    ((csf_write_page xorEnv plainStaleCtx afterFullPage.2.1 ((1 : Nat) : Int) [66]
      ((1 : Nat) : Int)).2.1.bytes.drop (1 * (codecOf plainStaleCtx).page_sz)).take
        (codecOf plainStaleCtx).iv_sz
      = List.map (xorEnv.rand afterFullPage.2.1.rng) (List.range (codecOf plainStaleCtx).iv_sz) ∧
    ((csf_write_page xorEnv plainStaleCtx afterFullPage.2.1 ((1 : Nat) : Int) [66]
      ((1 : Nat) : Int)).2.1.bytes.drop
        (1 * (codecOf plainStaleCtx).page_sz + (codecOf plainStaleCtx).iv_sz)).take
        ((codecOf plainStaleCtx).hdr_sz + (codecOf plainStaleCtx).data_sz) =
      (if (codecOf plainStaleCtx).encrypted ≠ 0 then
        xorEnv.encrypt (codecOf plainStaleCtx).key
          (List.map (xorEnv.rand afterFullPage.2.1.rng)
            (List.range (codecOf plainStaleCtx).iv_sz))
          ((csf_write_page xorEnv plainStaleCtx afterFullPage.2.1 ((1 : Nat) : Int) [66]
            ((1 : Nat) : Int)).1.scratch_buffer.take
            ((codecOf plainStaleCtx).hdr_sz + (codecOf plainStaleCtx).data_sz))
      else (csf_write_page xorEnv plainStaleCtx afterFullPage.2.1 ((1 : Nat) : Int) [66]
        ((1 : Nat) : Int)).1.scratch_buffer.take
        ((codecOf plainStaleCtx).hdr_sz + (codecOf plainStaleCtx).data_sz)) :=
  ⟨(encode_scratch_layout cipherOK_xorEnv shape_plainStaleCtx valid_plainStaleCtx
      afterFullPage.2.1 1 [66] 1 (by decide!) (by decide)).1,
    (encode_scratch_layout cipherOK_xorEnv shape_plainStaleCtx valid_plainStaleCtx
      afterFullPage.2.1 1 [66] 1 (by decide!) (by decide)).2.1,
    (encode_scratch_layout cipherOK_xorEnv shape_plainStaleCtx valid_plainStaleCtx
      afterFullPage.2.1 1 [66] 1 (by decide!) (by decide)).2.2.1,
    (encode_scratch_layout cipherOK_xorEnv shape_plainStaleCtx valid_plainStaleCtx
      afterFullPage.2.1 1 [66] 1 (by decide!) (by decide)).2.2.2.1,
    (encode_scratch_layout cipherOK_xorEnv shape_plainStaleCtx valid_plainStaleCtx
      afterFullPage.2.1 1 [66] 1 (by decide!) (by decide)).2.2.2.2 rfl (by decide!)⟩

/-- C26 (as stated, refuted): the two one-page files `"A"` and `"B"` agree on the bytes at
`[p * 512, (p + 1) * 512)` for `p = 4194304` (both end before), yet `csf_read_page(p)` returns
one byte on each and delivers `"A"` from the first and `"B"` from the second: the `int`
offset `p * page_sz = 2^31` wraps to a negative value, the `lseek` fails, and the page at the
descriptor offset 0 is read instead. -/
theorem page_offset_wrap_reads_other_page :
    ((writeAll xorEnv (freshSys 512) [65]).1.2.bytes.drop (4194304 * 512)).take 512 =
      ((writeAll xorEnv (freshSys 512) [66]).1.2.bytes.drop (4194304 * 512)).take 512 ∧
    (csf_read_page xorEnv (freshCtx 512)
      { (writeAll xorEnv (freshSys 512) [65]).1.2 with pos := 0 } 4194304 Buf.csf_buffer).2.2 = 1 ∧
    (csf_read_page xorEnv (freshCtx 512)
      { (writeAll xorEnv (freshSys 512) [66]).1.2 with pos := 0 } 4194304 Buf.csf_buffer).2.2 = 1 ∧
    (csf_read_page xorEnv (freshCtx 512)
      { (writeAll xorEnv (freshSys 512) [65]).1.2 with pos := 0 } 4194304
        Buf.csf_buffer).1.csf_buffer.take 1 = [65] ∧
    (csf_read_page xorEnv (freshCtx 512)
      { (writeAll xorEnv (freshSys 512) [66]).1.2 with pos := 0 } 4194304
        Buf.csf_buffer).1.csf_buffer.take 1 = [66] := by
  decide!

/-! ## Files of stored pages -/

theorem mul_succ_le {p N PS : Nat} (h : p < N) : p * PS + PS ≤ N * PS := by
  have : (p + 1) * PS ≤ N * PS := Nat.mul_le_mul_right PS h
  have e : (p + 1) * PS = p * PS + PS := by ring
  omega

theorem Disk.put {env : Env} {c : Codec} {bytes : List Nat} {N : Nat} {pg : Nat → List Nat}
    (h : Disk env c bytes N pg) (q : Nat) (hq : q ≤ N) {raw d : List Nat}
    (hraw : raw.length = c.page_sz) (hpage : IsPage env c raw d) :
    Disk env c
      (bytes.take (q * c.page_sz) ++ List.replicate (q * c.page_sz - bytes.length) 0 ++ raw
        ++ bytes.drop (q * c.page_sz + c.page_sz))
      (max N (q + 1)) (Function.update pg q d) := by
  obtain ⟨hlen, hpg⟩ := h
  have hqN : q * c.page_sz ≤ N * c.page_sz := Nat.mul_le_mul_right _ hq
  have hq1 : (q + 1) * c.page_sz = q * c.page_sz + c.page_sz := by ring
  constructor
  · have := put_length bytes raw (q * c.page_sz)
    rw [hraw] at this
    rw [this, hlen]
    rcases Nat.lt_or_ge q N with hlt | hge
    · have := @mul_succ_le _ _ c.page_sz hlt
      rw [Nat.max_eq_left (by omega), Nat.max_eq_left (by omega)]
    · have : q = N := by omega
      subst this
      rw [Nat.max_eq_right (by omega), Nat.max_eq_right (by omega), hq1]
  · intro p hp
    unfold PageAt
    by_cases hpq : p = q
    · subst hpq
      have := put_slice bytes raw (p * c.page_sz)
      rw [hraw] at this
      rw [this, Function.update_same]
      exact hpage
    · have hpN : p < N := by omega
      have h1 := @mul_succ_le _ _ c.page_sz hpN
      have hdis : p * c.page_sz + c.page_sz ≤ q * c.page_sz ∨
          q * c.page_sz + raw.length ≤ p * c.page_sz := by
        rw [hraw]
        rcases Nat.lt_or_ge p q with hlt | hge
        · left; exact mul_succ_le hlt
        · right
          have : q < p := by omega
          exact mul_succ_le this
      have := put_other bytes raw (q * c.page_sz) (p * c.page_sz) c.page_sz (by omega) hdis
      rw [hraw] at this
      rw [this, Function.update_noteq hpq]
      exact hpg p hpN

theorem Disk.congr {env : Env} {c : Codec} {bytes : List Nat} {N : Nat} {pg pg1 : Nat → List Nat}
    (h : Disk env c bytes N pg) (he : ∀ p, p < N → pg1 p = pg p) : Disk env c bytes N pg1 :=
  ⟨h.1, fun p hp => by rw [he p hp]; exact h.2 p hp⟩

theorem Disk.page_le {env : Env} {c : Codec} {bytes : List Nat} {N : Nat} {pg : Nat → List Nat}
    (h : Disk env c bytes N pg) {p : Nat} (hp : p < N) : (pg p).length ≤ c.data_sz := by
  obtain ⟨_, _, _, _, _, _, _, hl⟩ := h.2 p hp
  exact hl

theorem Disk.empty (env : Env) (c : Codec) (pg : Nat → List Nat) : Disk env c [] 0 pg :=
  ⟨by simp, fun p hp => by omega⟩

theorem Shape.with_bufs {ctx : CSF_CTX} {c : Codec} (hs : Shape ctx c) (pb sb cb : List Nat)
    (h1 : pb.length = c.page_sz) (h2 : sb.length = c.page_sz) (h3 : cb.length = c.page_sz) :
    Shape { ctx with page_buffer := pb, scratch_buffer := sb, csf_buffer := cb } c :=
  ⟨hs.key, hs.enc, hs.iv, hs.hdr, hs.data, hs.page, h1, h2, h3⟩

theorem Shape.with_seek_ptr {ctx : CSF_CTX} {c : Codec} (hs : Shape ctx c) (s : Int) :
    Shape { ctx with seek_ptr := s } c :=
  ⟨hs.key, hs.enc, hs.iv, hs.hdr, hs.data, hs.page, hs.page_len, hs.scratch_len, hs.csf_len⟩

theorem Codec.data_le_page (c : Codec) : c.data_sz ≤ c.page_sz := by
  unfold Codec.page_sz; omega

theorem memset0_all (b : List Nat) (n : Nat) (h : b.length = n) :
    memset0 b 0 n = List.replicate n 0 := by
  unfold memset0
  rw [List.drop_of_length_le (by omega)]
  simp

/-- The page read at the start of a turn of the main loop of `csf_write`, on a file of
stored pages: the assembly buffer receives the valid bytes of the page, or stays as it
is when the page is not read. -/
theorem csf_write_turn_read {env : Env} (hc : CipherOK env)
    {ctx : CSF_CTX} {c : Codec} (hs : Shape ctx c) (hv : c.Valid env) (w : World)
    {N : Nat} {pg : Nat → List Nat} (hdisk : Disk env c w.bytes N pg)
    (q : Nat) (hfr : env.read_fails (q * c.page_sz) = false)
    (pc : Int) (hpc : pc > (q : Int) ↔ q < N)
    (hr : q * c.page_sz + c.page_sz < 2147483648) :
    ∃ pb sb pos,
      pb.length = c.page_sz ∧ sb.length = c.page_sz ∧
      (if pc > (q : Int) then csf_read_page env ctx w (q : Int) Buf.csf_buffer
        else (ctx, w, 0)) =
        ({ ctx with
            page_buffer := pb,
            scratch_buffer := sb,
            csf_buffer := (if q < N then pg q else []) ++
              ctx.csf_buffer.drop (if q < N then pg q else []).length },
          { w with pos := pos },
          (((if q < N then pg q else []).length : Nat) : Int)) := by
  by_cases h : q < N
  · rw [if_pos (hpc.2 h), if_pos h]
    have hlen : q * c.page_sz + c.page_sz ≤ w.bytes.length := by
      rw [hdisk.1]; exact mul_succ_le h
    obtain ⟨pb, sb, h1, h2, _, h4⟩ :=
      csf_read_page_hit hc hs hv w q hfr (hdisk.2 q h) hlen hr Buf.csf_buffer
    exact ⟨pb, sb, _, h1, h2, h4⟩
  · rw [if_neg (fun h1 => h (hpc.1 h1)), if_neg h]
    refine ⟨ctx.page_buffer, ctx.scratch_buffer, w.pos, hs.page_len, hs.scratch_len, ?_⟩
    simp

theorem write_retry_fails {env : Env} (w : World) (h : env.write_fails w.pos = true)
    (buf : List Nat) : ∀ t : Nat, write_retry env w buf t = (w, -1)
  | 0 => by simp [write_retry, sys_write, h]
  | t + 1 => by
    have ih := write_retry_fails w h buf t
    simp [write_retry, sys_write, h, ih]

/-- A page write whose `write` fails on every attempt: `csf_write_page` returns -1 and the
backing file keeps its bytes. -/
theorem csf_write_page_fail {env : Env} (hc : CipherOK env) {ctx : CSF_CTX}
    {c : Codec} (hs : Shape ctx c) (hv : c.Valid env) (w : World) (p : Nat)
    (hn : env.write_fails (p * c.page_sz) = true) (data : List Nat)
    (n : Nat) (hnd : n ≤ c.data_sz) (hdata : n ≤ data.length)
    (hr : p * c.page_sz + c.page_sz < 2147483648) :
    ∃ pb sb, pb.length = c.page_sz ∧ sb.length = c.page_sz ∧
      csf_write_page env ctx w (p : Int) data (n : Int) =
        ({ ctx with page_buffer := pb, scratch_buffer := sb },
         { w with pos := p * c.page_sz, rng := w.rng + 1 }, u64 (-1)) := by
  have hPSpos := hv.page_pos
  have hsm := hv.small
  have hso := page_offset_eq hs p (by omega)
  obtain ⟨pb, sb, hpbl, hsbl, hpage, henc⟩ := write_page_encode_ok hc hs hv w data n hnd hdata
  obtain ⟨hsk1, hsk2⟩ := lseek_pair w { w with rng := w.rng + 1 } rfl (p * c.page_sz)
  refine ⟨pb, sb, hpbl, hsbl, ?_⟩
  have hlp : write_page_loop env (c.page_sz : Int) pb (c.page_sz + 1)
      { w with pos := p * c.page_sz, rng := w.rng + 1 } 0
      = ({ w with pos := p * c.page_sz, rng := w.rng + 1 }, true) := by
    rw [write_page_loop, if_pos (by rw [u64_nat hsm]; omega)]
    simp only [write_retry_fails { w with pos := p * c.page_sz, rng := w.rng + 1 } hn]
    rfl
  unfold csf_write_page
  simp only [hso, henc]
  rw [if_neg hsk2, hsk1, hs.page, Int.toNat_ofNat, hlp]
  simp only [if_true]

theorem csf_write_turn_disk {env : Env} (hc : CipherOK env)
    {ctx : CSF_CTX} {c : Codec} (hs : Shape ctx c) (hv : c.Valid env) (w : World)
    {N : Nat} {pg : Nat → List Nat} (hdisk : Disk env c w.bytes N pg)
    (data : List Nat) (sp k : Nat) (pc : Int) (T so doff : Nat)
    (hfr : env.read_fails ((sp + k) * c.page_sz) = false)
    (hfw : env.write_fails ((sp + k) * c.page_sz) = false)
    (hq : sp + k ≤ N) (hpc : pc > ((sp + k : Nat) : Int) ↔ sp + k < N)
    (hr : (sp + k) * c.page_sz + c.page_sz < 2147483648)
    (hT : 0 < T) (hT1 : T < 2147483648) (hso1 : so ≤ T) (hso2 : so < c.data_sz)
    (hdo1 : doff + (T - so) < 2147483648)
    (hdata : doff + (min T c.data_sz - so) ≤ data.length)
    (hsk : 0 ≤ ctx.seek_ptr) (hsk1 : ctx.seek_ptr + ((T - so : Nat) : Int) < 9223372036854775808) :
    ∃ pb sb w1,
      csf_write_turn env data (sp : Int) pc (k : Int) ctx w
          { to_write := (T : Int), start_offset := (so : Int), data_offset := (doff : Int) } =
        (({ ctx with
            page_buffer := pb,
            scratch_buffer := sb,
            csf_buffer := List.replicate c.page_sz 0,
            seek_ptr := ctx.seek_ptr + ((min T c.data_sz - so : Nat) : Int) },
          w1,
          { to_write := (T : Int) - ((max (min T c.data_sz)
              (if sp + k < N then pg (sp + k) else []).length : Nat) : Int),
            start_offset := 0,
            data_offset := ((doff + (min T c.data_sz - so) : Nat) : Int) }), true) ∧
      pb.length = c.page_sz ∧ sb.length = c.page_sz ∧
      w1.assert_failed = w.assert_failed ∧
      Disk env c w1.bytes (max N (sp + k + 1))
        (Function.update pg (sp + k)
          (pageAfterWrite (if sp + k < N then pg (sp + k) else []) ctx.csf_buffer so
            (data.drop doff) (min T c.data_sz - so))) := by
  have hD := hv.data_pos
  have hsm := hv.small
  have hDP := c.data_le_page
  have hq32 : sp + k < 2147483648 := by
    have := hv.page_pos
    have : sp + k ≤ (sp + k) * c.page_sz := Nat.le_mul_of_pos_right _ this
    omega
  have hqi : i32 ((sp : Int) + (k : Int)) = ((sp + k : Nat) : Int) := by
    rw [← Nat.cast_add]; exact i32_nat hq32
  obtain ⟨pb0, sb0, pos0, hpb0, hsb0, hrd⟩ :=
    csf_write_turn_read hc hs hv w hdisk (sp + k) hfr pc hpc hr
  generalize hold : (if sp + k < N then pg (sp + k) else []) = old at *
  have holdl : old.length ≤ c.data_sz := by
    rw [← hold]; split
    · exact hdisk.page_le (by assumption)
    · simp
  have hmin : (if (T : Int) < ctx.data_sz then (T : Int) else ctx.data_sz)
      = ((min T c.data_sz : Nat) : Int) := by
    rw [hs.data]; split <;> omega
  generalize hdsz : min T c.data_sz = dsz at *
  have hdszr : 1 ≤ dsz ∧ dsz ≤ c.data_sz ∧ dsz ≤ T ∧ so ≤ dsz := by omega
  have hli : i32 ((dsz : Int) - (so : Int)) = ((dsz - so : Nat) : Int) := by
    rw [i32_of_range (by omega) (by omega)]; omega
  have hcbl : (old ++ ctx.csf_buffer.drop old.length).length = c.page_sz := by
    simp only [List.length_append, List.length_drop, hs.csf_len]; omega
  have hmcl : (memcpy (old ++ ctx.csf_buffer.drop old.length) so (data.drop doff)
      (dsz - so)).length = c.page_sz := by
    rw [memcpy_length _ _ _ _ (by omega) (by simp only [List.length_drop]; omega)]
    exact hcbl
  have hs1 : Shape { ctx with
      page_buffer := pb0,
      scratch_buffer := sb0,
      csf_buffer := memcpy (old ++ ctx.csf_buffer.drop old.length) so (data.drop doff)
        (dsz - so) } c := hs.with_bufs _ _ _ hpb0 hsb0 hmcl
  have hb1 : max dsz old.length ≤ c.data_sz := by omega
  have hb2 : max dsz old.length ≤ (memcpy (old ++ ctx.csf_buffer.drop old.length) so
      (data.drop doff) (dsz - so)).length := by rw [hmcl]; omega
  have hb3 : dsz - so < 2147483648 := by omega
  have hb4 : max dsz old.length < 2147483648 := by omega
  have hb5 : ¬ (((max dsz old.length : Nat) : Int) < 0) := by omega
  have hb6 : i32 ((T : Int) - ((max dsz old.length : Nat) : Int))
      = (T : Int) - ((max dsz old.length : Nat) : Int) := i32_of_range (by omega) (by omega)
  have hb7 : i32 ((doff : Int) + ((dsz - so : Nat) : Int)) = ((doff + (dsz - so) : Nat) : Int) := by
    rw [← Nat.cast_add]; exact i32_nat (by omega)
  have hb8 : i64 (ctx.seek_ptr + ((dsz - so : Nat) : Int)) = ctx.seek_ptr + ((dsz - so : Nat) : Int) :=
    i64_of_range (by omega) (by omega)
  have hb9 : so + (dsz - so) = dsz := by omega
  have hm : (if ((dsz : Nat) : Int) < i32 ((old.length : Nat) : Int)
      then i32 ((old.length : Nat) : Int) else ((dsz : Nat) : Int))
      = ((max dsz old.length : Nat) : Int) := by
    rw [i32_nat (by omega)]; split <;> omega
  obtain ⟨pb, sb, hpb, hsb, hpage, hwr⟩ := csf_write_page_ok hc hs1 hv { w with pos := pos0 }
    (sp + k) hfw
    (memcpy (old ++ ctx.csf_buffer.drop old.length) so (data.drop doff) (dsz - so))
    (max dsz old.length) hb1 hb2 hr
  unfold csf_write_turn
  simp only [hmin, hqi, hrd, hli, Int.toNat_ofNat, u64_nat hb3, hm, u64_nat hb4, hwr, i32_nat hb4]
  rw [if_neg hb5]
  have hps : ctx.page_sz.toNat = c.page_sz := by rw [hs.page, Int.toNat_ofNat]
  refine ⟨pb, sb, { w with
      bytes := w.bytes.take ((sp + k) * c.page_sz)
        ++ List.replicate ((sp + k) * c.page_sz - w.bytes.length) 0 ++ pb
        ++ w.bytes.drop ((sp + k) * c.page_sz + c.page_sz),
      pos := (sp + k) * c.page_sz + c.page_sz,
      rng := w.rng + 1 }, ?_, hpb, hsb, rfl, ?_⟩
  · rw [hb6, hb7, hb8, hps, memset0_all _ _ hmcl]
  · have := hdisk.put (sp + k) hq hpb hpage
    unfold pageAfterWrite
    rw [hb9]
    exact this

theorem csf_write_turn_fail {env : Env} (hc : CipherOK env)
    {ctx : CSF_CTX} {c : Codec} (hs : Shape ctx c) (hv : c.Valid env) (w : World)
    {N : Nat} {pg : Nat → List Nat} (hdisk : Disk env c w.bytes N pg)
    (data : List Nat) (sp k : Nat) (pc : Int) (T so doff : Nat)
    (hfr : env.read_fails ((sp + k) * c.page_sz) = false)
    (hfw : env.write_fails ((sp + k) * c.page_sz) = true)
    (hpc : pc > ((sp + k : Nat) : Int) ↔ sp + k < N)
    (hr : (sp + k) * c.page_sz + c.page_sz < 2147483648)
    (hT : 0 < T) (hT1 : T < 2147483648) (hso1 : so ≤ T) (hso2 : so < c.data_sz)
    (hdata : doff + (min T c.data_sz - so) ≤ data.length) :
    ∃ pb sb cb w1,
      csf_write_turn env data (sp : Int) pc (k : Int) ctx w
          { to_write := (T : Int), start_offset := (so : Int), data_offset := (doff : Int) } =
        (({ ctx with
            page_buffer := pb,
            scratch_buffer := sb,
            csf_buffer := cb },
          w1,
          { to_write := (T : Int), start_offset := (so : Int), data_offset := (doff : Int) }),
          false) ∧
      pb.length = c.page_sz ∧ sb.length = c.page_sz ∧ cb.length = c.page_sz ∧
      w1.assert_failed = w.assert_failed ∧ w1.bytes = w.bytes := by
  have hD := hv.data_pos
  have hsm := hv.small
  have hDP := c.data_le_page
  have hq32 : sp + k < 2147483648 := by
    have := hv.page_pos
    have : sp + k ≤ (sp + k) * c.page_sz := Nat.le_mul_of_pos_right _ this
    omega
  have hqi : i32 ((sp : Int) + (k : Int)) = ((sp + k : Nat) : Int) := by
    rw [← Nat.cast_add]; exact i32_nat hq32
  obtain ⟨pb0, sb0, pos0, hpb0, hsb0, hrd⟩ :=
    csf_write_turn_read hc hs hv w hdisk (sp + k) hfr pc hpc hr
  generalize hold : (if sp + k < N then pg (sp + k) else []) = old at *
  have holdl : old.length ≤ c.data_sz := by
    rw [← hold]; split
    · exact hdisk.page_le (by assumption)
    · simp
  have hmin : (if (T : Int) < ctx.data_sz then (T : Int) else ctx.data_sz)
      = ((min T c.data_sz : Nat) : Int) := by
    rw [hs.data]; split <;> omega
  generalize hdsz : min T c.data_sz = dsz at *
  have hdszr : 1 ≤ dsz ∧ dsz ≤ c.data_sz ∧ dsz ≤ T ∧ so ≤ dsz := by omega
  have hli : i32 ((dsz : Int) - (so : Int)) = ((dsz - so : Nat) : Int) := by
    rw [i32_of_range (by omega) (by omega)]; omega
  have hcbl : (old ++ ctx.csf_buffer.drop old.length).length = c.page_sz := by
    simp only [List.length_append, List.length_drop, hs.csf_len]; omega
  have hmcl : (memcpy (old ++ ctx.csf_buffer.drop old.length) so (data.drop doff)
      (dsz - so)).length = c.page_sz := by
    rw [memcpy_length _ _ _ _ (by omega) (by simp only [List.length_drop]; omega)]
    exact hcbl
  have hs1 : Shape { ctx with
      page_buffer := pb0,
      scratch_buffer := sb0,
      csf_buffer := memcpy (old ++ ctx.csf_buffer.drop old.length) so (data.drop doff)
        (dsz - so) } c := hs.with_bufs _ _ _ hpb0 hsb0 hmcl
  have hb1 : max dsz old.length ≤ c.data_sz := by omega
  have hb2 : max dsz old.length ≤ (memcpy (old ++ ctx.csf_buffer.drop old.length) so
      (data.drop doff) (dsz - so)).length := by rw [hmcl]; omega
  have hb3 : dsz - so < 2147483648 := by omega
  have hb4 : max dsz old.length < 2147483648 := by omega
  have hb5 : i32 (u64 (-1)) < 0 := by rw [i32_u64, i32_of_range (by omega) (by omega)]; omega
  have hm : (if ((dsz : Nat) : Int) < i32 ((old.length : Nat) : Int)
      then i32 ((old.length : Nat) : Int) else ((dsz : Nat) : Int))
      = ((max dsz old.length : Nat) : Int) := by
    rw [i32_nat (by omega)]; split <;> omega
  obtain ⟨pb, sb, hpb, hsb, hwr⟩ := csf_write_page_fail hc hs1 hv { w with pos := pos0 }
    (sp + k) hfw
    (memcpy (old ++ ctx.csf_buffer.drop old.length) so (data.drop doff) (dsz - so))
    (max dsz old.length) hb1 hb2 hr
  unfold csf_write_turn
  simp only [hmin, hqi, hrd, hli, Int.toNat_ofNat, u64_nat hb3, hm, u64_nat hb4, hwr]
  rw [if_pos hb5]
  exact ⟨pb, sb, _, _, rfl, hpb, hsb, hmcl, rfl, rfl⟩

theorem pagesAfterWrite_zero (c : Codec) (N0 : Nat) (pg0 : Nat → List Nat) (cb0 data : List Nat)
    (sp so n : Nat) : pagesAfterWrite c N0 pg0 cb0 data sp so n 0 = pg0 := by
  funext p
  unfold pagesAfterWrite
  rw [if_neg (by omega)]

theorem pagesAfterWrite_succ (c : Codec) (N0 : Nat) (pg0 : Nat → List Nat) (cb0 data : List Nat)
    (sp so n k : Nat) :
    Function.update (pagesAfterWrite c N0 pg0 cb0 data sp so n k) (sp + k)
      (pageAfterWrite
        (if sp + k < max N0 (sp + k) then pagesAfterWrite c N0 pg0 cb0 data sp so n k (sp + k)
          else [])
        (if k = 0 then cb0 else List.replicate c.page_sz 0)
        (if k = 0 then so else 0)
        (data.drop (turnStart c.data_sz so n k))
        (min (n + so - k * c.data_sz) c.data_sz - (if k = 0 then so else 0)))
      = pagesAfterWrite c N0 pg0 cb0 data sp so n (k + 1) := by
  funext p
  by_cases hp : p = sp + k
  · subst hp
    rw [Function.update_same]
    have e1 : (sp + k < max N0 (sp + k)) = (sp + k < N0) := by
      apply propext; constructor <;> intro h <;> omega
    have e2 : (sp + k = sp) = (k = 0) := by
      apply propext; constructor <;> intro h <;> omega
    unfold pagesAfterWrite
    rw [if_neg (by omega : ¬ (sp ≤ sp + k ∧ sp + k < sp + k)),
      if_pos (by omega : sp ≤ sp + k ∧ sp + k < sp + (k + 1))]
    simp only [e1, e2, Nat.add_sub_cancel_left]
  · rw [Function.update_noteq hp]
    unfold pagesAfterWrite
    by_cases h : sp ≤ p ∧ p < sp + k
    · rw [if_pos h, if_pos (show sp ≤ p ∧ p < sp + (k + 1) by omega)]
    · rw [if_neg h, if_neg (show ¬ (sp ≤ p ∧ p < sp + (k + 1)) by omega)]

/-- Arithmetic of one turn of the main loop of `csf_write`, in natural numbers. -/
theorem write_turn_nat (D so n k P : Nat) (hD : 0 < D) (hso : so < D)
    (hn1 : n + so < 2147483648) (hkd : k * D < n + so)
    (hk1 : k + 1 < P ↔ (k + 1) * D < n + so) :
    0 < n + so - k * D ∧
    n + so - k * D < 2147483648 ∧
    (if k = 0 then so else 0) ≤ n + so - k * D ∧
    (if k = 0 then so else 0) < D ∧
    turnStart D so n k + (n + so - k * D - (if k = 0 then so else 0)) = n ∧
    turnStart D so n k + (min (n + so - k * D) D - (if k = 0 then so else 0))
      = turnStart D so n (k + 1) ∧
    turnStart D so n (k + 1) ≤ n ∧
    (k + 1 < P → ∀ ol : Nat, ol ≤ D →
      (((n + so - k * D : Nat) : Int) - ((max (min (n + so - k * D) D) ol : Nat) : Int))
        = ((n + so - (k + 1) * D : Nat) : Int)) := by
  have hX2 : (k + 1) * D = k * D + D := by ring
  have hX0 : k = 0 → k * D = 0 := by
    intro h; subst h; simp
  have hX1 : 1 ≤ k → D ≤ k * D := fun h => Nat.le_mul_of_pos_left _ h
  have hsk0 : k = 0 → (if k = 0 then so else 0) = so := fun h => if_pos h
  have hsk1 : 1 ≤ k → (if k = 0 then so else 0) = 0 := fun h => if_neg (by omega)
  unfold turnStart
  rw [hX2] at hk1 ⊢
  generalize k * D = kD at *
  generalize (if k = 0 then so else 0) = sk at *
  rcases Nat.eq_zero_or_pos k with hz | hz
  · have := hX0 hz
    have := hsk0 hz
    refine ⟨by omega, by omega, by omega, by omega, by omega, by omega, by omega, ?_⟩
    intro h ol hol
    have := hk1.1 h
    omega
  · have := hX1 hz
    have := hsk1 hz
    refine ⟨by omega, by omega, by omega, by omega, by omega, by omega, by omega, ?_⟩
    intro h ol hol
    have := hk1.1 h
    omega

/-- The main loop of `csf_write` on a file of stored pages, when the sizes fit an `int`, no
`read` fails and the page writes of the first `J` turns succeed; for `J < P` the `write` of
turn `J` fails on every attempt.  The loop ends with `data_offset` at the start of turn
`J` (which is `n` for `J = P`), the seek pointer advanced by as much, and the pages
`sp .. sp + J - 1` rewritten as `pagesAfterWrite` says. -/
theorem csf_write_loop_disk {env : Env} (hc : CipherOK env)
    {c : Codec} (hv : c.Valid env) (data : List Nat) (sp : Nat) (pc : Int) (N0 : Nat)
    (pg0 : Nat → List Nat) (cb0 : List Nat) (ctx0 : CSF_CTX) (a : Int) (so n P J : Nat)
    (hso : so < c.data_sz) (hn1 : n + so < 2147483648) (hdata : n ≤ data.length)
    (ha : 0 ≤ a) (ha1 : a + n < 9223372036854775808)
    (hP : ∀ k : Nat, k < P ↔ k * c.data_sz < n + so)
    (hpc : ∀ q : Nat, sp ≤ q → (pc > (q : Int) ↔ q < N0))
    (hr : (sp + P) * c.page_sz < 2147483648)
    (hfr : ∀ p, env.read_fails p = false) (hJ : J ≤ P)
    (hfw : ∀ k, k < J → env.write_fails ((sp + k) * c.page_sz) = false)
    (hfail : J < P → env.write_fails ((sp + J) * c.page_sz) = true) :
    ∀ (fuel k : Nat) (pb sb cb : List Nat) (w : World) (T : Int),
      P ≤ k + fuel → k ≤ J →
      Shape { ctx0 with page_buffer := pb, scratch_buffer := sb, csf_buffer := cb } c →
      cb = (if k = 0 then cb0 else List.replicate c.page_sz 0) →
      Disk env c w.bytes (max N0 (sp + k)) (pagesAfterWrite c N0 pg0 cb0 data sp so n k) →
      (k < P → T = ((n + so - k * c.data_sz : Nat) : Int)) →
      ∃ pb1 sb1 cb1 w1 v1,
        csf_write_loop env data (sp : Int) (P : Int) pc fuel (k : Int)
          { ctx0 with
            page_buffer := pb,
            scratch_buffer := sb,
            csf_buffer := cb,
            seek_ptr := a + (turnStart c.data_sz so n k : Nat) } w
          { to_write := T,
            start_offset := ((if k = 0 then so else 0 : Nat) : Int),
            data_offset := ((turnStart c.data_sz so n k : Nat) : Int) } =
          ({ ctx0 with
            page_buffer := pb1,
            scratch_buffer := sb1,
            csf_buffer := cb1,
            seek_ptr := a + (turnStart c.data_sz so n J : Nat) }, w1, v1) ∧
        v1.data_offset = ((turnStart c.data_sz so n J : Nat) : Int) ∧
        pb1.length = c.page_sz ∧ sb1.length = c.page_sz ∧ cb1.length = c.page_sz ∧
        (J = P → k < P → cb1 = List.replicate c.page_sz 0) ∧ (P ≤ k → cb1 = cb) ∧
        w1.assert_failed = w.assert_failed ∧
        Disk env c w1.bytes (max N0 (sp + J))
          (pagesAfterWrite c N0 pg0 cb0 data sp so n J) := by
  have hD := hv.data_pos
  intro fuel
  induction fuel with
  | zero =>
    intro k pb sb cb w T hfuel hkJ hs hcb hdisk hT
    have hkJ1 : k = J := by omega
    subst hkJ1
    exact ⟨pb, sb, cb, w, _, rfl, rfl, hs.page_len, hs.scratch_len, hs.csf_len,
      fun _ h => by omega, fun _ => rfl, rfl, hdisk⟩
  | succ fuel ih =>
    intro k pb sb cb w T hfuel hkJ hs hcb hdisk hT
    have hk := hP k
    unfold csf_write_loop
    by_cases hlt : k < P
    · have hT0 := hT hlt
      subst hT0
      rw [if_pos (by exact_mod_cast hlt)]
      have hk1 := hP (k + 1)
      have hrr : (sp + k) * c.page_sz + c.page_sz ≤ (sp + P) * c.page_sz :=
        mul_succ_le (by omega)
      have hkd := hk.1 hlt
      have hvals := write_turn_nat c.data_sz so n k P hD hso hn1 hkd hk1
      obtain ⟨hv1, hv2, hv3, hv4, hv5, hv6, hv7, hv8⟩ := hvals
      subst hcb
      have hs1 := hs.with_seek_ptr (a + (turnStart c.data_sz so n k : Nat))
      have hpc1 : pc > ((sp + k : Nat) : Int) ↔ sp + k < max N0 (sp + k) :=
        (hpc (sp + k) (by omega)).trans ⟨fun h => by omega, fun h => by omega⟩
      by_cases hkJ2 : k < J
      · have holdl : (if sp + k < max N0 (sp + k)
            then pagesAfterWrite c N0 pg0 cb0 data sp so n k (sp + k) else []).length
            ≤ c.data_sz := by
          split
          · exact hdisk.page_le (by assumption)
          · simp
        have hN : max (max N0 (sp + k)) (sp + k + 1) = max N0 (sp + (k + 1)) := by omega
        have e1 : ((k + 1 : Nat) : Int) = (k : Int) + 1 := by push_cast; rfl
        have e2 : ((if k + 1 = 0 then so else 0 : Nat) : Int) = 0 := by
          rw [if_neg (Nat.succ_ne_zero k)]; rfl
        have e3 : a + ((turnStart c.data_sz so n (k + 1) : Nat) : Int)
            = a + ((turnStart c.data_sz so n k : Nat) : Int)
              + ((min (n + so - k * c.data_sz) c.data_sz - (if k = 0 then so else 0) : Nat)
                  : Int) := by
          rw [← hv6, Nat.cast_add, add_assoc]
        obtain ⟨pb2, sb2, w1, hturn, hpb2, hsb2, hw1, hdisk1⟩ := csf_write_turn_disk hc hs1 hv w
          hdisk data sp k pc (n + so - k * c.data_sz) (if k = 0 then so else 0)
          (turnStart c.data_sz so n k) (hfr _) (hfw k hkJ2) (by omega) hpc1 (by omega)
          hv1 hv2 hv3 hv4
          (by rw [hv5]; omega) (by rw [hv6]; omega) (by show 0 ≤ a + _; omega)
          (by show a + _ + _ < _; omega)
        rw [hturn]
        simp only [if_true]
        have hdisk2 : Disk env c w1.bytes (max (max N0 (sp + k)) (sp + k + 1))
            (Function.update (pagesAfterWrite c N0 pg0 cb0 data sp so n k) (sp + k)
              (pageAfterWrite
                (if sp + k < max N0 (sp + k)
                  then pagesAfterWrite c N0 pg0 cb0 data sp so n k (sp + k) else [])
                (if k = 0 then cb0 else List.replicate c.page_sz 0)
                (if k = 0 then so else 0)
                (data.drop (turnStart c.data_sz so n k))
                (min (n + so - k * c.data_sz) c.data_sz - (if k = 0 then so else 0)))) :=
          hdisk1
        rw [pagesAfterWrite_succ, hN] at hdisk2
        obtain ⟨pb1, sb1, cb1, w2, v1, hloop, hvd, h1, h2, h3, h4, h5, h6, h7⟩ :=
          ih (k + 1) pb2 sb2 (List.replicate c.page_sz 0) w1
            (((n + so - k * c.data_sz : Nat) : Int)
              - ((max (min (n + so - k * c.data_sz) c.data_sz)
              (if sp + k < max N0 (sp + k)
                then pagesAfterWrite c N0 pg0 cb0 data sp so n k (sp + k)
                else []).length : Nat) : Int))
            (by omega) (by omega)
            (hs.with_bufs pb2 sb2 (List.replicate c.page_sz 0) hpb2 hsb2 (by simp))
            (if_neg (Nat.succ_ne_zero k)).symm hdisk2
            (fun h => hv8 h _ holdl)
        rw [e1, e2, e3, ← hv6] at hloop
        refine ⟨pb1, sb1, cb1, w2, v1, hloop, hvd, h1, h2, h3, ?_, ?_, h6.trans hw1, h7⟩
        · intro hJP _
          rcases Nat.lt_or_ge (k + 1) P with h | h
          · exact h4 hJP h
          · exact h5 h
        · intro h; omega
      · have hkJ3 : k = J := by omega
        subst hkJ3
        obtain ⟨pb2, sb2, cb2, w1, hturn, hpb2, hsb2, hcb2, hw1, hw2⟩ :=
          csf_write_turn_fail hc hs1 hv w
          hdisk data sp k pc (n + so - k * c.data_sz) (if k = 0 then so else 0)
          (turnStart c.data_sz so n k) (hfr _) (hfail hlt) hpc1 (by omega)
          hv1 hv2 hv3 hv4 (by rw [hv6]; omega)
        rw [hturn]
        simp only [Bool.false_eq_true, if_false]
        refine ⟨pb2, sb2, cb2, w1, _, rfl, rfl, hpb2, hsb2, hcb2, ?_, ?_, hw1, ?_⟩
        · intro h; omega
        · intro h; omega
        · rw [hw2]; exact hdisk
    · have hkJ1 : k = J := by omega
      subst hkJ1
      rw [if_neg (by omega)]
      exact ⟨pb, sb, cb, w, _, rfl, rfl, hs.page_len, hs.scratch_len, hs.csf_len,
        fun _ h => by omega, fun _ => rfl, rfl, hdisk⟩

theorem turnStart_zero (D so n : Nat) : turnStart D so n 0 = 0 := by
  unfold turnStart; omega

theorem turnStart_full (D so n P : Nat) (h : ¬ P * D < n + so) : turnStart D so n P = n := by
  unfold turnStart; omega

theorem turnStart_le (D so n k : Nat) : turnStart D so n k ≤ n := by
  unfold turnStart; omega

/-- The loop of zero pages of the back-fill, on a file of stored pages. -/
theorem csf_write_fill_loop_disk {env : Env} (hc : CipherOK env) {c : Codec}
    (hv : c.Valid env) (ctx0 : CSF_CTX) (sp : Nat) (hr : sp * c.page_sz < 2147483648)
    (hfw : ∀ q, q < sp → env.write_fails (q * c.page_sz) = false) :
    ∀ (fuel i : Nat) (pb sb : List Nat) (w : World) (g : Nat → List Nat),
      sp - 1 ≤ i + fuel → i ≤ sp - 1 →
      Shape { ctx0 with
        page_buffer := pb,
        scratch_buffer := sb,
        csf_buffer := List.replicate c.page_sz 0 } c →
      Disk env c w.bytes i g →
      ∃ pb1 sb1 w1,
        csf_write_fill_loop env (sp : Int) fuel (i : Int)
          { ctx0 with
            page_buffer := pb,
            scratch_buffer := sb,
            csf_buffer := List.replicate c.page_sz 0 } w =
          ({ ctx0 with
            page_buffer := pb1,
            scratch_buffer := sb1,
            csf_buffer := List.replicate c.page_sz 0 }, w1) ∧
        pb1.length = c.page_sz ∧ sb1.length = c.page_sz ∧
        w1.assert_failed = w.assert_failed ∧
        Disk env c w1.bytes (sp - 1)
          (fun p => if i ≤ p then List.replicate c.data_sz 0 else g p) := by
  have hD := hv.data_pos
  have hsm := hv.small
  have hDP := c.data_le_page
  intro fuel
  induction fuel with
  | zero =>
    intro i pb sb w g hfuel hi hs hdisk
    have hi1 : i = sp - 1 := by omega
    refine ⟨pb, sb, w, rfl, hs.page_len, hs.scratch_len, rfl, ?_⟩
    rw [← hi1]
    exact hdisk.congr (fun p hp => if_neg (by omega))
  | succ fuel ih =>
    intro i pb sb w g hfuel hi hs hdisk
    unfold csf_write_fill_loop
    by_cases hlt : i < sp - 1
    · rw [if_pos (by omega)]
      have hrr : i * c.page_sz + c.page_sz ≤ sp * c.page_sz := mul_succ_le (by omega)
      have hu : u64 ((c.data_sz : Nat) : Int) = ((c.data_sz : Nat) : Int) :=
        u64_nat (by omega)
      obtain ⟨pb2, sb2, hpb2, hsb2, hpage, hwr⟩ := csf_write_page_ok hc hs hv w i
        (hfw i (by omega)) (List.replicate c.page_sz 0) c.data_sz (le_refl _)
        (by simp only [List.length_replicate]; exact hDP) (by omega)
      have htk : (List.replicate c.page_sz 0).take c.data_sz = List.replicate c.data_sz 0 := by
        rw [List.take_replicate, Nat.min_eq_left hDP]
      rw [htk] at hpage
      have hdisk1 := hdisk.put i (le_refl _) hpb2 hpage
      rw [Nat.max_eq_right (by omega : i ≤ i + 1)] at hdisk1
      have hds : ctx0.data_sz = ((c.data_sz : Nat) : Int) := hs.data
      have hu2 : u64 ctx0.data_sz = ((c.data_sz : Nat) : Int) := by rw [hds]; exact hu
      simp only [hu2, hwr]
      obtain ⟨pb1, sb1, w1, hloop, h1, h2, h3, h4⟩ := ih (i + 1) pb2 sb2
        { w with
          bytes := w.bytes.take (i * c.page_sz)
            ++ List.replicate (i * c.page_sz - w.bytes.length) 0 ++ pb2
            ++ w.bytes.drop (i * c.page_sz + c.page_sz),
          pos := i * c.page_sz + c.page_sz,
          rng := w.rng + 1 } _ (by omega) (by omega)
        (hs.with_bufs pb2 sb2 (List.replicate c.page_sz 0) hpb2 hsb2 (by simp)) hdisk1
      have e1 : ((i + 1 : Nat) : Int) = (i : Int) + 1 := by push_cast; rfl
      rw [e1] at hloop
      refine ⟨pb1, sb1, w1, hloop, h1, h2, h3, ?_⟩
      refine h4.congr (fun p hp => ?_)
      by_cases hpi : p = i
      · subst hpi
        rw [if_pos (le_refl _), if_neg (by omega), Function.update_same]
      · rw [Function.update_noteq hpi]
        by_cases hip : i ≤ p
        · rw [if_pos hip, if_pos (by omega)]
        · rw [if_neg hip, if_neg (by omega)]
    · have hi1 : i = sp - 1 := by omega
      rw [if_neg (by omega)]
      refine ⟨pb, sb, w, rfl, hs.page_len, hs.scratch_len, rfl, ?_⟩
      rw [← hi1]
      exact hdisk.congr (fun p hp => if_neg (by omega))


theorem memset0_length (b : List Nat) (off n : Nat) (h : off + n ≤ b.length) :
    (memset0 b off n).length = b.length := by
  simp only [memset0, List.length_append, List.length_take, List.length_drop,
    List.length_replicate]
  omega

theorem memset0_pad (d rest : List Nat) (D : Nat) (hd : d.length ≤ D) :
    (memset0 (d ++ rest) d.length (D - d.length)).take D
      = d ++ List.replicate (D - d.length) 0 := by
  have h1 : (d ++ rest).take d.length = d := List.take_left' rfl
  unfold memset0
  rw [h1]
  apply List.take_left'
  simp only [List.length_append, List.length_replicate]; omega

theorem csf_write_backfill_eq (env : Env) (ctx : CSF_CTX) (w : World)
    (start_page page_count : Int) :
    csf_write_backfill env ctx w start_page page_count =
      csf_write_backfill_rest env (csf_write_backfill_seal env ctx w page_count)
        start_page page_count := rfl

/-- The first step of the back-fill on a file of stored pages: the last page, when there is
one, is padded with zeros to full width. -/
theorem csf_write_backfill_seal_disk {env : Env} (hc : CipherOK env) {ctx : CSF_CTX} {c : Codec}
    (hs : Shape ctx c) (hv : c.Valid env) (w : World) {N : Nat} {pg : Nat → List Nat}
    (hdisk : Disk env c w.bytes N pg) (hr : N * c.page_sz < 2147483648)
    (hfr : ∀ p, env.read_fails p = false)
    (hfw : ∀ q, q < N → env.write_fails (q * c.page_sz) = false) :
    ∃ pb sb cb w1,
      csf_write_backfill_seal env ctx w (N : Int) =
        ({ ctx with page_buffer := pb, scratch_buffer := sb, csf_buffer := cb }, w1) ∧
      pb.length = c.page_sz ∧ sb.length = c.page_sz ∧ cb.length = c.page_sz ∧
      w1.assert_failed = w.assert_failed ∧
      Disk env c w1.bytes N
        (fun p => if p + 1 = N then pg p ++ List.replicate (c.data_sz - (pg p).length) 0
          else pg p) := by
  have hD := hv.data_pos
  have hsm := hv.small
  have hDP := c.data_le_page
  unfold csf_write_backfill_seal
  by_cases hN : 0 < N
  · rw [if_pos (by omega)]
    obtain ⟨M, rfl⟩ : ∃ M, N = M + 1 := ⟨N - 1, by omega⟩
    have hrr : M * c.page_sz + c.page_sz ≤ (M + 1) * c.page_sz := mul_succ_le (by omega)
    have hM32 : M ≤ M * c.page_sz := Nat.le_mul_of_pos_right _ hv.page_pos
    have hM : i32 (((M + 1 : Nat) : Int) - 1) = (M : Int) := by
      rw [i32_of_range (by omega) (by omega)]; omega
    have hlen : M * c.page_sz + c.page_sz ≤ w.bytes.length := by rw [hdisk.1]; exact hrr
    have hdl := hdisk.page_le (by omega : M < M + 1)
    obtain ⟨pb0, sb0, hpb0, hsb0, _, hrd⟩ :=
      csf_read_page_hit hc hs hv w M (hfr _) (hdisk.2 M (by omega)) hlen (by omega)
        Buf.csf_buffer
    have hu : u64 (ctx.data_sz - ((pg M).length : Int)) = ((c.data_sz - (pg M).length : Nat) : Int) := by
      rw [hs.data, u64_of_range (by omega) (by omega)]; omega
    have hu2 : u64 ctx.data_sz = ((c.data_sz : Nat) : Int) := by
      rw [hs.data]; exact u64_nat (by omega)
    have hxl : (pg M ++ ctx.csf_buffer.drop (pg M).length).length = c.page_sz := by
      simp only [List.length_append, List.length_drop, hs.csf_len]; omega
    have hml : (memset0 (pg M ++ ctx.csf_buffer.drop (pg M).length) (pg M).length
        (c.data_sz - (pg M).length)).length = c.page_sz := by
      rw [memset0_length _ _ _ (by omega)]; exact hxl
    have hs1 : Shape { ctx with
        page_buffer := pb0,
        scratch_buffer := sb0,
        csf_buffer := memset0 (pg M ++ ctx.csf_buffer.drop (pg M).length) (pg M).length
          (c.data_sz - (pg M).length) } c := hs.with_bufs _ _ _ hpb0 hsb0 hml
    obtain ⟨pb, sb, hpb, hsb, hpage, hwr⟩ := csf_write_page_ok hc hs1 hv
      { w with pos := M * c.page_sz + c.page_sz } M (hfw M (by omega))
      (memset0 (pg M ++ ctx.csf_buffer.drop (pg M).length) (pg M).length
          (c.data_sz - (pg M).length))
      c.data_sz (le_refl _) (by rw [hml]; exact hDP) (by omega)
    rw [memset0_pad _ _ _ hdl] at hpage
    simp only [hM, hrd, Int.toNat_ofNat, hu, hu2, hwr, if_true]
    refine ⟨pb, sb, _, _, rfl, hpb, hsb, hml, rfl, ?_⟩
    have hd1 := hdisk.put M (by omega) hpb hpage
    rw [Nat.max_eq_left (by omega)] at hd1
    refine hd1.congr (fun p hp => ?_)
    by_cases hpM : p = M
    · subst hpM
      rw [if_pos rfl, Function.update_same]
    · rw [if_neg (by omega), Function.update_noteq hpM]
  · rw [if_neg (by omega)]
    have hN0 : N = 0 := by omega
    subst hN0
    refine ⟨ctx.page_buffer, ctx.scratch_buffer, ctx.csf_buffer, w, rfl, hs.page_len,
      hs.scratch_len, hs.csf_len, rfl, ?_⟩
    exact hdisk.congr (fun p hp => by omega)

theorem pagesAfterBackfill_eq (c : Codec) (N : Nat) (pg : Nat → List Nat) (sp so : Nat)
    (hN : N < sp) (p : Nat) (hp : p < sp) :
    pagesAfterBackfill c N pg sp so p =
      Function.update
        (fun p => if N ≤ p then List.replicate c.data_sz 0
          else if p + 1 = N then pg p ++ List.replicate (c.data_sz - (pg p).length) 0
          else pg p)
        (sp - 1) (List.replicate so 0) p := by
  unfold pagesAfterBackfill
  by_cases hp1 : p = sp - 1
  · subst hp1
    rw [Function.update_same, if_neg (by omega), if_neg (by omega), if_neg (by omega)]
  · rw [Function.update_noteq hp1]
    by_cases hp2 : N ≤ p
    · simp only [if_pos hp2, if_neg (show ¬ p + 1 < N by omega),
        if_neg (show ¬ p + 1 = N by omega), if_pos (show p + 1 < sp by omega)]
    · by_cases hp3 : p + 1 = N
      · simp only [if_neg hp2, if_pos hp3, if_neg (show ¬ p + 1 < N by omega)]
      · simp only [if_neg hp2, if_neg hp3, if_pos (show p + 1 < N by omega)]

/-- The back-fill of `csf_write` on a file of `N` stored pages, for a start page `sp > N`:
afterwards the file has `sp` pages, laid out as `pagesAfterBackfill` says, and the assembly
buffer is zeroed. -/
theorem csf_write_backfill_disk {env : Env} (hc : CipherOK env) {ctx : CSF_CTX} {c : Codec}
    (hs : Shape ctx c) (hv : c.Valid env) (w : World) {N : Nat} {pg : Nat → List Nat}
    (hdisk : Disk env c w.bytes N pg) (sp so : Nat) (hN : N < sp)
    (hr : sp * c.page_sz < 2147483648)
    (hfr : ∀ p, env.read_fails p = false)
    (hfw : ∀ q, q < sp → env.write_fails (q * c.page_sz) = false)
    (hso : Int.tmod ctx.seek_ptr ctx.data_sz = (so : Int)) (hso1 : so < c.data_sz) :
    ∃ pb sb w1,
      csf_write_backfill env ctx w (sp : Int) (N : Int) =
        ({ ctx with
          page_buffer := pb,
          scratch_buffer := sb,
          csf_buffer := List.replicate c.page_sz 0 }, w1) ∧
      pb.length = c.page_sz ∧ sb.length = c.page_sz ∧
      w1.assert_failed = w.assert_failed ∧
      Disk env c w1.bytes sp (pagesAfterBackfill c N pg sp so) := by
  have hD := hv.data_pos
  have hsm := hv.small
  have hDP := c.data_le_page
  have hNr : N * c.page_sz ≤ sp * c.page_sz := Nat.mul_le_mul_right _ (by omega)
  have hsp1 : sp - 1 ≤ (sp - 1) * c.page_sz := Nat.le_mul_of_pos_right _ hv.page_pos
  have hrr : (sp - 1) * c.page_sz + c.page_sz ≤ sp * c.page_sz := mul_succ_le (by omega)
  have hps : ctx.page_sz.toNat = c.page_sz := by rw [hs.page, Int.toNat_ofNat]
  have hfuel : ((sp : Int) - 1 - (N : Int)).toNat = sp - 1 - N := by omega
  have hgi : i32 ((sp : Int) - 1) = ((sp - 1 : Nat) : Int) := by
    rw [i32_of_range (by omega) (by omega)]; omega
  have hgu : u64 (Int.tmod ctx.seek_ptr ctx.data_sz) = (so : Int) := by
    rw [hso]; exact u64_nat (by omega)
  obtain ⟨pb0, sb0, cb0, w0, hseal, hpb0, hsb0, hcb0, hw0, hd0⟩ :=
    csf_write_backfill_seal_disk hc hs hv w hdisk (by omega) hfr
      (fun q hq => hfw q (by omega))
  obtain ⟨pb1, sb1, w1, hfill, hpb1, hsb1, hw1, hd1⟩ :=
    csf_write_fill_loop_disk hc hv ctx sp hr hfw (sp - 1 - N) N pb0 sb0 w0 _
      (by omega) (by omega)
      (hs.with_bufs pb0 sb0 (List.replicate c.page_sz 0) hpb0 hsb0 (by simp)) hd0
  obtain ⟨pb2, sb2, hpb2, hsb2, hpage, hwr⟩ := csf_write_page_ok hc
    (hs.with_bufs pb1 sb1 (List.replicate c.page_sz 0) hpb1 hsb1 (by simp)) hv w1 (sp - 1)
    (hfw _ (by omega)) (List.replicate c.page_sz 0) so (by omega)
    (by simp only [List.length_replicate]; omega) (by omega)
  have htk : (List.replicate c.page_sz 0).take so = List.replicate so 0 := by
    rw [List.take_replicate, Nat.min_eq_left (by omega)]
  rw [htk] at hpage
  have hd2 := hd1.put (sp - 1) (le_refl _) hpb2 hpage
  rw [Nat.max_eq_right (by omega), Nat.sub_add_cancel (by omega)] at hd2
  rw [csf_write_backfill_eq, hseal]
  unfold csf_write_backfill_rest
  simp only [hps, memset0_all _ _ hcb0, hfuel, hfill, hgi, hgu, hwr]
  refine ⟨pb2, sb2, _, rfl, hpb2, hsb2, hw1.trans hw0, ?_⟩
  exact hd2.congr (fun p hp => pagesAfterBackfill_eq c N pg sp so hN p hp)

/-- The start page and the offset in it that `csf_read` and `csf_write` compute from a seek
pointer `a` within `int`, in natural numbers. -/
theorem start_page_nat {ctx : CSF_CTX} {c : Codec} (hs : Shape ctx c) (hD : 0 < c.data_sz)
    (hD1 : c.data_sz < 2147483648) (a : Nat) (hseek : ctx.seek_ptr = (a : Int))
    (ha : a < 2147483648) :
    i32 (csf_pageno_for_offset ctx ctx.seek_ptr) = ((a / c.data_sz : Nat) : Int) ∧
    i32 (Int.tmod ctx.seek_ptr ctx.data_sz) = ((a % c.data_sz : Nat) : Int) ∧
    Int.tmod ctx.seek_ptr ctx.data_sz = ((a % c.data_sz : Nat) : Int) := by
  obtain ⟨h1, h2, -, -, -⟩ := start_page_eq ctx ctx.seek_ptr (by rw [hs.data]; omega)
    (by rw [hs.data]; omega) (by omega) (by omega)
  rw [hseek, hs.data] at h1 h2
  rw [hseek, hs.data]
  refine ⟨?_, ?_, ?_⟩
  · rw [h1, Int.natCast_div]
  · rw [h2, Int.natCast_mod]
  · rw [Int.tmod_eq_emod (by omega) (by omega), Int.natCast_mod]

/-- The page count `csf_page_count_for_length` computes, in natural numbers. -/
theorem page_count_for_length_nat {ctx : CSF_CTX} {c : Codec} (hs : Shape ctx c)
    (hD : 0 < c.data_sz) (T P : Nat) (hT : T < 2147483648)
    (hP : ∀ k : Nat, k < P ↔ k * c.data_sz < T) :
    csf_page_count_for_length ctx (T : Int) = (P : Int) := by
  obtain ⟨h0, -, hspec⟩ := page_count_for_length_spec ctx (T : Int) (by rw [hs.data]; omega)
    (by omega) (by omega)
  rw [hs.data] at hspec
  generalize csf_page_count_for_length ctx (T : Int) = Pm at *
  obtain ⟨m, rfl⟩ : ∃ m : Nat, Pm = (m : Int) := ⟨Pm.toNat, by omega⟩
  have hm : ∀ k : Nat, k < m ↔ k * c.data_sz < T := by
    intro k
    have := hspec (k : Int)
    constructor
    · intro h
      have := this.1 (by exact_mod_cast h)
      exact_mod_cast this
    · intro h
      have := this.2 (by exact_mod_cast h)
      exact_mod_cast this
  have e : m = P := by
    rcases Nat.lt_trichotomy m P with h | h | h
    · exact absurd ((hm m).2 ((hP m).1 h)) (by omega)
    · exact h
    · exact absurd ((hP P).2 ((hm P).1 h)) (by omega)
  rw [e]

/-- The page count `csf_page_count_for_file` computes on a file of `N` stored pages. -/
theorem page_count_for_file_disk {env : Env} {ctx : CSF_CTX} {c : Codec} (hs : Shape ctx c)
    (hv : c.Valid env) (w : World) {N : Nat} {pg : Nat → List Nat}
    (hdisk : Disk env c w.bytes N pg) (hN : N * c.page_sz < 2147483648) :
    csf_page_count_for_file ctx w = (w, (N : Int)) := by
  have hPS := hv.page_pos
  have hNle : N ≤ N * c.page_sz := Nat.le_mul_of_pos_right _ hPS
  have hq : (w.bytes.length : Int) / ctx.page_sz = (N : Int) := by
    rw [hs.page, hdisk.1]
    push_cast
    exact Int.mul_ediv_cancel _ (by omega)
  have h1 := csf_page_count_for_file_count ctx w (by rw [hs.page]; omega) (by rw [hq]; omega)
  have h2 := csf_page_count_for_file_world ctx w
  rw [hq] at h1
  exact Prod.ext h2 h1

/-- The main loop of `csf_write` from its first turn, on a file of stored pages. -/
theorem csf_write_loop_disk_start {env : Env} (hc : CipherOK env)
    {c : Codec} (hv : c.Valid env) (data : List Nat) (sp : Nat) (pc : Int) (N0 : Nat)
    (pg0 : Nat → List Nat) (ctx0 : CSF_CTX) (a : Int) (so n P J : Nat)
    (hseek : ctx0.seek_ptr = a)
    (hso : so < c.data_sz) (hn1 : n + so < 2147483648) (hdata : n ≤ data.length)
    (ha : 0 ≤ a) (ha1 : a + n < 9223372036854775808)
    (hP : ∀ k : Nat, k < P ↔ k * c.data_sz < n + so)
    (hpc : ∀ q : Nat, sp ≤ q → (pc > (q : Int) ↔ q < N0))
    (hsp : sp ≤ N0)
    (hr : (sp + P) * c.page_sz < 2147483648)
    (hfr : ∀ p, env.read_fails p = false) (hJ : J ≤ P)
    (hfw : ∀ k, k < J → env.write_fails ((sp + k) * c.page_sz) = false)
    (hfail : J < P → env.write_fails ((sp + J) * c.page_sz) = true)
    (pb sb cb : List Nat) (w : World)
    (hs : Shape { ctx0 with page_buffer := pb, scratch_buffer := sb, csf_buffer := cb } c)
    (hdisk : Disk env c w.bytes N0 pg0) :
    ∃ pb1 sb1 cb1 w1 v1,
      csf_write_loop env data (sp : Int) (P : Int) pc P 0
        { ctx0 with page_buffer := pb, scratch_buffer := sb, csf_buffer := cb } w
        { to_write := ((n + so : Nat) : Int), start_offset := (so : Int), data_offset := 0 } =
        ({ ctx0 with
          page_buffer := pb1,
          scratch_buffer := sb1,
          csf_buffer := cb1,
          seek_ptr := a + (turnStart c.data_sz so n J : Nat) }, w1, v1) ∧
      v1.data_offset = ((turnStart c.data_sz so n J : Nat) : Int) ∧
      pb1.length = c.page_sz ∧ sb1.length = c.page_sz ∧ cb1.length = c.page_sz ∧
      (J = P → 0 < P → cb1 = List.replicate c.page_sz 0) ∧ (P = 0 → cb1 = cb) ∧
      w1.assert_failed = w.assert_failed ∧
      Disk env c w1.bytes (max N0 (sp + J)) (pagesAfterWrite c N0 pg0 cb data sp so n J) := by
  have hd0 : Disk env c w.bytes (max N0 (sp + 0)) (pagesAfterWrite c N0 pg0 cb data sp so n 0) := by
    rw [pagesAfterWrite_zero, Nat.add_zero, Nat.max_eq_left hsp]
    exact hdisk
  obtain ⟨pb1, sb1, cb1, w1, v1, hloop, h1, h2, h3, h4, h5, h6, h7, h8⟩ :=
    csf_write_loop_disk hc hv data sp pc N0 pg0 cb ctx0 a so n P J hso hn1 hdata ha ha1 hP hpc hr
      hfr hJ hfw hfail P 0 pb sb cb w ((n + so : Nat) : Int) (by omega) (by omega) hs
      (if_pos rfl).symm hd0 (fun _ => by rw [Nat.zero_mul, Nat.sub_zero])
  rw [turnStart_zero, if_pos rfl] at hloop
  simp only [Nat.cast_zero, add_zero] at hloop
  subst hseek
  exact ⟨pb1, sb1, cb1, w1, v1, hloop, h1, h2, h3, h4, h5, fun h => h6 (by omega), h7, h8⟩

/-- The function `csf_write` on a file of `N` stored pages, when the sizes fit an `int`, no
`read` fails and the page writes up to turn `J` of the main loop succeed (for `J < P` the
`write` of turn `J` fails on every attempt): the call returns the number of bytes placed in
the first `J` pages of the main loop (`n` for `J = P`), advances the seek pointer by as much,
violates no assertion, and leaves a file of stored pages: those of the back-fill, when the
start page lies beyond the end, and the rewritten pages `sp .. sp + J - 1`. -/
theorem csf_write_disk {env : Env} (hc : CipherOK env) {ctx : CSF_CTX} {c : Codec}
    (hs : Shape ctx c) (hv : c.Valid env) (w : World) {N : Nat} {pg : Nat → List Nat}
    (hdisk : Disk env c w.bytes N pg) (data : List Nat) (a n P J : Nat)
    (hseek : ctx.seek_ptr = (a : Int)) (hfit : a + n < 2147483648) (hdata : n ≤ data.length)
    (hP : ∀ k : Nat, k < P ↔ k * c.data_sz < n + a % c.data_sz)
    (hN : N * c.page_sz < 2147483648)
    (hr : (a / c.data_sz + P) * c.page_sz < 2147483648)
    (hfr : ∀ p, env.read_fails p = false) (hJ : J ≤ P)
    (hfw : ∀ q, (N < a / c.data_sz ∨ a / c.data_sz ≤ q) → q < a / c.data_sz + J →
      env.write_fails (q * c.page_sz) = false)
    (hfail : J < P → env.write_fails ((a / c.data_sz + J) * c.page_sz) = true) :
    ∃ pb sb cb w1,
      csf_write env ctx w data (n : Int) =
        ({ ctx with
          page_buffer := pb,
          scratch_buffer := sb,
          csf_buffer := cb,
          seek_ptr := (a : Int) + (turnStart c.data_sz (a % c.data_sz) n J : Nat) }, w1,
          ((turnStart c.data_sz (a % c.data_sz) n J : Nat) : Int)) ∧
      pb.length = c.page_sz ∧ sb.length = c.page_sz ∧ cb.length = c.page_sz ∧
      w1.assert_failed = w.assert_failed ∧
      Disk env c w1.bytes (max (max N (a / c.data_sz)) (a / c.data_sz + J))
        (pagesAfterWrite c (max N (a / c.data_sz))
          (pagesBeforeLoop c N pg (a / c.data_sz) (a % c.data_sz))
          (if N < a / c.data_sz then List.replicate c.page_sz 0 else ctx.csf_buffer)
          data (a / c.data_sz) (a % c.data_sz) n J) := by
  have hD := hv.data_pos
  have hsm := hv.small
  have hDP := c.data_le_page
  have hso : a % c.data_sz < c.data_sz := Nat.mod_lt _ hD
  have hsole : a % c.data_sz ≤ a := Nat.mod_le _ _
  have hts := turnStart_le c.data_sz (a % c.data_sz) n J
  have hsrr : a / c.data_sz * c.page_sz ≤ (a / c.data_sz + P) * c.page_sz :=
    Nat.mul_le_mul_right _ (by omega)
  have hD1 : c.data_sz < 2147483648 := by omega
  have ha1 : a < 2147483648 := by omega
  have hT1 : n + a % c.data_sz < 2147483648 := by omega
  have hts1 : turnStart c.data_sz (a % c.data_sz) n J < 2147483648 := by omega
  have hgoal : csf_write env ctx w data (n : Int) =
      ((csf_write_loop env data ((a / c.data_sz : Nat) : Int) (P : Int) (N : Int) P 0
        (if ((a / c.data_sz : Nat) : Int) > (N : Int)
          then csf_write_backfill env ctx w ((a / c.data_sz : Nat) : Int) (N : Int)
          else (ctx, w)).1
        (if ((a / c.data_sz : Nat) : Int) > (N : Int)
          then csf_write_backfill env ctx w ((a / c.data_sz : Nat) : Int) (N : Int)
          else (ctx, w)).2
        { to_write := ((n + a % c.data_sz : Nat) : Int),
          start_offset := ((a % c.data_sz : Nat) : Int),
          data_offset := 0 }).1,
       (csf_write_loop env data ((a / c.data_sz : Nat) : Int) (P : Int) (N : Int) P 0
        (if ((a / c.data_sz : Nat) : Int) > (N : Int)
          then csf_write_backfill env ctx w ((a / c.data_sz : Nat) : Int) (N : Int)
          else (ctx, w)).1
        (if ((a / c.data_sz : Nat) : Int) > (N : Int)
          then csf_write_backfill env ctx w ((a / c.data_sz : Nat) : Int) (N : Int)
          else (ctx, w)).2
        { to_write := ((n + a % c.data_sz : Nat) : Int),
          start_offset := ((a % c.data_sz : Nat) : Int),
          data_offset := 0 }).2.1,
       u64 (csf_write_loop env data ((a / c.data_sz : Nat) : Int) (P : Int) (N : Int) P 0
        (if ((a / c.data_sz : Nat) : Int) > (N : Int)
          then csf_write_backfill env ctx w ((a / c.data_sz : Nat) : Int) (N : Int)
          else (ctx, w)).1
        (if ((a / c.data_sz : Nat) : Int) > (N : Int)
          then csf_write_backfill env ctx w ((a / c.data_sz : Nat) : Int) (N : Int)
          else (ctx, w)).2
        { to_write := ((n + a % c.data_sz : Nat) : Int),
          start_offset := ((a % c.data_sz : Nat) : Int),
          data_offset := 0 }).2.2.data_offset) := by
    have hT : i32 ((n : Int) + ((a % c.data_sz : Nat) : Int))
        = ((n + a % c.data_sz : Nat) : Int) := by
      rw [← Nat.cast_add]; exact i32_nat hT1
    have hhdr : ¬ (ctx.file_header_check = 0 ∧ (i32 0 < 0 ∨ i32 0 < HDR_SZ)) := by
      rw [i32_of_range (by omega) (by omega)]
      unfold HDR_SZ
      omega
    obtain ⟨hsp1, hso1, -⟩ := start_page_nat hs hD hD1 a hseek ha1
    have hPm := page_count_for_length_nat hs hD (n + a % c.data_sz) P hT1 hP
    have hpcf := page_count_for_file_disk hs hv w hdisk hN
    unfold csf_write
    simp only [hsp1, hso1, hT, hPm, hpcf, csf_write_header, ite_self, Int.toNat_ofNat]
    rw [if_neg hhdr]
  have hso2 := (start_page_nat hs hD hD1 a hseek ha1).2.2
  rw [hgoal]
  by_cases hbf : N < a / c.data_sz
  · rw [if_pos (by exact_mod_cast hbf)]
    obtain ⟨pb0, sb0, w0, hback, hpb0, hsb0, hw0, hd0⟩ :=
      csf_write_backfill_disk hc hs hv w hdisk (a / c.data_sz) (a % c.data_sz) hbf (by omega)
        hfr (fun q hq => hfw q (Or.inl hbf) (by omega)) hso2 hso
    rw [hback]
    obtain ⟨pb1, sb1, cb1, w1, v1, hloop, h1, h2, h3, h4, -, -, h7, h8⟩ :=
      csf_write_loop_disk_start hc hv data (a / c.data_sz) (N : Int) (a / c.data_sz)
        (pagesAfterBackfill c N pg (a / c.data_sz) (a % c.data_sz)) ctx (a : Int)
        (a % c.data_sz) n P J hseek hso (by omega) hdata (by omega) (by omega) hP
        (fun q hq => ⟨fun h => by omega, fun h => by omega⟩) (le_refl _) hr hfr hJ
        (fun k hk => hfw _ (Or.inr (Nat.le_add_right _ _)) (by omega)) hfail pb0 sb0 (List.replicate c.page_sz 0) w0
        (hs.with_bufs pb0 sb0 _ hpb0 hsb0 (by simp)) hd0
    rw [hloop]
    refine ⟨pb1, sb1, cb1, w1, ?_, h2, h3, h4, h7.trans hw0, ?_⟩
    · show (_, _, u64 v1.data_offset) = _
      rw [h1, u64_nat hts1]
    · rw [Nat.max_eq_right (by omega : N ≤ a / c.data_sz), if_pos hbf]
      unfold pagesBeforeLoop
      rw [if_pos hbf]
      exact h8
  · rw [if_neg (by exact_mod_cast hbf)]
    obtain ⟨pb1, sb1, cb1, w1, v1, hloop, h1, h2, h3, h4, -, -, h7, h8⟩ :=
      csf_write_loop_disk_start hc hv data (a / c.data_sz) (N : Int) N pg ctx (a : Int)
        (a % c.data_sz) n P J hseek hso (by omega) hdata (by omega) (by omega) hP
        (fun q hq => ⟨fun h => by omega, fun h => by omega⟩) (by omega) hr hfr hJ
        (fun k hk => hfw _ (Or.inr (Nat.le_add_right _ _)) (by omega)) hfail ctx.page_buffer ctx.scratch_buffer
        ctx.csf_buffer w hs hdisk
    have hloop1 : csf_write_loop env data ((a / c.data_sz : Nat) : Int) (P : Int) (N : Int) P 0
        ctx w
        { to_write := ((n + a % c.data_sz : Nat) : Int),
          start_offset := ((a % c.data_sz : Nat) : Int),
          data_offset := 0 } = _ := hloop
    rw [hloop1]
    refine ⟨pb1, sb1, cb1, w1, ?_, h2, h3, h4, h7, ?_⟩
    · show (_, _, u64 v1.data_offset) = _
      rw [h1, u64_nat hts1]
    · rw [Nat.max_eq_left (by omega : a / c.data_sz ≤ N), if_neg hbf]
      unfold pagesBeforeLoop
      rw [if_neg hbf]
      exact h8

/-- A turn of the main loop of `csf_write` that starts within the valid bytes of the page
replaces `l` bytes at offset `so` and keeps the other valid bytes, whatever the assembly
buffer held. -/
theorem pageAfterWrite_within (old cb : List Nat) (so : Nat) (src : List Nat) (l : Nat)
    (hso : so ≤ old.length) (hl : l ≤ src.length) :
    pageAfterWrite old cb so src l = old.take so ++ src.take l ++ old.drop (so + l) := by
  unfold pageAfterWrite
  apply List.ext_getElem?
  intro i
  have h1 : (old.take so).length = so := by rw [List.length_take]; omega
  have h2 : (src.take l).length = l := by rw [List.length_take]; omega
  by_cases hi : i < max (so + l) old.length
  · rw [List.getElem?_take_of_lt hi,
      memcpy_getElem? _ _ _ _ _ (by rw [List.length_append]; omega) hl]
    by_cases hi1 : i < so
    · rw [if_pos hi1, List.getElem?_append_left (by omega : i < old.length),
        List.append_assoc, List.getElem?_append_left (by omega),
        List.getElem?_take_of_lt hi1]
    · rw [if_neg hi1]
      by_cases hi2 : i < so + l
      · rw [if_pos hi2, List.append_assoc, List.getElem?_append_right (by omega), h1,
          List.getElem?_append_left (by omega), List.getElem?_take_of_lt (by omega)]
      · rw [if_neg hi2, List.getElem?_append_left (by omega : i < old.length),
          List.getElem?_append_right (by rw [List.length_append]; omega),
          List.length_append, h1, h2, List.getElem?_drop]
        congr 1
        omega
  · rw [List.getElem?_take_eq_none (by omega)]
    symm
    rw [List.getElem?_eq_none_iff]
    simp only [List.length_append, List.length_drop, h1, h2]
    omega

/-- The number of pages that `T` bytes take: the least `P` with `T <= P * D`. -/
theorem pages_for_spec (D T : Nat) (hD : 0 < D) (k : Nat) :
    k < (T + D - 1) / D ↔ k * D < T := by
  rw [Nat.lt_iff_add_one_le, Nat.le_div_iff_mul_le hD]
  have e : (k + 1) * D = k * D + D := by ring
  rw [e]
  omega

/-- The pages of a write of `n` bytes from offset 0 on an empty file: page `i` holds the
bytes `[i * D, min (n, (i + 1) * D))` of the caller's buffer. -/
theorem pagesAfterWrite_empty (c : Codec) (pg0 : Nat → List Nat) (cb0 data : List Nat)
    (n P i : Nat) (hdata : n ≤ data.length) (hi : i < P) (hiD : i * c.data_sz < n) :
    pagesAfterWrite c 0 pg0 cb0 data 0 0 n P i
      = (data.drop (i * c.data_sz)).take (min (n - i * c.data_sz) c.data_sz) := by
  unfold pagesAfterWrite
  have hts : turnStart c.data_sz 0 n (i - 0) = i * c.data_sz := by
    unfold turnStart
    rw [Nat.sub_zero, Nat.add_zero, Nat.sub_zero]
    omega
  rw [if_pos (by omega), if_neg (by omega), hts, ite_self, Nat.sub_zero, Nat.add_zero,
    Nat.sub_zero]
  rw [pageAfterWrite_within _ _ _ _ _ (by simp) (by rw [List.length_drop]; omega)]
  simp

/-- C18 (as stated, refuted): for `n = 2^31` the `int` that holds the byte count is negative,
`csf_write` writes no page, and the backing file keeps the length 0, not
`ceil(n / data_sz) * page_sz`. -/
theorem write_2g_leaves_file_empty :
    (csf_write xorEnv (freshCtx 512) emptyWorld (List.replicate 2147483648 65)
      2147483648).2.1.bytes.length = 0 ∧
    (csf_write xorEnv (freshCtx 512) emptyWorld (List.replicate 2147483648 65)
      2147483648).2.2 = 0 := by
  decide!

/-- The function `csf_write` at offset 0 of an empty file, within `int` sizes and without
faults: it returns `n` and leaves `ceil(n / data_sz)` stored pages, page `i` holding the bytes
`[i * data_sz, min (n, (i + 1) * data_sz))` of the caller's buffer. -/
theorem csf_write_empty_disk {env : Env} (hc : CipherOK env) (hf : NoFaults env)
    {ctx : CSF_CTX} {c : Codec} (hs : Shape ctx c) (hv : c.Valid env) (w : World)
    (hw : w.bytes = []) (hseek : ctx.seek_ptr = 0) (data : List Nat) (n : Nat)
    (hdata : n ≤ data.length) (hfit : n < 2147483648)
    (hr : (n + c.data_sz - 1) / c.data_sz * c.page_sz < 2147483648) :
    ∃ pb sb cb w1,
      csf_write env ctx w data (n : Int) =
        ({ ctx with
          page_buffer := pb,
          scratch_buffer := sb,
          csf_buffer := cb,
          seek_ptr := (n : Int) }, w1, (n : Int)) ∧
      pb.length = c.page_sz ∧ sb.length = c.page_sz ∧ cb.length = c.page_sz ∧
      w1.assert_failed = w.assert_failed ∧
      Disk env c w1.bytes ((n + c.data_sz - 1) / c.data_sz)
        (fun i => (data.drop (i * c.data_sz)).take (min (n - i * c.data_sz) c.data_sz)) := by
  have hD := hv.data_pos
  have hP := pages_for_spec c.data_sz n hD
  have hts : turnStart c.data_sz 0 n ((n + c.data_sz - 1) / c.data_sz) = n :=
    turnStart_full _ _ _ _ (by
      intro h
      have := (hP ((n + c.data_sz - 1) / c.data_sz)).2 (by omega)
      omega)
  have hd : Disk env c w.bytes 0 (fun _ => []) := by rw [hw]; exact Disk.empty env c _
  obtain ⟨pb, sb, cb, w1, hwr, h1, h2, h3, h4, h5⟩ :=
    csf_write_disk hc hs hv w hd
      data 0 n ((n + c.data_sz - 1) / c.data_sz) ((n + c.data_sz - 1) / c.data_sz)
      (by rw [hseek]; rfl) (by omega) hdata
      (by intro k; rw [Nat.zero_mod, Nat.add_zero]; exact hP k)
      (by omega) (by rw [Nat.zero_div, Nat.zero_add]; exact hr) hf.1 (le_refl _)
      (fun q _ _ => hf.2 _) (fun h => absurd h (by omega))
  rw [Nat.zero_mod, hts] at hwr
  rw [Nat.zero_div, Nat.zero_mod, Nat.max_self, Nat.zero_add, Nat.max_eq_right (Nat.zero_le _)]
    at h5
  refine ⟨pb, sb, cb, w1, ?_, h1, h2, h3, h4, ?_⟩
  · rw [hwr]; simp
  · refine h5.congr (fun i hi => ?_)
    exact (pagesAfterWrite_empty c _ _ data n _ i hdata hi ((hP i).1 hi)).symm

/-- C18 (amended): for every `n` within `int` whose pages end within `int`
(`ceil(n / data_sz) * page_sz < 2^31`), after `csf_write` of `n` bytes at offset 0 of an empty
file without I/O failures the backing file is exactly `HDR_SZ + ceil(n / data_sz) * page_sz`
bytes long, with `HDR_SZ = 0`, and page `i` occupies the bytes
`[i * page_sz, (i + 1) * page_sz)`: it is a stored page whose valid bytes are the bytes
`[i * data_sz, min (n, (i + 1) * data_sz))` of the caller's buffer, so that every page but
the last holds `data_sz` bytes and the last one the rest. -/
theorem write_from_empty_layout {env : Env} (hc : CipherOK env) (hf : NoFaults env)
    {ctx : CSF_CTX} {c : Codec} (hs : Shape ctx c) (hv : c.Valid env) (w : World)
    (hw : w.bytes = []) (hseek : ctx.seek_ptr = 0) (data : List Nat) (n : Nat)
    (hdata : n ≤ data.length) (hfit : n < 2147483648)
    (hr : (n + c.data_sz - 1) / c.data_sz * c.page_sz < 2147483648) :
    HDR_SZ = 0 ∧
    ((csf_write env ctx w data (n : Int)).2.1.bytes.length : Int)
      = HDR_SZ + (((n + c.data_sz - 1) / c.data_sz * c.page_sz : Nat) : Int) ∧
    ∀ i, i < (n + c.data_sz - 1) / c.data_sz →
      PageAt env c (csf_write env ctx w data (n : Int)).2.1.bytes i
        ((data.drop (i * c.data_sz)).take (min (n - i * c.data_sz) c.data_sz)) ∧
      ((data.drop (i * c.data_sz)).take (min (n - i * c.data_sz) c.data_sz)).length
        = min (n - i * c.data_sz) c.data_sz := by
  obtain ⟨pb, sb, cb, w1, hwr, -, -, -, -, h5⟩ :=
    csf_write_empty_disk hc hf hs hv w hw hseek data n hdata hfit hr
  rw [hwr]
  refine ⟨rfl, ?_, ?_⟩
  · show ((w1.bytes.length : Nat) : Int) = _
    rw [h5.1]; unfold HDR_SZ; simp
  · intro i hi
    refine ⟨h5.2 i hi, ?_⟩
    rw [List.length_take, List.length_drop]
    omega

theorem write_from_empty_layout_witness :
    HDR_SZ = 0 ∧
    ((csf_write xorEnv (freshCtx 512) emptyWorld (List.replicate 1000 65)
        ((1000 : Nat) : Int)).2.1.bytes.length : Int)
      = HDR_SZ + (((1000 + (codecOf (freshCtx 512)).data_sz - 1)
          / (codecOf (freshCtx 512)).data_sz * (codecOf (freshCtx 512)).page_sz : Nat) : Int) ∧
    ∀ i, i < (1000 + (codecOf (freshCtx 512)).data_sz - 1) / (codecOf (freshCtx 512)).data_sz →
      PageAt xorEnv (codecOf (freshCtx 512))
        (csf_write xorEnv (freshCtx 512) emptyWorld (List.replicate 1000 65)
          ((1000 : Nat) : Int)).2.1.bytes i
        (((List.replicate 1000 65).drop (i * (codecOf (freshCtx 512)).data_sz)).take
          (min (1000 - i * (codecOf (freshCtx 512)).data_sz)
            (codecOf (freshCtx 512)).data_sz)) ∧
      (((List.replicate 1000 65).drop (i * (codecOf (freshCtx 512)).data_sz)).take
          (min (1000 - i * (codecOf (freshCtx 512)).data_sz)
            (codecOf (freshCtx 512)).data_sz)).length
        = min (1000 - i * (codecOf (freshCtx 512)).data_sz) (codecOf (freshCtx 512)).data_sz :=
  write_from_empty_layout cipherOK_xorEnv noFaults_xorEnv shape_freshCtx_512 valid_freshCtx_512
    emptyWorld rfl rfl (List.replicate 1000 65) 1000 (by simp) (by decide) (by decide!)

theorem PageAt.decodes_page {env : Env} (hc : CipherOK env) {ctx : CSF_CTX} {c : Codec}
    (hs : Shape ctx c) (hv : c.Valid env) (w : World) {p : Nat} {d : List Nat}
    (hpg : PageAt env c w.bytes p d) (hlen : p * c.page_sz + c.page_sz ≤ w.bytes.length)
    (hr : p * c.page_sz + c.page_sz < 2147483648)
    (hn : env.read_fails (p * c.page_sz) = false) : Decodes env ctx w p d := by
  obtain ⟨pb, sb, -, -, htake, hrd⟩ := csf_read_page_hit hc hs hv w p hn hpg hlen hr
    Buf.page_buffer
  unfold Decodes
  rw [hrd]
  exact ⟨rfl, htake rfl⟩

theorem Disk.decodes_pages {env : Env} (hc : CipherOK env) {ctx : CSF_CTX} {c : Codec}
    (hs : Shape ctx c) (hv : c.Valid env) (w : World) {N : Nat} {pg : Nat → List Nat}
    (hdisk : Disk env c w.bytes N pg) (hr : N * c.page_sz < 2147483648)
    (hfr : ∀ q, env.read_fails q = false) {p : Nat} (hp : p < N) :
    Decodes env ctx w p (pg p) := by
  have h1 := @mul_succ_le _ _ c.page_sz hp
  exact PageAt.decodes_page hc hs hv w (hdisk.2 p hp) (by rw [hdisk.1]; exact h1) (by omega) (hfr _)

/-- The logical size of a file of `N` stored pages with the valid bytes `pg`. -/
theorem csf_file_size_disk {env : Env} (hc : CipherOK env) {ctx : CSF_CTX} {c : Codec}
    (hs : Shape ctx c) (hv : c.Valid env) (w : World) {N : Nat} {pg : Nat → List Nat}
    (hdisk : Disk env c w.bytes N pg) (hr : N * c.page_sz < 2147483648)
    (hfr : ∀ q, env.read_fails q = false) :
    (csf_file_size env ctx w).2.2
      = ((if N = 0 then 0 else (N - 1) * c.data_sz + (pg (N - 1)).length : Nat) : Int) := by
  have hPSpos := hv.page_pos
  have hDle := c.data_le_page
  have hsm := hv.small
  have hNle : N ≤ N * c.page_sz := Nat.le_mul_of_pos_right _ hPSpos
  have hdiv : (w.bytes.length : Int) / ctx.page_sz = (N : Int) := by
    rw [hdisk.1, hs.page, ← Int.natCast_div, Nat.mul_div_cancel _ hPSpos]
  by_cases hN : N = 0
  · subst hN
    have hrd := csf_read_page_neg env ctx w ((0 : Nat) - 1 : Int) (by omega) Buf.page_buffer
    rw [csf_file_size_eq env ctx w (by rw [hs.page]; omega) (by rw [hdiv]; omega)
      (by rw [hdiv, hrd]; show _ ≤ _ + i32 (0 : Int) ∧ _ + i32 (0 : Int) < _
          rw [i32_of_range (by omega) (by omega), hs.data]
          simp only [Nat.cast_zero, zero_sub, neg_mul, one_mul, add_zero]; omega)]
    rw [hdiv, hrd]
    show (if i32 (0 : Int) < 0 then _ else _) = _
    rw [i32_of_range (by omega) (by omega)]
    simp
  · have hp : N - 1 < N := by omega
    have hcast : (N : Int) - 1 = ((N - 1 : Nat) : Int) := by omega
    have hle := hdisk.page_le hp
    have h1 := @mul_succ_le _ _ c.page_sz hp
    obtain ⟨pb, sb, -, -, -, hrd⟩ := csf_read_page_hit hc hs hv w (N - 1) (hfr _) (hdisk.2 _ hp)
      (by rw [hdisk.1]; exact h1) (by omega) Buf.page_buffer
    have hprod : (N - 1) * c.data_sz ≤ (N - 1) * c.page_sz := Nat.mul_le_mul_left _ hDle
    have hi : i32 ((pg (N - 1)).length : Int) = ((pg (N - 1)).length : Int) :=
      i32_of_range (by omega) (by omega)
    have hsum : (((N - 1 : Nat) : Int)) * (c.data_sz : Int) + ((pg (N - 1)).length : Int)
        = (((N - 1) * c.data_sz + (pg (N - 1)).length : Nat) : Int) := by push_cast; ring
    rw [csf_file_size_eq env ctx w (by rw [hs.page]; omega) (by rw [hdiv]; omega)
      (by rw [hdiv, hcast, hrd]; show _ ≤ _ + i32 _ ∧ _ + i32 _ < _
          rw [hi, hs.data, hsum]; omega)]
    rw [hdiv, hcast, hrd]
    show (if i32 ((pg (N - 1)).length : Int) < 0 then _ else _) = _
    rw [hi, if_neg (by omega), if_neg (by omega), if_neg hN, hs.data, hsum]

/-- C25 (as stated, refuted): with 64-byte pages (`data_sz` 32) and the seek pointer at
`2^32 + 100` on an empty file, the start page `seek_ptr / data_sz` is 134217731, but
`csf_write` computes the start page from the seek pointer truncated to `int` (100) and
back-fills three pages only: after the write of `"X"` the file has 4 pages, so the pages up to
`start_page - 1` of the claim do not exist. -/
theorem backfill_uses_truncated_offset :
    (seekTo xorEnv (freshSys 64) 4294967396).1.seek_ptr / (freshCtx 64).data_sz = 134217731 ∧
    (seekTo xorEnv (freshSys 64) 4294967396).2.bytes.length = 0 ∧
    (writeAll xorEnv (seekTo xorEnv (freshSys 64) 4294967396) [88]).1.2.bytes.length
      = 4 * 64 := by
  decide!

theorem pagesAfterWrite_before (c : Codec) (N0 : Nat) (pg0 : Nat → List Nat)
    (cb0 data : List Nat) (sp so n k p : Nat) (hp : p < sp) :
    pagesAfterWrite c N0 pg0 cb0 data sp so n k p = pg0 p := by
  unfold pagesAfterWrite
  rw [if_neg (by omega)]

/-- C25 (amended): for every `csf_write` within `int` sizes (`seek_ptr + n < 2^31`, all pages
ending within `int`) issued on a file of `N` stored pages with the start page
`sp = seek_ptr / data_sz` strictly greater than `N`, and no I/O failures, after the call
(a) if `N > 0`, page `N - 1` decodes to its previous valid bytes followed by zeros, `data_sz`
bytes in all, (b) every page `i` with `N <= i < sp - 1` decodes to `data_sz` zero bytes, and
(c) page `sp - 1` decodes to `seek_ptr mod data_sz` zero bytes.  The length a page decodes
with is its `data_sz_used`. -/
theorem backfill_layout {env : Env} (hc : CipherOK env) (hf : NoFaults env)
    {ctx : CSF_CTX} {c : Codec} (hs : Shape ctx c) (hv : c.Valid env) (w : World)
    {N : Nat} {pg : Nat → List Nat} (hdisk : Disk env c w.bytes N pg)
    (data : List Nat) (a n : Nat) (hseek : ctx.seek_ptr = (a : Int))
    (hN : N < a / c.data_sz) (hfit : a + n < 2147483648) (hdata : n ≤ data.length)
    (hr : (a / c.data_sz + (n + a % c.data_sz + c.data_sz - 1) / c.data_sz) * c.page_sz
      < 2147483648) :
    (0 < N →
      Decodes env (csf_write env ctx w data (n : Int)).1 (csf_write env ctx w data (n : Int)).2.1
        (N - 1) (pg (N - 1) ++ List.replicate (c.data_sz - (pg (N - 1)).length) 0) ∧
      (pg (N - 1) ++ List.replicate (c.data_sz - (pg (N - 1)).length) 0).length = c.data_sz) ∧
    (∀ i, N ≤ i → i + 1 < a / c.data_sz →
      Decodes env (csf_write env ctx w data (n : Int)).1 (csf_write env ctx w data (n : Int)).2.1
        i (List.replicate c.data_sz 0)) ∧
    Decodes env (csf_write env ctx w data (n : Int)).1 (csf_write env ctx w data (n : Int)).2.1
      (a / c.data_sz - 1) (List.replicate (a % c.data_sz) 0) := by
  have hD := hv.data_pos
  have hNr : N * c.page_sz ≤ (a / c.data_sz
      + (n + a % c.data_sz + c.data_sz - 1) / c.data_sz) * c.page_sz :=
    Nat.mul_le_mul_right _ (le_trans (Nat.le_of_lt hN) (Nat.le_add_right _ _))
  obtain ⟨pb, sb, cb, w1, hwr, h1, h2, h3, -, h5⟩ :=
    csf_write_disk hc hs hv w hdisk data a n
      ((n + a % c.data_sz + c.data_sz - 1) / c.data_sz)
      ((n + a % c.data_sz + c.data_sz - 1) / c.data_sz) hseek hfit hdata
      (pages_for_spec c.data_sz (n + a % c.data_sz) hD) (by omega) hr hf.1 (le_refl _)
      (fun q _ _ => hf.2 _) (fun h => absurd h (by omega))
  have hs1 : Shape (csf_write env ctx w data (n : Int)).1 c := by
    rw [hwr]; exact ⟨hs.key, hs.enc, hs.iv, hs.hdr, hs.data, hs.page, h1, h2, h3⟩
  have hw1 : (csf_write env ctx w data (n : Int)).2.1 = w1 := by rw [hwr]
  rw [hw1]
  have hmax : max (max N (a / c.data_sz))
      (a / c.data_sz + (n + a % c.data_sz + c.data_sz - 1) / c.data_sz)
      = a / c.data_sz + (n + a % c.data_sz + c.data_sz - 1) / c.data_sz := by
    have h0 := Nat.zero_le ((n + a % c.data_sz + c.data_sz - 1) / c.data_sz)
    generalize (n + a % c.data_sz + c.data_sz - 1) / c.data_sz = P at h0 ⊢
    omega
  rw [hmax] at h5
  have hpage : ∀ p, p < a / c.data_sz →
      Decodes env (csf_write env ctx w data (n : Int)).1 w1 p
        (pagesAfterBackfill c N pg (a / c.data_sz) (a % c.data_sz) p) := by
    intro p hp
    have := Disk.decodes_pages hc hs1 hv w1 h5 hr hf.1
      (Nat.lt_of_lt_of_le hp (Nat.le_add_right _ _))
    rw [pagesAfterWrite_before _ _ _ _ _ _ _ _ _ _ hp] at this
    unfold pagesBeforeLoop at this
    rw [if_pos hN] at this
    exact this
  refine ⟨?_, ?_, ?_⟩
  · intro hN0
    have h := hpage (N - 1) (by omega)
    unfold pagesAfterBackfill at h
    rw [if_neg (by omega), if_pos (by omega)] at h
    refine ⟨h, ?_⟩
    have := hdisk.page_le (by omega : N - 1 < N)
    rw [List.length_append, List.length_replicate]
    omega
  · intro i hi1 hi2
    have h := hpage i (by omega)
    unfold pagesAfterBackfill at h
    rw [if_neg (by omega), if_neg (by omega), if_pos hi2] at h
    exact h
  · have h := hpage (a / c.data_sz - 1) (by omega)
    unfold pagesAfterBackfill at h
    rw [if_neg (by omega), if_neg (by omega), if_neg (by omega)] at h
    exact h

theorem gapSys_spec :
    Shape gapSys.1 (codecOf (freshCtx 512)) ∧
    Disk xorEnv (codecOf (freshCtx 512)) gapSys.2.bytes 1 (fun _ => [65, 65, 65, 65, 65]) := by
  obtain ⟨pb, sb, cb, w1, hwr, h1, h2, h3, -, h5⟩ :=
    csf_write_empty_disk cipherOK_xorEnv noFaults_xorEnv shape_freshCtx_512 valid_freshCtx_512
      emptyWorld rfl rfl [65, 65, 65, 65, 65] 5 (by decide) (by decide) (by decide!)
  have hN : (5 + (codecOf (freshCtx 512)).data_sz - 1) / (codecOf (freshCtx 512)).data_sz = 1 := by
    decide!
  rw [hN] at h5
  have hg1 : gapSys.1
      = { (csf_write xorEnv (freshCtx 512) emptyWorld [65, 65, 65, 65, 65]
            ((5 : Nat) : Int)).1 with seek_ptr := 2000 } := rfl
  have hg2 : gapSys.2
      = (csf_write xorEnv (freshCtx 512) emptyWorld [65, 65, 65, 65, 65]
          ((5 : Nat) : Int)).2.1 := rfl
  rw [hg1, hg2, hwr]
  have hs := shape_freshCtx_512
  refine ⟨⟨hs.key, hs.enc, hs.iv, hs.hdr, hs.data, hs.page, h1, h2, h3⟩, h5.congr ?_⟩
  intro p hp
  have hp0 : p = 0 := by omega
  subst hp0
  decide!

theorem shape_gapSys : Shape gapSys.1 (codecOf (freshCtx 512)) := gapSys_spec.1

theorem disk_gapSys :
    Disk xorEnv (codecOf (freshCtx 512)) gapSys.2.bytes 1 (fun _ => [65, 65, 65, 65, 65]) :=
  gapSys_spec.2

theorem backfill_layout_witness :
    (0 < 1 →
      Decodes xorEnv (csf_write xorEnv gapSys.1 gapSys.2 [88] ((1 : Nat) : Int)).1
        (csf_write xorEnv gapSys.1 gapSys.2 [88] ((1 : Nat) : Int)).2.1 (1 - 1)
        ((fun _ => [65, 65, 65, 65, 65]) (1 - 1)
          ++ List.replicate ((codecOf (freshCtx 512)).data_sz
            - ((fun _ => [65, 65, 65, 65, 65]) (1 - 1) : List Nat).length) 0) ∧
      ((fun _ => [65, 65, 65, 65, 65]) (1 - 1)
          ++ List.replicate ((codecOf (freshCtx 512)).data_sz
            - ((fun _ => [65, 65, 65, 65, 65]) (1 - 1) : List Nat).length) 0).length
        = (codecOf (freshCtx 512)).data_sz) ∧
    (∀ i, 1 ≤ i → i + 1 < 2000 / (codecOf (freshCtx 512)).data_sz →
      Decodes xorEnv (csf_write xorEnv gapSys.1 gapSys.2 [88] ((1 : Nat) : Int)).1
        (csf_write xorEnv gapSys.1 gapSys.2 [88] ((1 : Nat) : Int)).2.1 i
        (List.replicate (codecOf (freshCtx 512)).data_sz 0)) ∧
    Decodes xorEnv (csf_write xorEnv gapSys.1 gapSys.2 [88] ((1 : Nat) : Int)).1
      (csf_write xorEnv gapSys.1 gapSys.2 [88] ((1 : Nat) : Int)).2.1
      (2000 / (codecOf (freshCtx 512)).data_sz - 1)
      (List.replicate (2000 % (codecOf (freshCtx 512)).data_sz) 0) :=
  backfill_layout cipherOK_xorEnv noFaults_xorEnv shape_gapSys valid_freshCtx_512 gapSys.2
    disk_gapSys [88] 2000 1 (by decide!) (by decide!) (by decide) (by decide) (by decide!)

/-- C30 (as stated, refuted): a write of zero bytes with the seek pointer beyond the end is not
a no-op on the file.  With 64-byte pages (`data_sz` 32), on the empty file with the seek
pointer at 100 it returns 0 and stores four pages, so that the page count goes from 0 to 4
and `csf_file_size` from 0 to 100; on the one-byte file `"A"` with the seek pointer at 5 it
stores page 0 with 5 valid bytes, so that `csf_file_size` goes from 1 to 5. -/
theorem zero_length_write_extends_file :
    (writeAll xorEnv (seekTo xorEnv (freshSys 64) 100) []).2 = 0 ∧
    (csf_page_count_for_file (seekTo xorEnv (freshSys 64) 100).1
      (seekTo xorEnv (freshSys 64) 100).2).2 = 0 ∧
    (csf_page_count_for_file (writeAll xorEnv (seekTo xorEnv (freshSys 64) 100) []).1.1
      (writeAll xorEnv (seekTo xorEnv (freshSys 64) 100) []).1.2).2 = 4 ∧
    sizeOf xorEnv (seekTo xorEnv (freshSys 64) 100) = 0 ∧
    sizeOf xorEnv (writeAll xorEnv (seekTo xorEnv (freshSys 64) 100) []).1 = 100 ∧
    sizeOf xorEnv (seekTo xorEnv (writeAll xorEnv (freshSys 64) [65]).1 5) = 1 ∧
    sizeOf xorEnv
      (writeAll xorEnv (seekTo xorEnv (writeAll xorEnv (freshSys 64) [65]).1 5) []).1 = 5 := by
  decide!

theorem pagesAfterWrite_nothing (c : Codec) (N0 : Nat) (pg0 : Nat → List Nat)
    (cb0 data : List Nat) (sp so J : Nat) (hJ : J ≤ 1) (p : Nat)
    (hsp : p = sp → 0 < J → sp < N0 ∧ so ≤ (pg0 sp).length) :
    pagesAfterWrite c N0 pg0 cb0 data sp so 0 J p = pg0 p := by
  unfold pagesAfterWrite
  by_cases h : sp ≤ p ∧ p < sp + J
  · have hps : p = sp := by omega
    subst hps
    obtain ⟨h1, h2⟩ := hsp rfl (by omega)
    rw [if_pos h, if_pos h1]
    simp only [if_true]
    have hl : min (0 + so - (p - p) * c.data_sz) c.data_sz - so = 0 := by
      rw [Nat.sub_self, Nat.zero_mul]
      omega
    rw [hl, pageAfterWrite_within _ _ _ _ _ h2 (Nat.zero_le _)]
    simp
  · rw [if_neg h]

theorem zero_write_geometry (D a N len : Nat) (hD : 0 < D) (hlen : len ≤ D)
    (ha : a ≤ if N = 0 then 0 else (N - 1) * D + len) :
    a / D + (0 + a % D + D - 1) / D ≤ N ∧ (0 + a % D + D - 1) / D ≤ 1 ∧
    (0 < (0 + a % D + D - 1) / D → a / D + 1 = N → a % D ≤ len) ∧
    (0 < (0 + a % D + D - 1) / D → a / D < N) := by
  have hdm := Nat.div_add_mod a D
  have hml := Nat.mod_lt a hD
  have hP0 := pages_for_spec D (0 + a % D) hD 0
  have hP1 := pages_for_spec D (0 + a % D) hD 1
  rw [Nat.zero_mul] at hP0
  rw [Nat.one_mul] at hP1
  generalize (0 + a % D + D - 1) / D = P at *
  have hPle : P ≤ 1 := by
    by_contra h
    have := hP1.1 (by omega)
    omega
  by_cases hN : N = 0
  · subst hN
    rw [if_pos rfl] at ha
    have ha0 : a = 0 := by omega
    subst ha0
    rw [Nat.zero_mod] at hP0
    rw [Nat.zero_div]
    have : ¬ 0 < P := fun h => by have := hP0.1 h; omega
    omega
  · rw [if_neg hN] at ha
    have hND : (N - 1) * D + D = N * D := by
      have : N = (N - 1) + 1 := by omega
      nth_rewrite 2 [this]
      ring
    have hsp : a / D ≤ N := by
      by_contra h
      have : (N + 1) * D ≤ a / D * D := Nat.mul_le_mul_right D (by omega)
      have e : (N + 1) * D = N * D + D := by ring
      have e2 : D * (a / D) = a / D * D := Nat.mul_comm _ _
      omega
    have hsp2 : a / D = N → a % D = 0 := by
      intro h
      rw [h] at hdm
      have e2 : D * N = N * D := Nat.mul_comm _ _
      omega
    have hsp3 : a / D + 1 = N → a % D ≤ len := by
      intro h
      have h' : a / D = N - 1 := by omega
      rw [h'] at hdm
      have e2 : D * (N - 1) = (N - 1) * D := Nat.mul_comm _ _
      omega
    have hP00 : a % D = 0 → P = 0 := by
      intro h
      by_contra hne
      have := hP0.1 (by omega)
      omega
    refine ⟨?_, hPle, fun _ => hsp3, ?_⟩
    · by_cases h : a / D = N
      · have := hP00 (hsp2 h)
        omega
      · omega
    · intro hpos
      by_contra h
      have := hP00 (hsp2 (by omega))
      omega

/-- C30 (amended): for every file of stored pages within `int` offsets and every seek pointer
with `0 <= seek_ptr <= csf_file_size` (inside or at the current end), when no `read` fails,
`csf_write` with `nbyte = 0` returns 0, leaves `seek_ptr` unchanged, and leaves the on-disk
page count and the value of `csf_file_size` unchanged. -/
theorem zero_length_write_keeps_size {env : Env} (hc : CipherOK env)
    (hfr : ∀ p, env.read_fails p = false) {ctx : CSF_CTX} {c : Codec} (hs : Shape ctx c)
    (hv : c.Valid env) (w : World) {N : Nat} {pg : Nat → List Nat}
    (hdisk : Disk env c w.bytes N pg) (hN : N * c.page_sz < 2147483648) (data : List Nat)
    (a : Nat) (hseek : ctx.seek_ptr = (a : Int))
    (ha : (a : Int) ≤ (csf_file_size env ctx w).2.2) :
    (csf_write env ctx w data 0).2.2 = 0 ∧
    (csf_write env ctx w data 0).1.seek_ptr = ctx.seek_ptr ∧
    (csf_page_count_for_file (csf_write env ctx w data 0).1 (csf_write env ctx w data 0).2.1).2
      = (csf_page_count_for_file ctx w).2 ∧
    (csf_file_size env (csf_write env ctx w data 0).1 (csf_write env ctx w data 0).2.1).2.2
      = (csf_file_size env ctx w).2.2 := by
  have hD := hv.data_pos
  have hsz := csf_file_size_disk hc hs hv w hdisk hN hfr
  rw [hsz] at ha
  have ha1 : a ≤ if N = 0 then 0 else (N - 1) * c.data_sz + (pg (N - 1)).length := by
    exact_mod_cast ha
  have hlen : N ≠ 0 → (pg (N - 1)).length ≤ c.data_sz := fun h =>
    hdisk.page_le (by omega : N - 1 < N)
  have hgeo : a / c.data_sz + (0 + a % c.data_sz + c.data_sz - 1) / c.data_sz ≤ N ∧
      (0 + a % c.data_sz + c.data_sz - 1) / c.data_sz ≤ 1 ∧
      (0 < (0 + a % c.data_sz + c.data_sz - 1) / c.data_sz → a / c.data_sz + 1 = N →
        a % c.data_sz ≤ (pg (N - 1)).length) ∧
      (0 < (0 + a % c.data_sz + c.data_sz - 1) / c.data_sz → a / c.data_sz < N) := by
    by_cases h0 : N = 0
    · have := zero_write_geometry c.data_sz a N 0 hD (Nat.zero_le _)
        (by rw [if_pos h0] at ha1 ⊢; exact ha1)
      exact ⟨this.1, this.2.1, fun h1 h2 => by omega, this.2.2.2⟩
    · exact zero_write_geometry c.data_sz a N _ hD (hlen h0) ha1
  have hP := pages_for_spec c.data_sz (0 + a % c.data_sz) hD
  generalize (0 + a % c.data_sz + c.data_sz - 1) / c.data_sz = P at hgeo hP
  obtain ⟨hg1, hg2, hg3, hg4⟩ := hgeo
  have hrr : (a / c.data_sz + P) * c.page_sz ≤ N * c.page_sz := Nat.mul_le_mul_right _ hg1
  have hfit : a + 0 < 2147483648 := by
    have h1 : N * c.data_sz ≤ N * c.page_sz := Nat.mul_le_mul_left _ c.data_le_page
    by_cases h0 : N = 0
    · rw [if_pos h0] at ha1; omega
    · rw [if_neg h0] at ha1
      have h2 := hlen h0
      have hND : (N - 1) * c.data_sz + c.data_sz = N * c.data_sz := by
        have : N = (N - 1) + 1 := by omega
        nth_rewrite 2 [this]
        ring
      omega
  have key : ∀ J : Nat, J ≤ P →
      (∀ q, (N < a / c.data_sz ∨ a / c.data_sz ≤ q) → q < a / c.data_sz + J →
        env.write_fails (q * c.page_sz) = false) →
      (J < P → env.write_fails ((a / c.data_sz + J) * c.page_sz) = true) →
      (csf_write env ctx w data 0).2.2 = 0 ∧
      (csf_write env ctx w data 0).1.seek_ptr = ctx.seek_ptr ∧
      (csf_page_count_for_file (csf_write env ctx w data 0).1
        (csf_write env ctx w data 0).2.1).2 = (csf_page_count_for_file ctx w).2 ∧
      (csf_file_size env (csf_write env ctx w data 0).1 (csf_write env ctx w data 0).2.1).2.2
        = (csf_file_size env ctx w).2.2 := by
    intro J hJ hfw hfail
    obtain ⟨pb, sb, cb, w1, hwr, h1, h2, h3, -, h5⟩ :=
      csf_write_disk hc hs hv w hdisk data a 0 P J hseek hfit (Nat.zero_le _) hP hN
        (by omega) hfr hJ hfw hfail
    have hwr0 : csf_write env ctx w data 0 = _ := hwr
    have hts : turnStart c.data_sz (a % c.data_sz) 0 J = 0 := by
      have := turnStart_le c.data_sz (a % c.data_sz) 0 J
      omega
    rw [hts] at hwr0
    have hs1 : Shape (csf_write env ctx w data 0).1 c := by
      rw [hwr0]; exact ⟨hs.key, hs.enc, hs.iv, hs.hdr, hs.data, hs.page, h1, h2, h3⟩
    have hw1 : (csf_write env ctx w data 0).2.1 = w1 := by rw [hwr0]
    have hmax : max (max N (a / c.data_sz)) (a / c.data_sz + J) = N := by omega
    rw [hmax] at h5
    rw [hw1, page_count_for_file_disk hs1 hv w1 h5 hN, page_count_for_file_disk hs hv w hdisk hN,
      csf_file_size_disk hc hs1 hv w1 h5 hN hfr, hsz]
    refine ⟨by rw [hwr0]; rfl, by rw [hwr0, hseek]; simp, rfl, ?_⟩
    by_cases h0 : N = 0
    · rw [if_pos h0, if_pos h0]
    · rw [if_neg h0, if_neg h0]
      have hnb : ¬ N < a / c.data_sz := by omega
      have hpg : pagesAfterWrite c (max N (a / c.data_sz))
          (pagesBeforeLoop c N pg (a / c.data_sz) (a % c.data_sz))
          (if N < a / c.data_sz then List.replicate c.page_sz 0 else ctx.csf_buffer)
          data (a / c.data_sz) (a % c.data_sz) 0 J (N - 1) = pg (N - 1) := by
        have hbl : pagesBeforeLoop c N pg (a / c.data_sz) (a % c.data_sz) = pg := by
          unfold pagesBeforeLoop; rw [if_neg hnb]
        rw [hbl, Nat.max_eq_left (by omega : a / c.data_sz ≤ N)]
        apply pagesAfterWrite_nothing c N pg _ data (a / c.data_sz) (a % c.data_sz) J (by omega)
        intro hp hJ0
        refine ⟨hg4 (by omega), ?_⟩
        have := hg3 (by omega) (by omega)
        rw [← hp]; exact this
      rw [hpg]
  by_cases hP0 : P = 0
  · exact key 0 (by omega) (fun q _ hq => by omega) (fun h => by omega)
  · have hP1 : P = 1 := by omega
    have hnb : ¬ N < a / c.data_sz := by omega
    by_cases hwf : env.write_fails ((a / c.data_sz) * c.page_sz) = true
    · exact key 0 (by omega) (fun q _ hq => by omega) (fun _ => by rw [Nat.add_zero]; exact hwf)
    · refine key 1 (by omega) (fun q h1 hq => ?_) (fun h => by omega)
      have hq1 : q = a / c.data_sz := by
        rcases h1 with h1 | h1
        · exact absurd h1 hnb
        · omega
      rw [hq1]
      simpa using hwf

theorem shape_gapSys_seek_3 : Shape (seekTo xorEnv gapSys 3).1 (codecOf (freshCtx 512)) :=
  shape_gapSys.with_seek_ptr 3

theorem gapSys_size_ge_3 :
    ((3 : Nat) : Int) ≤ (csf_file_size xorEnv (seekTo xorEnv gapSys 3).1 gapSys.2).2.2 := by
  rw [csf_file_size_disk cipherOK_xorEnv shape_gapSys_seek_3 valid_freshCtx_512 gapSys.2
    disk_gapSys (by decide!) noFaults_xorEnv.1]
  decide!

theorem zero_length_write_keeps_size_witness :
    (csf_write xorEnv (seekTo xorEnv gapSys 3).1 gapSys.2 [] 0).2.2 = 0 ∧
    (csf_write xorEnv (seekTo xorEnv gapSys 3).1 gapSys.2 [] 0).1.seek_ptr
      = (seekTo xorEnv gapSys 3).1.seek_ptr ∧
    (csf_page_count_for_file (csf_write xorEnv (seekTo xorEnv gapSys 3).1 gapSys.2 [] 0).1
      (csf_write xorEnv (seekTo xorEnv gapSys 3).1 gapSys.2 [] 0).2.1).2
      = (csf_page_count_for_file (seekTo xorEnv gapSys 3).1 gapSys.2).2 ∧
    (csf_file_size xorEnv (csf_write xorEnv (seekTo xorEnv gapSys 3).1 gapSys.2 [] 0).1
      (csf_write xorEnv (seekTo xorEnv gapSys 3).1 gapSys.2 [] 0).2.1).2.2
      = (csf_file_size xorEnv (seekTo xorEnv gapSys 3).1 gapSys.2).2.2 :=
  zero_length_write_keeps_size cipherOK_xorEnv noFaults_xorEnv.1 shape_gapSys_seek_3
    valid_freshCtx_512 gapSys.2 disk_gapSys (by decide!) [] 3 rfl gapSys_size_ge_3

theorem pageAfterWrite_placed (old cb : List Nat) (so : Nat) (src : List Nat) (l : Nat)
    (hcb : so ≤ cb.length) (hl : l ≤ src.length) :
    so + l ≤ (pageAfterWrite old cb so src l).length ∧
    ((pageAfterWrite old cb so src l).take (so + l)).drop so = src.take l := by
  unfold pageAfterWrite memcpy
  have hX : so ≤ (old ++ cb.drop old.length).length ∧
      old.length ≤ (old ++ cb.drop old.length).length := by
    rw [List.length_append, List.length_drop]; omega
  generalize old ++ cb.drop old.length = X at hX
  have h1 : (X.take so).length = so := by rw [List.length_take]; omega
  have h2 : (src.take l).length = l := by rw [List.length_take]; omega
  have h3 : (X.take so ++ src.take l ++ X.drop (so + l)).take (so + l)
      = X.take so ++ src.take l := by
    apply List.take_left'
    rw [List.length_append, h1, h2]
  refine ⟨?_, ?_⟩
  · rw [List.length_take, List.length_append, List.length_append, h1, h2, List.length_drop]
    omega
  · rw [List.take_take, Nat.min_eq_left (by omega), h3]
    exact List.drop_left' h1

theorem turnStart_before_end (D so n k : Nat) (hso : so < D) (hk : k * D < n + so) :
    turnStart D so n k = k * D - so ∧ (1 ≤ k → so ≤ k * D) := by
  unfold turnStart
  refine ⟨by omega, fun h => ?_⟩
  have : 1 * D ≤ k * D := Nat.mul_le_mul_right D h
  omega

/-- C22 (as stated, refuted): a failing page write does not always stop `csf_write`.  With
64-byte pages (`data_sz` 32) and the seek pointer at 100 on an empty file, a write of 50
bytes first back-fills the pages 0 to 2; when every `write` of page 1 (file offset 64) fails,
`csf_write_page` returns -1 for that page, but the back-fill ignores the result: the call
goes on, stores five pages in all and returns 50 instead of 0, the number of caller bytes in
the page written before the failure.  And for `n = 2^31` at offset 0, with every `write` of
page 1 failing, no page is written at all and the call returns 0, not the 32 bytes of a first
page. -/
theorem backfill_write_failure_ignored :
    (csf_write_page (writeFailAt 64) (freshCtx 64) emptyWorld 1 (List.replicate 64 0)
      32).2.2 = u64 (-1) ∧
    (writeAll (writeFailAt 64) (seekTo (writeFailAt 64) (freshSys 64) 100)
      (List.replicate 50 88)).2 = 50 ∧
    (writeAll (writeFailAt 64) (seekTo (writeFailAt 64) (freshSys 64) 100)
      (List.replicate 50 88)).1.2.bytes.length = 5 * 64 ∧
    (csf_write (writeFailAt 64) (freshCtx 64) emptyWorld (List.replicate 2147483648 65)
      2147483648).2.2 = 0 ∧
    (csf_write (writeFailAt 64) (freshCtx 64) emptyWorld (List.replicate 2147483648 65)
      2147483648).2.1.bytes.length = 0 := by
  decide!

/-- C22 (amended): on a file of stored pages and within `int` sizes, when no `read` fails,
the page writes of the back-fill (if there is one) and of the first `J` pages that receive
caller bytes succeed and the `write` of the next page fails on every attempt, then
`csf_write` returns `J * data_sz - seek_ptr mod data_sz` (0 when `J = 0`), which is not
`(size_t)-1`, and has advanced `seek_ptr` by exactly that number; these are the caller bytes
placed in the first `J` pages: page `start_page + k` decodes to `data_sz` bytes that hold the
caller bytes from `k * data_sz - seek_ptr mod data_sz` on (from the offset
`seek_ptr mod data_sz` of the page on for `k = 0`); and the write stops there: the file ends
with page `start_page + J - 1` or where it ended before, and every page from `start_page + J`
on decodes to what it held. -/
theorem partial_write_on_failure {env : Env} (hc : CipherOK env)
    (hfr : ∀ p, env.read_fails p = false) {ctx : CSF_CTX} {c : Codec} (hs : Shape ctx c)
    (hv : c.Valid env) (w : World) {N : Nat} {pg : Nat → List Nat}
    (hdisk : Disk env c w.bytes N pg) (data : List Nat) (a n J : Nat)
    (hseek : ctx.seek_ptr = (a : Int)) (hfit : a + n < 2147483648) (hdata : n ≤ data.length)
    (hN : N * c.page_sz < 2147483648)
    (hr : (a / c.data_sz + (n + a % c.data_sz + c.data_sz - 1) / c.data_sz) * c.page_sz
      < 2147483648)
    (hJ : J * c.data_sz < n + a % c.data_sz)
    (hfw : ∀ q, (N < a / c.data_sz ∨ a / c.data_sz ≤ q) → q < a / c.data_sz + J →
      env.write_fails (q * c.page_sz) = false)
    (hfail : env.write_fails ((a / c.data_sz + J) * c.page_sz) = true) :
    (csf_write env ctx w data (n : Int)).2.2 = ((J * c.data_sz - a % c.data_sz : Nat) : Int) ∧
    (csf_write env ctx w data (n : Int)).2.2 ≠ u64 (-1) ∧
    (csf_write env ctx w data (n : Int)).1.seek_ptr
      = ctx.seek_ptr + (csf_write env ctx w data (n : Int)).2.2 ∧
    (csf_write env ctx w data (n : Int)).2.1.bytes.length
      = max (max N (a / c.data_sz)) (a / c.data_sz + J) * c.page_sz ∧
    (∀ k, k < J → ∃ d,
      Decodes env (csf_write env ctx w data (n : Int)).1 (csf_write env ctx w data (n : Int)).2.1
        (a / c.data_sz + k) d ∧
      d.length = c.data_sz ∧
      d.drop (if k = 0 then a % c.data_sz else 0)
        = (data.drop (k * c.data_sz - a % c.data_sz)).take
            (c.data_sz - (if k = 0 then a % c.data_sz else 0))) ∧
    (∀ p, a / c.data_sz + J ≤ p → p < N →
      Decodes env (csf_write env ctx w data (n : Int)).1 (csf_write env ctx w data (n : Int)).2.1
        p (pg p)) := by
  have hD := hv.data_pos
  have hso : a % c.data_sz < c.data_sz := Nat.mod_lt _ hD
  have hP := pages_for_spec c.data_sz (n + a % c.data_sz) hD
  have hJP := (hP J).2 hJ
  have hts := (turnStart_before_end c.data_sz (a % c.data_sz) n J hso hJ).1
  have hMr : max (max N (a / c.data_sz)) (a / c.data_sz + J) * c.page_sz < 2147483648 := by
    have h1 : (a / c.data_sz + J) * c.page_sz
        ≤ (a / c.data_sz + (n + a % c.data_sz + c.data_sz - 1) / c.data_sz) * c.page_sz :=
      Nat.mul_le_mul_right _ (by omega)
    have h2 : a / c.data_sz * c.page_sz ≤ (a / c.data_sz + J) * c.page_sz :=
      Nat.mul_le_mul_right _ (by omega)
    rcases Nat.le_total (max N (a / c.data_sz)) (a / c.data_sz + J) with h | h
    · rw [Nat.max_eq_right h]; omega
    · rw [Nat.max_eq_left h]
      rcases Nat.le_total N (a / c.data_sz) with h3 | h3
      · rw [Nat.max_eq_right h3]; omega
      · rw [Nat.max_eq_left h3]; omega
  obtain ⟨pb, sb, cb, w1, hwr, h1, h2, h3, -, h5⟩ :=
    csf_write_disk hc hs hv w hdisk data a n
      ((n + a % c.data_sz + c.data_sz - 1) / c.data_sz) J hseek hfit hdata hP hN hr hfr
      (by omega) hfw (fun _ => hfail)
  rw [hts] at hwr
  have hs1 : Shape (csf_write env ctx w data (n : Int)).1 c := by
    rw [hwr]; exact ⟨hs.key, hs.enc, hs.iv, hs.hdr, hs.data, hs.page, h1, h2, h3⟩
  have hw1 : (csf_write env ctx w data (n : Int)).2.1 = w1 := by rw [hwr]
  have hret : (csf_write env ctx w data (n : Int)).2.2
      = ((J * c.data_sz - a % c.data_sz : Nat) : Int) := by rw [hwr]
  have hsk : (csf_write env ctx w data (n : Int)).1.seek_ptr
      = (a : Int) + ((J * c.data_sz - a % c.data_sz : Nat) : Int) := by rw [hwr]
  have hm1 : u64 (-1) = 18446744073709551615 := by unfold u64; decide
  have hJD : J * c.data_sz - a % c.data_sz < 2147483648 := by omega
  rw [hw1, hret, hsk, hseek, hm1]
  refine ⟨rfl, by omega, rfl, h5.1, ?_, ?_⟩
  · intro k hk
    have hkJ : (k + 1) * c.data_sz ≤ J * c.data_sz := Nat.mul_le_mul_right _ hk
    have hk1 : (k + 1) * c.data_sz = k * c.data_sz + c.data_sz := by ring
    have hkD : k * c.data_sz < n + a % c.data_sz := by omega
    obtain ⟨htk, hkso⟩ := turnStart_before_end c.data_sz (a % c.data_sz) n k hso hkD
    have hdec := Disk.decodes_pages hc hs1 hv w1 h5 hMr hfr
      (p := a / c.data_sz + k) (by omega)
    have hlen := h5.page_le (p := a / c.data_sz + k) (by omega)
    refine ⟨_, hdec, ?_⟩
    have hk0 : (a / c.data_sz + k = a / c.data_sz) ↔ k = 0 := by omega
    have hcb : (if k = 0 then a % c.data_sz else 0)
        ≤ (if k = 0
            then (if N < a / c.data_sz then List.replicate c.page_sz 0 else ctx.csf_buffer)
            else List.replicate c.page_sz 0).length := by
      have := c.data_le_page
      split
      · split
        · rw [List.length_replicate]; omega
        · rw [hs.csf_len]; omega
      · omega
    have hl : c.data_sz - (if k = 0 then a % c.data_sz else 0)
        ≤ (data.drop (k * c.data_sz - a % c.data_sz)).length := by
      rw [List.length_drop]
      split
      · rename_i h0
        subst h0
        omega
      · rename_i h0
        have := hkso (by omega)
        omega
    have hpl := pageAfterWrite_placed
      (if a / c.data_sz + k < max N (a / c.data_sz)
        then pagesBeforeLoop c N pg (a / c.data_sz) (a % c.data_sz) (a / c.data_sz + k) else [])
      (if k = 0
        then (if N < a / c.data_sz then List.replicate c.page_sz 0 else ctx.csf_buffer)
        else List.replicate c.page_sz 0)
      (if k = 0 then a % c.data_sz else 0)
      (data.drop (k * c.data_sz - a % c.data_sz))
      (c.data_sz - (if k = 0 then a % c.data_sz else 0)) hcb hl
    have hval : pagesAfterWrite c (max N (a / c.data_sz))
        (pagesBeforeLoop c N pg (a / c.data_sz) (a % c.data_sz))
        (if N < a / c.data_sz then List.replicate c.page_sz 0 else ctx.csf_buffer)
        data (a / c.data_sz) (a % c.data_sz) n J (a / c.data_sz + k)
        = pageAfterWrite
          (if a / c.data_sz + k < max N (a / c.data_sz)
            then pagesBeforeLoop c N pg (a / c.data_sz) (a % c.data_sz) (a / c.data_sz + k)
            else [])
          (if k = 0
            then (if N < a / c.data_sz then List.replicate c.page_sz 0 else ctx.csf_buffer)
            else List.replicate c.page_sz 0)
          (if k = 0 then a % c.data_sz else 0)
          (data.drop (k * c.data_sz - a % c.data_sz))
          (c.data_sz - (if k = 0 then a % c.data_sz else 0)) := by
      unfold pagesAfterWrite
      have hmin : min (n + a % c.data_sz - k * c.data_sz) c.data_sz = c.data_sz := by omega
      simp only [if_pos (show a / c.data_sz ≤ a / c.data_sz + k ∧
        a / c.data_sz + k < a / c.data_sz + J by omega), Nat.add_sub_cancel_left, hk0, htk,
        hmin]
    rw [hval] at hlen ⊢
    have hsum : (if k = 0 then a % c.data_sz else 0)
        + (c.data_sz - (if k = 0 then a % c.data_sz else 0)) = c.data_sz := by
      split <;> omega
    rw [hsum] at hpl
    have hlen2 : (pageAfterWrite
          (if a / c.data_sz + k < max N (a / c.data_sz)
            then pagesBeforeLoop c N pg (a / c.data_sz) (a % c.data_sz) (a / c.data_sz + k)
            else [])
          (if k = 0
            then (if N < a / c.data_sz then List.replicate c.page_sz 0 else ctx.csf_buffer)
            else List.replicate c.page_sz 0)
          (if k = 0 then a % c.data_sz else 0)
          (data.drop (k * c.data_sz - a % c.data_sz))
          (c.data_sz - (if k = 0 then a % c.data_sz else 0))).length = c.data_sz := by
      omega
    refine ⟨hlen2, ?_⟩
    have := hpl.2
    rw [List.take_of_length_le (by omega)] at this
    exact this
  · intro p hp1 hp2
    have hdec := Disk.decodes_pages hc hs1 hv w1 h5 hMr hfr (p := p) (by omega)
    have hval : pagesAfterWrite c (max N (a / c.data_sz))
        (pagesBeforeLoop c N pg (a / c.data_sz) (a % c.data_sz))
        (if N < a / c.data_sz then List.replicate c.page_sz 0 else ctx.csf_buffer)
        data (a / c.data_sz) (a % c.data_sz) n J p = pg p := by
      unfold pagesAfterWrite pagesBeforeLoop
      rw [if_neg (by omega), if_neg (by omega)]
    rw [hval] at hdec
    exact hdec

theorem cipherOK_writeFailAt (off : Nat) : CipherOK (writeFailAt off) := cipherOK_xorEnv

theorem valid_writeFailAt (off : Nat) : (codecOf (freshCtx 512)).Valid (writeFailAt off) :=
  ⟨valid_freshCtx_512.hdr_ge, valid_freshCtx_512.data_pos, valid_freshCtx_512.small,
    valid_freshCtx_512.blocks⟩

theorem writeFailAt_1024_before (q : Nat)
    (hq : q < 0 / (codecOf (freshCtx 512)).data_sz + 2) :
    (writeFailAt 1024).write_fails (q * (codecOf (freshCtx 512)).page_sz) = false := by
  have hps : (codecOf (freshCtx 512)).page_sz = 512 := by decide!
  rw [Nat.zero_div] at hq
  rw [hps]
  show decide (q * 512 = 1024) = false
  have : q = 0 ∨ q = 1 := by omega
  rcases this with h | h <;> subst h <;> decide

theorem partial_write_on_failure_witness :
    (csf_write (writeFailAt 1024) (freshCtx 512) emptyWorld (List.replicate 1000 65)
      ((1000 : Nat) : Int)).2.2
      = ((2 * (codecOf (freshCtx 512)).data_sz - 0 % (codecOf (freshCtx 512)).data_sz : Nat)
          : Int) ∧
    (csf_write (writeFailAt 1024) (freshCtx 512) emptyWorld (List.replicate 1000 65)
      ((1000 : Nat) : Int)).2.2 ≠ u64 (-1) ∧
    (csf_write (writeFailAt 1024) (freshCtx 512) emptyWorld (List.replicate 1000 65)
      ((1000 : Nat) : Int)).1.seek_ptr
      = (freshCtx 512).seek_ptr
        + (csf_write (writeFailAt 1024) (freshCtx 512) emptyWorld (List.replicate 1000 65)
          ((1000 : Nat) : Int)).2.2 ∧
    (csf_write (writeFailAt 1024) (freshCtx 512) emptyWorld (List.replicate 1000 65)
      ((1000 : Nat) : Int)).2.1.bytes.length
      = max (max 0 (0 / (codecOf (freshCtx 512)).data_sz))
          (0 / (codecOf (freshCtx 512)).data_sz + 2) * (codecOf (freshCtx 512)).page_sz ∧
    (∀ k, k < 2 → ∃ d,
      Decodes (writeFailAt 1024)
        (csf_write (writeFailAt 1024) (freshCtx 512) emptyWorld (List.replicate 1000 65)
          ((1000 : Nat) : Int)).1
        (csf_write (writeFailAt 1024) (freshCtx 512) emptyWorld (List.replicate 1000 65)
          ((1000 : Nat) : Int)).2.1
        (0 / (codecOf (freshCtx 512)).data_sz + k) d ∧
      d.length = (codecOf (freshCtx 512)).data_sz ∧
      d.drop (if k = 0 then 0 % (codecOf (freshCtx 512)).data_sz else 0)
        = ((List.replicate 1000 65).drop
            (k * (codecOf (freshCtx 512)).data_sz - 0 % (codecOf (freshCtx 512)).data_sz)).take
            ((codecOf (freshCtx 512)).data_sz
              - (if k = 0 then 0 % (codecOf (freshCtx 512)).data_sz else 0))) ∧
    (∀ p, 0 / (codecOf (freshCtx 512)).data_sz + 2 ≤ p → p < 0 →
      Decodes (writeFailAt 1024)
        (csf_write (writeFailAt 1024) (freshCtx 512) emptyWorld (List.replicate 1000 65)
          ((1000 : Nat) : Int)).1
        (csf_write (writeFailAt 1024) (freshCtx 512) emptyWorld (List.replicate 1000 65)
          ((1000 : Nat) : Int)).2.1
        p ((fun _ => ([] : List Nat)) p)) :=
  partial_write_on_failure (cipherOK_writeFailAt 1024) (fun _ => rfl) shape_freshCtx_512
    (valid_writeFailAt 1024) emptyWorld
    (Disk.empty (writeFailAt 1024) (codecOf (freshCtx 512)) (fun _ => []))
    (List.replicate 1000 65) 0 1000 2 rfl (by decide) (by simp) (by decide!) (by decide!)
    (by decide!) (fun q _ hq => writeFailAt_1024_before q hq) (by decide!)

theorem lower_cutoff_le (a b f : Int) : lower_cutoff a b f ≤ f := by
  unfold lower_cutoff
  simp only
  split <;> omega

theorem Shape.with_flag {ctx : CSF_CTX} {c : Codec} (hs : Shape ctx c) (x : Int) :
    Shape { ctx with seekPastEndOfFile := x } c :=
  ⟨hs.key, hs.enc, hs.iv, hs.hdr, hs.data, hs.page, hs.page_len, hs.scratch_len, hs.csf_len⟩

/-- A turn of the loop of `csf_read` that finds no byte at or after the offset `so` in its
page (the page is absent or holds at most `so` bytes) leaves the loop without copying. -/
theorem csf_read_turn_at_end {env : Env} (hc : CipherOK env) {ctx : CSF_CTX} {c : Codec}
    (hs : Shape ctx c) (hv : c.Valid env) (w : World) {N : Nat} {pg : Nat → List Nat}
    (hdisk : Disk env c w.bytes N pg) (hN : N * c.page_sz < 2147483648)
    (hfr : ∀ p, env.read_fails p = false) (sp so : Nat) (pcEOF : Int) (v : ReadVars)
    (hso : v.start_offset = (so : Int)) (hso1 : so < 2147483648)
    (hsp : sp * c.page_sz < 2147483648) (hend : sp < N → (pg sp).length ≤ so) :
    ∃ ctx1 w1, csf_read_turn env (sp : Int) pcEOF 0 ctx w v = ((ctx1, w1, v), false) ∧
      ctx1.seek_ptr = ctx.seek_ptr := by
  have hPS := hv.page_pos
  have hsm := hv.small
  have hDP := c.data_le_page
  have hsple : sp ≤ sp * c.page_sz := Nat.le_mul_of_pos_right _ hPS
  obtain ⟨ctx0, hs0, hsk0, hctx0⟩ : ∃ ctx0, Shape ctx0 c ∧ ctx0.seek_ptr = ctx.seek_ptr ∧
      (if (0 : Int) > pcEOF then { ctx with seekPastEndOfFile := 1 } else ctx) = ctx0 := by
    by_cases h : (0 : Int) > pcEOF
    · exact ⟨_, hs.with_flag 1, rfl, by rw [if_pos h]⟩
    · exact ⟨_, hs, rfl, by rw [if_neg h]⟩
  have hsplt : sp < 2147483648 := by omega
  have hi : i32 ((sp : Int) + 0) = (sp : Int) := by
    rw [Int.add_zero]; exact i32_nat hsplt
  have huso : u64 v.start_offset = (so : Int) := by rw [hso]; exact u64_nat hso1
  unfold csf_read_turn
  simp only [hctx0, hi]
  by_cases hp : sp < N
  · have hle := hend hp
    have hlen := hdisk.page_le hp
    have h1 := @mul_succ_le _ _ c.page_sz hp
    obtain ⟨pb, sb, -, -, -, hrd⟩ := csf_read_page_hit hc hs0 hv w sp (hfr _) (hdisk.2 sp hp)
      (by rw [hdisk.1]; exact h1) (by omega) Buf.csf_buffer
    rw [hrd]
    simp only
    have hfin : ∀ e : Int, e ≤ ((pg sp).length : Int) → ¬ (e > (so : Int)) :=
      fun e he => by omega
    have hlt : (pg sp).length < 2147483648 := by omega
    have hil : i32 ((pg sp).length : Int) = ((pg sp).length : Int) := i32_nat hlt
    have hul : u64 ((pg sp).length : Int) = ((pg sp).length : Int) := u64_nat hlt
    rw [hil]
    rw [if_neg (Int.not_lt.mpr (Int.ofNat_nonneg _))]
    rw [hul, huso]
    rw [if_neg (hfin _ (lower_cutoff_le _ _ _))]
    exact ⟨_, _, rfl, hsk0⟩
  · have hNs : N * c.page_sz ≤ sp * c.page_sz :=
      Nat.mul_le_mul_right _ (Nat.le_of_not_lt hp)
    rw [csf_read_page_miss hs0 hv w sp (hfr _) (by rw [hdisk.1]; exact hNs) hsp Buf.csf_buffer]
    simp only
    have hi0 : i32 (0 : Int) = 0 := i32_of_range (by omega) (by omega)
    have hu0 : u64 (0 : Int) = 0 := u64_of_range (by omega) (by omega)
    have hfin : ∀ e : Int, e ≤ 0 → ¬ (e > (so : Int)) := fun e he => by omega
    rw [hi0, if_neg (by decide), hu0, huso, if_neg (hfin _ (lower_cutoff_le _ _ _))]
    exact ⟨_, _, rfl, hsk0⟩

theorem csf_read_loop_at_end {env : Env} (hc : CipherOK env) {ctx : CSF_CTX} {c : Codec}
    (hs : Shape ctx c) (hv : c.Valid env) (w : World) {N : Nat} {pg : Nat → List Nat}
    (hdisk : Disk env c w.bytes N pg) (hN : N * c.page_sz < 2147483648)
    (hfr : ∀ p, env.read_fails p = false) (sp so : Nat) (P tpc pcEOF : Int) (v : ReadVars)
    (hso : v.start_offset = (so : Int)) (hso1 : so < 2147483648)
    (hsp : sp * c.page_sz < 2147483648) (hend : sp < N → (pg sp).length ≤ so) (fuel : Nat) :
    ∃ ctx1 w1, csf_read_loop env (sp : Int) P tpc pcEOF fuel 0 ctx w v = (ctx1, w1, v) ∧
      ctx1.seek_ptr = ctx.seek_ptr := by
  cases fuel with
  | zero => exact ⟨ctx, w, rfl, rfl⟩
  | succ fuel =>
    unfold csf_read_loop
    by_cases hcond : (0 : Int) < P ∧ (0 : Int) < tpc
    · obtain ⟨ctx1, w1, hturn, hsk⟩ := csf_read_turn_at_end hc hs hv w hdisk hN hfr sp so pcEOF v
        hso hso1 hsp hend
      rw [if_pos hcond, hturn]
      exact ⟨ctx1, w1, rfl, hsk⟩
    · rw [if_neg hcond]
      exact ⟨ctx, w, rfl, rfl⟩

/-- A `csf_read` issued where the file holds no byte at or after the seek pointer (the page of
the seek pointer is absent, or holds at most `seek_ptr mod data_sz` bytes) returns 0, leaves
the caller's buffer alone and does not move the seek pointer, whatever the request size. -/
theorem csf_read_at_end {env : Env} (hc : CipherOK env) {ctx : CSF_CTX} {c : Codec}
    (hs : Shape ctx c) (hv : c.Valid env) (w : World) {N : Nat} {pg : Nat → List Nat}
    (hdisk : Disk env c w.bytes N pg) (hN : N * c.page_sz < 2147483648)
    (hfr : ∀ p, env.read_fails p = false) (a : Nat) (hseek : ctx.seek_ptr = (a : Int))
    (ha1 : a < 2147483648) (hoff : a / c.data_sz * c.page_sz < 2147483648)
    (hend : a / c.data_sz < N → (pg (a / c.data_sz)).length ≤ a % c.data_sz)
    (databuf : List Nat) (n : Int) :
    (csf_read env ctx w databuf n).2.2.2 = 0 ∧
    (csf_read env ctx w databuf n).2.2.1 = databuf ∧
    (csf_read env ctx w databuf n).1.seek_ptr = ctx.seek_ptr := by
  have hD := hv.data_pos
  have hsm := hv.small
  have hDP := c.data_le_page
  have hml := Nat.mod_lt a hD
  have hD1 : c.data_sz < 2147483648 := by omega
  have hsolt : a % c.data_sz < 2147483648 := by omega
  obtain ⟨hsp1, hso1, -⟩ := start_page_nat hs hD hD1 a hseek ha1
  have hpcf := page_count_for_file_disk hs hv w hdisk hN
  have hi0 : ¬ ((0 : Int) < 0) := by decide
  have hu0 : u64 (0 : Int) = 0 := u64_of_range (by decide) (by decide)
  unfold csf_read
  simp only [hsp1, hso1, hpcf, csf_read_header, ite_self]
  rw [if_neg hi0]
  obtain ⟨ctx1, w1, hloop, hsk⟩ := csf_read_loop_at_end hc hs hv w hdisk hN hfr (a / c.data_sz)
    (a % c.data_sz)
    (csf_page_count_for_length ctx (i32 (n + ((a % c.data_sz : Nat) : Int))))
    (N : Int) (i32 ((N : Int) - ((a / c.data_sz : Nat) : Int)))
    { databuf := databuf, start_offset := ((a % c.data_sz : Nat) : Int),
      lastbyte_to_read := i32 n, total_bytes_read := 0, data_offset := 0 }
    rfl hsolt hoff hend
    (csf_page_count_for_length ctx (i32 (n + ((a % c.data_sz : Nat) : Int)))).toNat
  rw [hloop]
  exact ⟨hu0, rfl, hsk⟩

/-- C10 (as stated, refuted): with 64-byte pages (`data_sz` 32), after ten bytes `"A"` are
written at offset 0 the seek pointer `2^32 + 5` lies beyond the end, yet `csf_read` of 3 bytes
there returns 3, copies `"AAA"` into the caller's buffer and advances the seek pointer: the
start page is computed from the seek pointer truncated to `int`. -/
theorem read_past_end_after_int_wrap :
    (readN xorEnv (seekTo xorEnv (writeAll xorEnv (freshSys 64) (List.replicate 10 65)).1
      4294967301) 3).2.2 = 3 ∧
    (readN xorEnv (seekTo xorEnv (writeAll xorEnv (freshSys 64) (List.replicate 10 65)).1
      4294967301) 3).2.1 = [65, 65, 65] ∧
    (readN xorEnv (seekTo xorEnv (writeAll xorEnv (freshSys 64) (List.replicate 10 65)).1
      4294967301) 3).1.1.seek_ptr = 4294967304 := by
  decide!

theorem written_page_short (D L a i : Nat) (hD : 0 < D) (ha : L ≤ a) (hi : i = a / D) :
    min (L - i * D) D ≤ a % D := by
  have hdm := Nat.div_add_mod a D
  have e : D * (a / D) = i * D := by rw [hi, Nat.mul_comm]
  omega

/-- C10 (amended): for every file produced by writing a byte string `s` at offset 0 of an
empty file within `int` sizes (including the empty file), every seek pointer with
`len(s) <= seek_ptr <= INT_MAX` whose page offset fits an `int`, and every request size `n`,
when no I/O fails, `csf_read` returns 0, copies nothing into the caller's buffer and leaves
`seek_ptr` unchanged. -/
theorem read_at_or_past_end {env : Env} (hc : CipherOK env) (hf : NoFaults env)
    {ctx : CSF_CTX} {c : Codec} (hs : Shape ctx c) (hv : c.Valid env) (w : World)
    (hw : w.bytes = []) (hseek : ctx.seek_ptr = 0) (s : List Nat) (a : Nat)
    (hL : s.length < 2147483648)
    (hr : (s.length + c.data_sz - 1) / c.data_sz * c.page_sz < 2147483648)
    (ha : s.length ≤ a) (ha1 : a < 2147483648)
    (hoff : a / c.data_sz * c.page_sz < 2147483648) (databuf : List Nat) (n : Int) :
    (csf_read env (seekTo env (writeAll env (ctx, w) s).1 (a : Int)).1
      (seekTo env (writeAll env (ctx, w) s).1 (a : Int)).2 databuf n).2.2.2 = 0 ∧
    (csf_read env (seekTo env (writeAll env (ctx, w) s).1 (a : Int)).1
      (seekTo env (writeAll env (ctx, w) s).1 (a : Int)).2 databuf n).2.2.1 = databuf ∧
    (csf_read env (seekTo env (writeAll env (ctx, w) s).1 (a : Int)).1
      (seekTo env (writeAll env (ctx, w) s).1 (a : Int)).2 databuf n).1.seek_ptr = (a : Int) := by
  have hD := hv.data_pos
  obtain ⟨pb, sb, cb, w1, hwr, h1, h2, h3, -, h5⟩ :=
    csf_write_empty_disk hc hf hs hv w hw hseek s s.length (le_refl _) hL hr
  have hsys : seekTo env (writeAll env (ctx, w) s).1 (a : Int)
      = ({ (csf_write env ctx w s (s.length : Int)).1 with seek_ptr := (a : Int) },
         (csf_write env ctx w s (s.length : Int)).2.1) := rfl
  rw [hsys, hwr]
  have hs2 : Shape
      { ctx with
        page_buffer := pb,
        scratch_buffer := sb,
        csf_buffer := cb,
        seek_ptr := (a : Int) } c :=
    ⟨hs.key, hs.enc, hs.iv, hs.hdr, hs.data, hs.page, h1, h2, h3⟩
  have hend : a / c.data_sz < (s.length + c.data_sz - 1) / c.data_sz →
      ((s.drop (a / c.data_sz * c.data_sz)).take
        (min (s.length - a / c.data_sz * c.data_sz) c.data_sz)).length ≤ a % c.data_sz := by
    intro _
    rw [List.length_take]
    have := written_page_short c.data_sz s.length a (a / c.data_sz) hD ha rfl
    omega
  obtain ⟨r1, r2, r3⟩ := csf_read_at_end hc hs2 hv w1 h5 hr hf.1 a rfl ha1 hoff hend databuf n
  exact ⟨r1, r2, r3⟩

theorem read_at_or_past_end_witness :
    (csf_read xorEnv
      (seekTo xorEnv (writeAll xorEnv (freshCtx 512, emptyWorld) [104, 101, 108, 108, 111]).1
        ((5 : Nat) : Int)).1
      (seekTo xorEnv (writeAll xorEnv (freshCtx 512, emptyWorld) [104, 101, 108, 108, 111]).1
        ((5 : Nat) : Int)).2 [1, 2, 3] 3).2.2.2 = 0 ∧
    (csf_read xorEnv
      (seekTo xorEnv (writeAll xorEnv (freshCtx 512, emptyWorld) [104, 101, 108, 108, 111]).1
        ((5 : Nat) : Int)).1
      (seekTo xorEnv (writeAll xorEnv (freshCtx 512, emptyWorld) [104, 101, 108, 108, 111]).1
        ((5 : Nat) : Int)).2 [1, 2, 3] 3).2.2.1 = [1, 2, 3] ∧
    (csf_read xorEnv
      (seekTo xorEnv (writeAll xorEnv (freshCtx 512, emptyWorld) [104, 101, 108, 108, 111]).1
        ((5 : Nat) : Int)).1
      (seekTo xorEnv (writeAll xorEnv (freshCtx 512, emptyWorld) [104, 101, 108, 108, 111]).1
        ((5 : Nat) : Int)).2 [1, 2, 3] 3).1.seek_ptr = ((5 : Nat) : Int) :=
  read_at_or_past_end cipherOK_xorEnv noFaults_xorEnv shape_freshCtx_512 valid_freshCtx_512
    emptyWorld rfl rfl [104, 101, 108, 108, 111] 5 (by decide) (by decide!) (by decide)
    (by decide) (by decide!) [1, 2, 3] 3

theorem lower_cutoff_nat (L so D len : Nat) (h1 : L + so < 2147483648) (h2 : D < 2147483648)
    (h3 : len < 2147483648) :
    lower_cutoff (u64 (if (L : Int) < (D : Int) then i32 ((L : Int) + (so : Int)) else (L : Int)))
      (u64 (D : Int)) (u64 (len : Int)) = ((min (min (L + so) D) len : Nat) : Int) := by
  have e1 : i32 ((L : Int) + (so : Int)) = ((L + so : Nat) : Int) := by
    rw [← Nat.cast_add]; exact i32_nat h1
  have e2 : u64 ((L + so : Nat) : Int) = ((L + so : Nat) : Int) := u64_nat h1
  have e3 : u64 (L : Int) = (L : Int) := u64_nat (by omega)
  have e4 : u64 (D : Int) = (D : Int) := u64_nat h2
  have e5 : u64 (len : Int) = (len : Int) := u64_nat h3
  rw [e1, e4, e5]
  by_cases h : (L : Int) < (D : Int)
  · rw [if_pos h, e2]
    unfold lower_cutoff
    simp only
    split <;> split <;> omega
  · rw [if_neg h, e3]
    unfold lower_cutoff
    simp only
    split <;> split <;> omega

theorem memcpy_src_prefix (dst : List Nat) (off : Nat) (d rest : List Nat) (so cnt : Nat)
    (h : so + cnt ≤ d.length) :
    memcpy dst off ((d ++ rest).drop so) cnt = memcpy dst off (d.drop so) cnt := by
  unfold memcpy
  rw [List.drop_append_of_le_length (by omega),
    List.take_append_of_le_length (by rw [List.length_drop]; omega)]

/-- The page `q` as `csf_read_page` delivers it into the assembly buffer: its valid bytes, or
nothing when the file ends before it. -/
theorem csf_read_page_disk {env : Env} (hc : CipherOK env) {ctx : CSF_CTX} {c : Codec}
    (hs : Shape ctx c) (hv : c.Valid env) (w : World) {N : Nat} {pg : Nat → List Nat}
    (hdisk : Disk env c w.bytes N pg) (hN : N * c.page_sz < 2147483648)
    (hfr : ∀ p, env.read_fails p = false) (q : Nat) (hq : q * c.page_sz < 2147483648) :
    ∃ pb sb pos,
      pb.length = c.page_sz ∧ sb.length = c.page_sz ∧
      csf_read_page env ctx w (q : Int) Buf.csf_buffer =
        ({ ctx with
            page_buffer := pb,
            scratch_buffer := sb,
            csf_buffer := (if q < N then pg q else []) ++
              ctx.csf_buffer.drop (if q < N then pg q else []).length },
          { w with pos := pos },
          (((if q < N then pg q else []).length : Nat) : Int)) := by
  by_cases h : q < N
  · rw [if_pos h]
    have h1 := @mul_succ_le _ _ c.page_sz h
    obtain ⟨pb, sb, h1, h2, _, h4⟩ :=
      csf_read_page_hit hc hs hv w q (hfr _) (hdisk.2 q h) (by rw [hdisk.1]; exact h1)
        (by omega) Buf.csf_buffer
    exact ⟨pb, sb, _, h1, h2, h4⟩
  · rw [if_neg h]
    have hNs : N * c.page_sz ≤ q * c.page_sz := Nat.mul_le_mul_right _ (Nat.le_of_not_lt h)
    rw [csf_read_page_miss hs hv w q (hfr _) (by rw [hdisk.1]; exact hNs) hq Buf.csf_buffer]
    refine ⟨ctx.page_buffer, ctx.scratch_buffer, q * c.page_sz, hs.page_len, hs.scratch_len, ?_⟩
    simp

theorem lower_cutoff_int (Dz : Int) (L so D len : Nat) (hD : Dz = (D : Int))
    (h1 : L + so < 2147483648) (h2 : D < 2147483648) (h3 : len < 2147483648) :
    lower_cutoff (u64 (if (L : Int) < Dz then i32 ((L : Int) + (so : Int)) else (L : Int)))
      (u64 Dz) (u64 (len : Int)) = ((min (min (L + so) D) len : Nat) : Int) := by
  subst hD
  exact lower_cutoff_nat L so D len h1 h2 h3

theorem read_turn_ints (L R so E : Nat) (hE : E ≤ L + so) (hlt : so < E)
    (hLR : L + R < 2147483648) (seek : Int) (hsk0 : 0 ≤ seek)
    (hsk1 : seek + L < 9223372036854775808) :
    u64 ((E : Int) - (so : Int)) = ((E - so : Nat) : Int) ∧
    i32 ((L : Int) - ((E - so : Nat) : Int)) = ((L - (E - so) : Nat) : Int) ∧
    i32 ((R : Int) + ((E - so : Nat) : Int)) = ((R + (E - so) : Nat) : Int) ∧
    i64 (seek + ((E - so : Nat) : Int)) = seek + ((E - so : Nat) : Int) := by
  have e1 : (E : Int) - (so : Int) = ((E - so : Nat) : Int) := by omega
  have e2 : (L : Int) - ((E - so : Nat) : Int) = ((L - (E - so) : Nat) : Int) := by omega
  have e3 : (R : Int) + ((E - so : Nat) : Int) = ((R + (E - so) : Nat) : Int) := by omega
  have b1 : E - so < 2147483648 := by omega
  have b2 : L - (E - so) < 2147483648 := by omega
  have b3 : R + (E - so) < 2147483648 := by omega
  have b4 : -9223372036854775808 ≤ seek + ((E - so : Nat) : Int) := by omega
  have b5 : seek + ((E - so : Nat) : Int) < 9223372036854775808 := by omega
  rw [e1, e2, e3]
  exact ⟨u64_nat b1, i32_nat b2, i32_nat b3, i64_of_range b4 b5⟩

/-- One turn of the loop of `csf_read` on a file of stored pages: with `L` bytes still
wanted, `R` bytes delivered and the offset `so` in the page, the turn copies the bytes
`[so, E)` of the page for `E = min (L + so, data_sz, length of the page)` and goes on, or
leaves the loop without copying when `E <= so`. -/
theorem csf_read_turn_disk {env : Env} (hc : CipherOK env) {ctx : CSF_CTX} {c : Codec}
    (hs : Shape ctx c) (hv : c.Valid env) (w : World) {N : Nat} {pg : Nat → List Nat}
    (hdisk : Disk env c w.bytes N pg) (hN : N * c.page_sz < 2147483648)
    (hfr : ∀ p, env.read_fails p = false) (sp k : Nat) (pcEOF : Int) (db : List Nat)
    (so L R : Nat) (d : List Nat) (E : Nat)
    (hq : (sp + k) * c.page_sz < 2147483648)
    (hd : d = if sp + k < N then pg (sp + k) else [])
    (hE : E = min (min (L + so) c.data_sz) d.length)
    (hLR : L + R < 2147483648) (hLso : L + so < 2147483648)
    (hsk0 : 0 ≤ ctx.seek_ptr) (hsk1 : ctx.seek_ptr + L < 9223372036854775808) :
    (so < E → ∃ ctx1 w1,
      csf_read_turn env (sp : Int) pcEOF (k : Int) ctx w
          ⟨db, (so : Int), (L : Int), (R : Int), (R : Int)⟩ =
        ((ctx1, w1, ⟨memcpy db R (d.drop so) (E - so), 0, ((L - (E - so) : Nat) : Int),
          ((R + (E - so) : Nat) : Int), ((R + (E - so) : Nat) : Int)⟩), true) ∧
      Shape ctx1 c ∧ w1.bytes = w.bytes ∧
      ctx1.seek_ptr = ctx.seek_ptr + ((E - so : Nat) : Int)) ∧
    (¬ so < E → ∃ ctx1 w1,
      csf_read_turn env (sp : Int) pcEOF (k : Int) ctx w
          ⟨db, (so : Int), (L : Int), (R : Int), (R : Int)⟩ =
        ((ctx1, w1, ⟨db, (so : Int), (L : Int), (R : Int), (R : Int)⟩), false) ∧
      Shape ctx1 c ∧ w1.bytes = w.bytes ∧ ctx1.seek_ptr = ctx.seek_ptr) := by
  have hPS := hv.page_pos
  have hsm := hv.small
  have hDP := c.data_le_page
  have hqle : sp + k ≤ (sp + k) * c.page_sz := Nat.le_mul_of_pos_right _ hPS
  have hqlt : sp + k < 2147483648 := by omega
  have hdl : d.length ≤ c.data_sz := by
    rw [hd]
    split
    · rename_i h; exact hdisk.page_le h
    · exact Nat.zero_le _
  have hdlt : d.length < 2147483648 := by omega
  have hD1 : c.data_sz < 2147483648 := by omega
  have hnn : ¬ ((d.length : Int) < 0) := by omega
  have hEle : E ≤ L + so ∧ E ≤ d.length := by omega
  have hsolt : so < 2147483648 := by omega
  obtain ⟨ctx0, hs0, hsk, hctx0⟩ : ∃ ctx0, Shape ctx0 c ∧ ctx0.seek_ptr = ctx.seek_ptr ∧
      (if (k : Int) > pcEOF then { ctx with seekPastEndOfFile := 1 } else ctx) = ctx0 := by
    by_cases h : (k : Int) > pcEOF
    · exact ⟨_, hs.with_flag 1, rfl, by rw [if_pos h]⟩
    · exact ⟨_, hs, rfl, by rw [if_neg h]⟩
  have hgt1 : so < E → (E : Int) > (so : Int) := fun h => by omega
  have hgt2 : ¬ so < E → ¬ ((E : Int) > (so : Int)) := fun h => by omega
  have hmp : so < E → so + (E - so) ≤ d.length := fun h => by omega
  have hcsf : (d ++ ctx0.csf_buffer.drop d.length).length = c.page_sz := by
    rw [List.length_append, List.length_drop, hs0.csf_len]; omega
  have hi : i32 ((sp : Int) + (k : Int)) = ((sp + k : Nat) : Int) := by
    rw [← Nat.cast_add]; exact i32_nat hqlt
  have huso : u64 (so : Int) = (so : Int) := u64_nat hsolt
  have hil : i32 ((d.length : Nat) : Int) = ((d.length : Nat) : Int) := i32_nat hdlt
  obtain ⟨pb, sb, pos, hpb, hsb, hrd⟩ := csf_read_page_disk hc hs0 hv w hdisk hN hfr (sp + k) hq
  rw [← hd] at hrd
  have hcut := lower_cutoff_int ctx0.data_sz L so c.data_sz d.length hs0.data hLso hD1 hdlt
  rw [← hE] at hcut
  have hpsn : ctx0.page_sz.toNat = c.page_sz := by rw [hs0.page, Int.toNat_ofNat]
  constructor
  · intro hlt
    obtain ⟨e1, e2, e3, e4⟩ := read_turn_ints L R so E hEle.1 hlt hLR ctx0.seek_ptr
      (by rw [hsk]; exact hsk0) (by rw [hsk]; exact hsk1)
    have hgt := hgt1 hlt
    unfold csf_read_turn
    simp only [hctx0, hi, hrd, hcut, hil, huso, e1, e2, e3, e4, Int.toNat_ofNat, hpsn,
      if_neg hnn, if_pos hgt,
      memcpy_src_prefix db R d _ so (E - so) (hmp hlt), memset0_all _ _ hcsf]
    refine ⟨_, _, rfl, ?_, rfl, ?_⟩
    · exact ⟨hs0.key, hs0.enc, hs0.iv, hs0.hdr, hs0.data, hs0.page, hpb, hsb, by simp⟩
    · show ctx0.seek_ptr + _ = _
      rw [hsk]
  · intro hlt
    have hgt := hgt2 hlt
    unfold csf_read_turn
    simp only [hctx0, hi, hrd, hcut, hil, huso,
      if_neg hnn, if_neg hgt]
    refine ⟨_, _, rfl, ?_, rfl, ?_⟩
    · exact ⟨hs0.key, hs0.enc, hs0.iv, hs0.hdr, hs0.data, hs0.page, hpb, hsb, hcsf⟩
    · exact hsk

theorem div_mod_of_range (D k x r : Nat) (h : x = k * D + r) (hr : r < D) :
    x / D = k ∧ x % D = r := by
  have hD : 0 < D := by omega
  have h1 : x / D = k := by
    apply Nat.div_eq_of_lt_le
    · omega
    · have e : (k + 1) * D = k * D + D := by ring
      omega
  refine ⟨h1, ?_⟩
  have := Nat.div_add_mod x D
  rw [h1, Nat.mul_comm] at this
  omega

/-- Arithmetic of one turn of the loop of `csf_read` that finds a page of `len` bytes: `kD`
bytes lie before the page, `Rk` bytes are delivered, `L` are still wanted, `A` and `T` are
the bytes up to the end of the page and of the file. -/
theorem read_turn_core (so n kD len D Rk sok L E A T : Nat) (hso : so < D) (hlenD : len ≤ D)
    (hkP : kD < n + so)
    (hcase : (kD = 0 ∧ sok = so ∧ Rk = 0) ∨ (D ≤ kD ∧ sok = 0 ∧ Rk = kD - so))
    (hL : L = n - Rk) (hE : E = min (min (L + sok) D) len) (hA : A = kD + len)
    (hT : T = A ∨ (len = D ∧ A ≤ T)) :
    L + Rk = n ∧ L + sok ≤ n + so ∧ E ≤ len ∧
    (sok < E →
      Rk + (E - sok) = min (n + so) A - so ∧ Rk + (E - sok) ≤ n ∧ so + Rk = kD + sok) ∧
    (¬ sok < E → Rk = min (n + so) T - so) := by
  have hE1 : E = min (L + sok) len := by omega
  clear hE
  rcases hcase with ⟨h1, h2, h3⟩ | ⟨h1, h2, h3⟩
  · subst h1 h2 h3
    have hL' : L = n := by omega
    subst hL'
    clear hL
    omega
  · subst h2 h3
    omega

/-- Arithmetic of the end of the loop of `csf_read`: at the head of turn `k <= M`, when the
loop ends by its condition or finds no page. -/
theorem read_stop_nat (D so n M ll k T : Nat)
    (hT : T = if M = 0 then 0 else (M - 1) * D + ll)
    (hstop : ¬ k * D < n + so ∨ k = M) :
    min (n + so) (if k < M then k * D else T) - so = min (n + so) T - so := by
  by_cases hc : k < M
  · rw [if_pos hc]
    have hno : ¬ k * D < n + so := by
      rcases hstop with h | h
      · exact h
      · omega
    have : k * D ≤ (M - 1) * D := Nat.mul_le_mul_right D (by omega)
    rw [if_neg (by omega)] at hT
    generalize k * D = kD at *
    generalize (M - 1) * D = mD at *
    omega
  · rw [if_neg hc]

theorem read_turn_setup (D so n M k R T ll : Nat) (hk : k < M)
    (hkP : k * D < n + so) (hso : so < D)
    (hR : R = min (n + so) (if k < M then k * D else T) - so)
    (hT : T = if M = 0 then 0 else (M - 1) * D + ll) (len : Nat)
    (hlen : len = if k + 1 < M then D else ll) :
    ((k * D = 0 ∧ (if k = 0 then so else 0) = so ∧ R = 0) ∨
      (D ≤ k * D ∧ (if k = 0 then so else 0) = 0 ∧ R = k * D - so)) ∧
    (T = k * D + len ∨ (len = D ∧ k * D + len ≤ T)) ∧
    (if k + 1 < M then (k + 1) * D else T) = k * D + len := by
  rw [if_pos hk] at hR
  rw [if_neg (by omega)] at hT
  have hle : k * D ≤ (M - 1) * D := Nat.mul_le_mul_right D (by omega)
  constructor
  · by_cases h0 : k = 0
    · subst h0
      rw [Nat.zero_mul] at hR ⊢
      left
      exact ⟨rfl, by simp, by omega⟩
    · right
      have : 1 * D ≤ k * D := Nat.mul_le_mul_right D (by omega)
      rw [if_neg h0]
      generalize k * D = kD at *
      exact ⟨by omega, rfl, by omega⟩
  · have e1 : (k + 1) * D = k * D + D := by ring
    by_cases hc : k + 1 < M
    · rw [if_pos hc] at hlen
      rw [if_pos hc]
      have h2 : (k + 1) * D ≤ (M - 1) * D := Nat.mul_le_mul_right D (by omega)
      generalize k * D = kD at *
      generalize (M - 1) * D = mD at *
      generalize (k + 1) * D = k1D at *
      exact ⟨Or.inr ⟨hlen, by omega⟩, by omega⟩
    · rw [if_neg hc] at hlen
      rw [if_neg hc]
      have : M - 1 = k := by omega
      rw [this] at hT
      rw [hT, hlen]
      exact ⟨Or.inl rfl, rfl⟩

/-- The caller's buffer after one copying turn of the loop of `csf_read`. -/
theorem read_turn_databuf (pg : Nat → List Nat) (db db0 d : List Nat)
    (sp so D k R sok E : Nat) (hd : d = pg (sp + k)) (hElen : E ≤ d.length) (hlenD : d.length ≤ D)
    (hlt : sok < E) (hsoR : so + R = k * D + sok) (hRn : R + (E - sok) ≤ db.length)
    (hlen : db.length = db0.length)
    (h1 : ∀ j, j < R → db[j]? = (pg (sp + (so + j) / D))[(so + j) % D]?)
    (h2 : ∀ j, R ≤ j → db[j]? = db0[j]?) :
    (memcpy db R (d.drop sok) (E - sok)).length = db0.length ∧
    (∀ j, j < R + (E - sok) →
      (memcpy db R (d.drop sok) (E - sok))[j]? = (pg (sp + (so + j) / D))[(so + j) % D]?) ∧
    (∀ j, R + (E - sok) ≤ j → (memcpy db R (d.drop sok) (E - sok))[j]? = db0[j]?) := by
  have hsrc : E - sok ≤ (d.drop sok).length := by rw [List.length_drop]; omega
  refine ⟨?_, ?_, ?_⟩
  · rw [memcpy_length db _ R (E - sok) hRn hsrc, hlen]
  · intro j hj
    rw [memcpy_getElem? db _ R (E - sok) j (by omega) hsrc]
    by_cases hjR : j < R
    · rw [if_pos hjR]; exact h1 j hjR
    · rw [if_neg hjR, if_pos hj, List.getElem?_drop]
      obtain ⟨e1, e2⟩ := div_mod_of_range D k (so + j) (sok + (j - R)) (by omega) (by omega)
      rw [e1, e2, hd]
  · intro j hj
    rw [memcpy_getElem? db _ R (E - sok) j (by omega) hsrc, if_neg (by omega),
      if_neg (by omega)]
    exact h2 j (by omega)

/-- The loop of `csf_read` on a file of stored pages whose pages from the start page `sp` on
are full up to the last one: it delivers the `min (n + so, T) - so` bytes the file holds from
the seek pointer on (`T` bytes from the start of page `sp`), at most `n`. -/
theorem csf_read_loop_disk {env : Env} (hc : CipherOK env) {c : Codec} (hv : c.Valid env)
    {N : Nat} {pg : Nat → List Nat} (hN : N * c.page_sz < 2147483648)
    (hfr : ∀ p, env.read_fails p = false) (w0 : World) (hdisk : Disk env c w0.bytes N pg)
    (db0 : List Nat) (a : Int) (sp so n M ll T : Nat) (P pcEOF : Int)
    (hM : M = N - sp) (hspN : sp ≤ N)
    (hll : 0 < M → ll = (pg (N - 1)).length)
    (hT : T = if M = 0 then 0 else (M - 1) * c.data_sz + ll)
    (hdense : ∀ p, sp ≤ p → p + 1 < N → (pg p).length = c.data_sz)
    (hso : so < c.data_sz) (hfit : n + so < 2147483648) (hn : n ≤ db0.length)
    (ha0 : 0 ≤ a) (ha1 : a + n < 9223372036854775808)
    (hP : ∀ k : Nat, (k : Int) < P ↔ k * c.data_sz < n + so) :
    ∀ (fuel k : Nat) (ctx : CSF_CTX) (w : World) (db : List Nat) (R : Nat),
      P ≤ (k : Int) + fuel → k ≤ M →
      Shape ctx c → ctx.seek_ptr = a + (R : Int) → w.bytes = w0.bytes →
      R = min (n + so) (if k < M then k * c.data_sz else T) - so →
      db.length = db0.length →
      (∀ j, j < R → db[j]? = (pg (sp + (so + j) / c.data_sz))[(so + j) % c.data_sz]?) →
      (∀ j, R ≤ j → db[j]? = db0[j]?) →
      ∃ ctx1 w1 v1,
        csf_read_loop env (sp : Int) P (N : Int) pcEOF fuel (k : Int) ctx w
            ⟨db, ((if k = 0 then so else 0 : Nat) : Int), ((n - R : Nat) : Int), (R : Int),
              (R : Int)⟩ = (ctx1, w1, v1) ∧
        v1.total_bytes_read = ((min (n + so) T - so : Nat) : Int) ∧
        v1.databuf.length = db0.length ∧
        (∀ j, j < min (n + so) T - so →
          v1.databuf[j]? = (pg (sp + (so + j) / c.data_sz))[(so + j) % c.data_sz]?) ∧
        (∀ j, min (n + so) T - so ≤ j → v1.databuf[j]? = db0[j]?) ∧
        Shape ctx1 c ∧ ctx1.seek_ptr = a + ((min (n + so) T - so : Nat) : Int) ∧
        w1.bytes = w0.bytes := by
  have hD := hv.data_pos
  have hstopped : ∀ (k : Nat) (ctx : CSF_CTX) (w : World) (db : List Nat) (R : Nat),
      (¬ k * c.data_sz < n + so ∨ k = M) →
      Shape ctx c → ctx.seek_ptr = a + (R : Int) → w.bytes = w0.bytes →
      R = min (n + so) (if k < M then k * c.data_sz else T) - so →
      db.length = db0.length →
      (∀ j, j < R → db[j]? = (pg (sp + (so + j) / c.data_sz))[(so + j) % c.data_sz]?) →
      (∀ j, R ≤ j → db[j]? = db0[j]?) →
      (⟨db, ((if k = 0 then so else 0 : Nat) : Int), ((n - R : Nat) : Int), (R : Int),
          (R : Int)⟩ : ReadVars).total_bytes_read = ((min (n + so) T - so : Nat) : Int) ∧
      db.length = db0.length ∧
      (∀ j, j < min (n + so) T - so →
        db[j]? = (pg (sp + (so + j) / c.data_sz))[(so + j) % c.data_sz]?) ∧
      (∀ j, min (n + so) T - so ≤ j → db[j]? = db0[j]?) ∧
      Shape ctx c ∧ ctx.seek_ptr = a + ((min (n + so) T - so : Nat) : Int) ∧
      w.bytes = w0.bytes := by
    intro k ctx w db R hstop hs hsk hw hR hlen h1 h2
    have hRf := read_stop_nat c.data_sz so n M ll k T hT hstop
    rw [hRf] at hR
    rw [← hR]
    exact ⟨rfl, hlen, h1, h2, hs, hsk, hw⟩
  intro fuel
  induction fuel with
  | zero =>
    intro k ctx w db R hfuel hkM hs hsk hw hR hlen h1 h2
    have hno : ¬ k * c.data_sz < n + so := fun h => by
      have := (hP k).2 h
      omega
    exact ⟨ctx, w, _, rfl, hstopped k ctx w db R (Or.inl hno) hs hsk hw hR hlen h1 h2⟩
  | succ fuel ih =>
    intro k ctx w db R hfuel hkM hs hsk hw hR hlen h1 h2
    unfold csf_read_loop
    by_cases hcond : (k : Int) < P ∧ (k : Int) < (N : Int)
    · rw [if_pos hcond]
      have hkP := (hP k).1 hcond.1
      have hdisk1 : Disk env c w.bytes N pg := by rw [hw]; exact hdisk
      have hq : (sp + k) * c.page_sz < 2147483648 := by
        have : (sp + k) * c.page_sz ≤ N * c.page_sz := Nat.mul_le_mul_right _ (by omega)
        omega
      by_cases hk : k < M
      · have hpage : sp + k < N := by omega
        have hd : pg (sp + k) = if sp + k < N then pg (sp + k) else [] := by rw [if_pos hpage]
        have hlen1 : (pg (sp + k)).length = if k + 1 < M then c.data_sz else ll := by
          by_cases hc : k + 1 < M
          · rw [if_pos hc]; exact hdense _ (by omega) (by omega)
          · rw [if_neg hc, hll (by omega)]
            have : sp + k = N - 1 := by omega
            rw [this]
        obtain ⟨hcase, hTA, hA⟩ := read_turn_setup c.data_sz so n M k R T ll hk hkP hso hR hT _ hlen1
        obtain ⟨c1, c2, c3, c4, c5⟩ := read_turn_core so n (k * c.data_sz)
          (pg (sp + k)).length c.data_sz R (if k = 0 then so else 0) (n - R)
          (min (min (n - R + (if k = 0 then so else 0)) c.data_sz) (pg (sp + k)).length)
          (k * c.data_sz + (pg (sp + k)).length) T hso (hdisk.page_le hpage) hkP hcase rfl rfl
          rfl hTA
        obtain ⟨t1, t2⟩ := csf_read_turn_disk hc hs hv w hdisk1 hN hfr sp k pcEOF db
          (if k = 0 then so else 0) (n - R) R (pg (sp + k))
          (min (min (n - R + (if k = 0 then so else 0)) c.data_sz) (pg (sp + k)).length)
          hq hd rfl (by omega) (by omega) (by omega) (by omega)
        by_cases hlt : (if k = 0 then so else 0)
            < min (min (n - R + (if k = 0 then so else 0)) c.data_sz) (pg (sp + k)).length
        · obtain ⟨ctx1, w1, hturn, hs1, hw1, hsk1⟩ := t1 hlt
          obtain ⟨d1, d2, d3⟩ := c4 hlt
          rw [hturn]
          simp only [if_true]
          obtain ⟨b1, b2, b3⟩ := read_turn_databuf pg db db0 (pg (sp + k)) sp so c.data_sz k R
            (if k = 0 then so else 0)
            (min (min (n - R + (if k = 0 then so else 0)) c.data_sz) (pg (sp + k)).length)
            rfl c3 (hdisk.page_le hpage) hlt d3 (by omega) hlen h1 h2
          have hnext := ih (k + 1) ctx1 w1 _ _ (by push_cast; omega) (by omega) hs1
            (by rw [hsk1, hsk]; push_cast; ring) (by rw [hw1, hw])
            (by rw [d1, hA])
            b1 b2 b3
          simpa only [Nat.cast_add, Nat.cast_one, if_neg (Nat.succ_ne_zero k), Nat.cast_zero,
            Nat.sub_sub] using hnext
        · obtain ⟨ctx1, w1, hturn, hs1, hw1, hsk1⟩ := t2 hlt
          have hRf := c5 hlt
          rw [hturn]
          simp only [Bool.false_eq_true, if_false]
          refine ⟨ctx1, w1, _, rfl, ?_⟩
          rw [← hRf]
          exact ⟨rfl, hlen, h1, h2, hs1, by rw [hsk1, hsk], by rw [hw1, hw]⟩
      · have hkeq : k = M := by omega
        have hd : ([] : List Nat) = if sp + k < N then pg (sp + k) else [] := by
          rw [if_neg (by omega)]
        have hRn : R ≤ n := by
          rw [if_neg hk] at hR
          omega
        obtain ⟨-, t2⟩ := csf_read_turn_disk hc hs hv w hdisk1 hN hfr sp k pcEOF db
          (if k = 0 then so else 0) (n - R) R []
          (min (min (n - R + (if k = 0 then so else 0)) c.data_sz) ([] : List Nat).length)
          hq hd rfl (by omega) (by split <;> omega) (by omega) (by omega)
        obtain ⟨ctx1, w1, hturn, hs1, hw1, hsk1⟩ := t2 (by simp)
        have hRf := read_stop_nat c.data_sz so n M ll k T hT (Or.inr hkeq)
        rw [hRf] at hR
        rw [hturn]
        simp only [Bool.false_eq_true, if_false]
        refine ⟨ctx1, w1, _, rfl, ?_⟩
        rw [← hR]
        exact ⟨rfl, hlen, h1, h2, hs1, by rw [hsk1, hsk], by rw [hw1, hw]⟩
    · rw [if_neg hcond]
      have hstop : ¬ k * c.data_sz < n + so ∨ k = M := by
        by_cases h : k * c.data_sz < n + so
        · right
          have := (hP k).2 h
          omega
        · exact Or.inl h
      exact ⟨ctx, w, _, rfl, hstopped k ctx w db R hstop hs hsk hw hR hlen h1 h2⟩

/-- The function `csf_read` on a file of `N` stored pages whose pages from the start page on
are full up to the last one, within `int` sizes and without a failing `read`: it returns the
number of bytes the file holds from the seek pointer on, at most `n`, delivers these bytes to
the start of the caller's buffer, leaves the rest of the buffer and the file alone and
advances the seek pointer by the number returned. -/
theorem csf_read_disk {env : Env} (hc : CipherOK env) {ctx : CSF_CTX} {c : Codec}
    (hs : Shape ctx c) (hv : c.Valid env) (w : World) {N : Nat} {pg : Nat → List Nat}
    (hdisk : Disk env c w.bytes N pg) (hN : N * c.page_sz < 2147483648)
    (hfr : ∀ p, env.read_fails p = false) (a n : Nat) (hseek : ctx.seek_ptr = (a : Int))
    (hfit : a + n < 2147483648) (db0 : List Nat) (hn : n ≤ db0.length)
    (hspN : a / c.data_sz ≤ N)
    (hdense : ∀ p, a / c.data_sz ≤ p → p + 1 < N → (pg p).length = c.data_sz)
    (T Rf : Nat)
    (hT : T = if N - a / c.data_sz = 0 then 0
      else (N - a / c.data_sz - 1) * c.data_sz + (pg (N - 1)).length)
    (hRf : Rf = min (n + a % c.data_sz) T - a % c.data_sz) :
    (csf_read env ctx w db0 (n : Int)).2.2.2 = (Rf : Int) ∧
    (csf_read env ctx w db0 (n : Int)).2.2.1.length = db0.length ∧
    (∀ j, j < Rf → (csf_read env ctx w db0 (n : Int)).2.2.1[j]?
      = (pg (a / c.data_sz + (a % c.data_sz + j) / c.data_sz))[(a % c.data_sz + j) % c.data_sz]?) ∧
    (∀ j, Rf ≤ j → (csf_read env ctx w db0 (n : Int)).2.2.1[j]? = db0[j]?) ∧
    Shape (csf_read env ctx w db0 (n : Int)).1 c ∧
    (csf_read env ctx w db0 (n : Int)).1.seek_ptr = (a : Int) + (Rf : Int) ∧
    (csf_read env ctx w db0 (n : Int)).2.1.bytes = w.bytes := by
  have hD := hv.data_pos
  have hsm := hv.small
  have hDP := c.data_le_page
  have hml := Nat.mod_lt a hD
  have hmle := Nat.mod_le a c.data_sz
  have hD1 : c.data_sz < 2147483648 := by omega
  have ha1 : a < 2147483648 := by omega
  have hT1 : n + a % c.data_sz < 2147483648 := by omega
  have hnlt : n < 2147483648 := by omega
  have hRfn : Rf < 2147483648 := by omega
  have hP := pages_for_spec c.data_sz (n + a % c.data_sz) hD
  obtain ⟨hsp1, hso1, -⟩ := start_page_nat hs hD hD1 a hseek ha1
  have hpcf := page_count_for_file_disk hs hv w hdisk hN
  have hPm := page_count_for_length_nat hs hD (n + a % c.data_sz)
    ((n + a % c.data_sz + c.data_sz - 1) / c.data_sz) hT1 hP
  have hgoal : csf_read env ctx w db0 (n : Int) =
      ((csf_read_loop env ((a / c.data_sz : Nat) : Int)
          (((n + a % c.data_sz + c.data_sz - 1) / c.data_sz : Nat) : Int) (N : Int)
          (i32 ((N : Int) - ((a / c.data_sz : Nat) : Int)))
          ((n + a % c.data_sz + c.data_sz - 1) / c.data_sz) ((0 : Nat) : Int) ctx w
          ⟨db0, ((if 0 = 0 then a % c.data_sz else 0 : Nat) : Int), ((n - 0 : Nat) : Int),
            ((0 : Nat) : Int), ((0 : Nat) : Int)⟩).1,
       (csf_read_loop env ((a / c.data_sz : Nat) : Int)
          (((n + a % c.data_sz + c.data_sz - 1) / c.data_sz : Nat) : Int) (N : Int)
          (i32 ((N : Int) - ((a / c.data_sz : Nat) : Int)))
          ((n + a % c.data_sz + c.data_sz - 1) / c.data_sz) ((0 : Nat) : Int) ctx w
          ⟨db0, ((if 0 = 0 then a % c.data_sz else 0 : Nat) : Int), ((n - 0 : Nat) : Int),
            ((0 : Nat) : Int), ((0 : Nat) : Int)⟩).2.1,
       (csf_read_loop env ((a / c.data_sz : Nat) : Int)
          (((n + a % c.data_sz + c.data_sz - 1) / c.data_sz : Nat) : Int) (N : Int)
          (i32 ((N : Int) - ((a / c.data_sz : Nat) : Int)))
          ((n + a % c.data_sz + c.data_sz - 1) / c.data_sz) ((0 : Nat) : Int) ctx w
          ⟨db0, ((if 0 = 0 then a % c.data_sz else 0 : Nat) : Int), ((n - 0 : Nat) : Int),
            ((0 : Nat) : Int), ((0 : Nat) : Int)⟩).2.2.databuf,
       u64 (csf_read_loop env ((a / c.data_sz : Nat) : Int)
          (((n + a % c.data_sz + c.data_sz - 1) / c.data_sz : Nat) : Int) (N : Int)
          (i32 ((N : Int) - ((a / c.data_sz : Nat) : Int)))
          ((n + a % c.data_sz + c.data_sz - 1) / c.data_sz) ((0 : Nat) : Int) ctx w
          ⟨db0, ((if 0 = 0 then a % c.data_sz else 0 : Nat) : Int), ((n - 0 : Nat) : Int),
            ((0 : Nat) : Int), ((0 : Nat) : Int)⟩).2.2.total_bytes_read) := by
    have hT : i32 ((n : Int) + ((a % c.data_sz : Nat) : Int))
        = ((n + a % c.data_sz : Nat) : Int) := by
      rw [← Nat.cast_add]; exact i32_nat hT1
    have hin : i32 (n : Int) = (n : Int) := i32_nat hnlt
    have hi0 : ¬ ((0 : Int) < 0) := by decide
    unfold csf_read
    simp only [hsp1, hso1, hpcf, hT, hPm, hin, csf_read_header, ite_self, Int.toNat_ofNat,
      if_neg hi0, if_true, Nat.sub_zero, Nat.cast_zero]
  obtain ⟨ctx1, w1, v1, hloop, r1, r2, r3, r4, r5, r6, r7⟩ :=
    csf_read_loop_disk hc hv hN hfr w hdisk db0 (a : Int) (a / c.data_sz) (a % c.data_sz) n
      (N - a / c.data_sz) (pg (N - 1)).length T
      (((n + a % c.data_sz + c.data_sz - 1) / c.data_sz : Nat) : Int)
      (i32 ((N : Int) - ((a / c.data_sz : Nat) : Int))) rfl hspN (fun _ => rfl) hT hdense hml
      hT1 hn (by omega) (by omega) (fun k => by rw [Nat.cast_lt]; exact hP k)
      ((n + a % c.data_sz + c.data_sz - 1) / c.data_sz) 0 ctx w db0 0 (by simp)
      (Nat.zero_le _) hs (by rw [hseek]; simp) rfl
      (by
        by_cases hM0 : N - a / c.data_sz = 0
        · rw [if_neg (by omega), hT, if_pos hM0]; simp
        · rw [if_pos (by omega), Nat.zero_mul]; omega)
      rfl (fun j hj => absurd hj (Nat.not_lt_zero j)) (fun j _ => rfl)
  rw [hgoal, hloop]
  rw [← hRf] at r1 r3 r4 r6
  refine ⟨?_, r2, r3, r4, r5, r6, r7⟩
  show u64 v1.total_bytes_read = _
  rw [r1]
  exact u64_nat hRfn

theorem pageChunk_length (D : Nat) (C : List Nat) (i : Nat) :
    (pageChunk D C i).length = min D (C.length - i * D) := by
  unfold pageChunk
  rw [List.length_take, List.length_drop]

theorem pageChunk_getElem? (D : Nat) (C : List Nat) (i r : Nat) (hr : r < D) :
    (pageChunk D C i)[r]? = C[i * D + r]? := by
  unfold pageChunk
  rw [List.getElem?_take_of_lt hr, List.getElem?_drop]

theorem pageChunk_full (D : Nat) (hD : 0 < D) (C : List Nat) (p : Nat)
    (hp : p + 1 < (C.length + D - 1) / D) : (pageChunk D C p).length = D := by
  rw [pageChunk_length]
  have := (pages_for_spec D C.length hD (p + 1)).1 hp
  have e : (p + 1) * D = p * D + D := by ring
  omega

theorem pageChunk_last (D : Nat) (hD : 0 < D) (C : List Nat)
    (hN : 0 < (C.length + D - 1) / D) :
    ((C.length + D - 1) / D - 1) * D + (pageChunk D C ((C.length + D - 1) / D - 1)).length
      = C.length := by
  rw [pageChunk_length]
  have h1 := (pages_for_spec D C.length hD ((C.length + D - 1) / D - 1)).1 (by omega)
  have h2 : ¬ ((C.length + D - 1) / D) * D < C.length := fun h =>
    absurd ((pages_for_spec D C.length hD _).2 h) (Nat.lt_irrefl _)
  have e : ((C.length + D - 1) / D) * D = ((C.length + D - 1) / D - 1) * D + D := by
    have : (C.length + D - 1) / D = ((C.length + D - 1) / D - 1) + 1 := by omega
    nth_rewrite 1 [this]
    ring
  generalize ((C.length + D - 1) / D - 1) * D = x at *
  generalize ((C.length + D - 1) / D) * D = y at *
  omega

theorem Stored.of_nil (env : Env) (c : Codec) (hD : 0 < c.data_sz) : Stored env c [] [] := by
  unfold Stored
  have : (([] : List Nat).length + c.data_sz - 1) / c.data_sz = 0 := by
    rw [List.length_nil, Nat.zero_add]
    exact Nat.div_eq_of_lt (by omega)
  rw [this]
  exact Disk.empty env c _

theorem stored_read_nat (D a n : Nat) (hD : 0 < D) (C : List Nat) (ha : a ≤ C.length)
    (T : Nat)
    (hT : T = if (C.length + D - 1) / D - a / D = 0 then 0
      else ((C.length + D - 1) / D - a / D - 1) * D
        + (pageChunk D C ((C.length + D - 1) / D - 1)).length) :
    a / D ≤ (C.length + D - 1) / D ∧ min (n + a % D) T - a % D = min n (C.length - a) := by
  have hdm := Nat.div_add_mod a D
  have hml := Nat.mod_lt a hD
  have e0 : D * (a / D) = a / D * D := Nat.mul_comm _ _
  have hle : a / D ≤ (C.length + D - 1) / D := by
    by_contra h
    have h1 : ¬ ((C.length + D - 1) / D) * D < C.length := fun h =>
      absurd ((pages_for_spec D C.length hD _).2 h) (Nat.lt_irrefl _)
    have h2 : ((C.length + D - 1) / D + 1) * D ≤ a / D * D := Nat.mul_le_mul_right D (by omega)
    have e : ((C.length + D - 1) / D + 1) * D = ((C.length + D - 1) / D) * D + D := by ring
    generalize ((C.length + D - 1) / D) * D = y at *
    generalize ((C.length + D - 1) / D + 1) * D = z at *
    generalize a / D * D = x at *
    omega
  refine ⟨hle, ?_⟩
  by_cases h0 : (C.length + D - 1) / D - a / D = 0
  · rw [if_pos h0] at hT
    have heq : a / D = (C.length + D - 1) / D := by omega
    have h1 : ¬ ((C.length + D - 1) / D) * D < C.length := fun h =>
      absurd ((pages_for_spec D C.length hD _).2 h) (Nat.lt_irrefl _)
    rw [← heq] at h1
    generalize a / D * D = x at *
    omega
  · rw [if_neg h0] at hT
    have hlast := pageChunk_last D hD C
      (Nat.pos_of_ne_zero (fun h => h0 (by rw [h, Nat.zero_sub])))
    have e1 : ((C.length + D - 1) / D - a / D - 1) * D
        = ((C.length + D - 1) / D - 1) * D - a / D * D := by
      have : (C.length + D - 1) / D - a / D - 1 = (C.length + D - 1) / D - 1 - a / D := by omega
      rw [this, Nat.sub_mul]
    have e2 : a / D * D ≤ ((C.length + D - 1) / D - 1) * D := Nat.mul_le_mul_right D (by omega)
    generalize ((C.length + D - 1) / D - a / D - 1) * D = u at *
    generalize ((C.length + D - 1) / D - 1) * D = v at *
    generalize (pageChunk D C ((C.length + D - 1) / D - 1)).length = l at *
    generalize a / D * D = x at *
    omega

theorem stored_read_index (D a j : Nat) :
    (a / D + (a % D + j) / D) * D + (a % D + j) % D = a + j := by
  have h1 := Nat.div_add_mod a D
  have h2 := Nat.div_add_mod (a % D + j) D
  have e : (a / D + (a % D + j) / D) * D = D * (a / D) + D * ((a % D + j) / D) := by ring
  omega

/-- The function `csf_read` on a file that stores the byte string `C`, with the seek pointer
`a` inside or at the end of it: it returns `min (n, len C - a)`, delivers the bytes
`[a, a + r)` of `C` to the start of the caller's buffer and advances the seek pointer. -/
theorem csf_read_stored {env : Env} (hc : CipherOK env) {ctx : CSF_CTX} {c : Codec}
    (hs : Shape ctx c) (hv : c.Valid env) (w : World) (C : List Nat)
    (hst : Stored env c w.bytes C)
    (hN : (C.length + c.data_sz - 1) / c.data_sz * c.page_sz < 2147483648)
    (hfr : ∀ p, env.read_fails p = false) (a n : Nat) (hseek : ctx.seek_ptr = (a : Int))
    (ha : a ≤ C.length) (hfit : a + n < 2147483648) (db0 : List Nat) (hn : n ≤ db0.length) :
    (csf_read env ctx w db0 (n : Int)).2.2.2 = ((min n (C.length - a) : Nat) : Int) ∧
    (csf_read env ctx w db0 (n : Int)).2.2.1
      = (C.drop a).take (min n (C.length - a)) ++ db0.drop (min n (C.length - a)) ∧
    Shape (csf_read env ctx w db0 (n : Int)).1 c ∧
    (csf_read env ctx w db0 (n : Int)).1.seek_ptr
      = (a : Int) + ((min n (C.length - a) : Nat) : Int) ∧
    (csf_read env ctx w db0 (n : Int)).2.1.bytes = w.bytes := by
  have hD := hv.data_pos
  obtain ⟨hle, hRf⟩ := stored_read_nat c.data_sz a n hD C ha _ rfl
  obtain ⟨r1, r2, r3, r4, r5, r6, r7⟩ := csf_read_disk hc hs hv w hst hN hfr a n hseek hfit db0 hn
    hle (fun p _ hp => pageChunk_full c.data_sz hD C p hp) _ _ rfl rfl
  rw [hRf] at r1 r3 r4 r6
  refine ⟨r1, ?_, r5, r6, r7⟩
  apply List.ext_getElem?
  intro j
  have hmin : min n (C.length - a) ≤ db0.length := by omega
  have htl : ((C.drop a).take (min n (C.length - a))).length = min n (C.length - a) := by
    rw [List.length_take, List.length_drop]; omega
  by_cases hj : j < min n (C.length - a)
  · rw [r3 j hj, List.getElem?_append_left (by rw [htl]; exact hj),
      List.getElem?_take_of_lt hj, List.getElem?_drop,
      pageChunk_getElem? _ _ _ _ (Nat.mod_lt _ hD), stored_read_index c.data_sz a j]
  · rw [r4 j (by omega), List.getElem?_append_right (by rw [htl]; omega), htl,
      List.getElem?_drop]
    congr 1
    omega

theorem written_page_nat (D so n x y a r i tS sok lk Clen : Nat) (hso : so < D)
    (hx : x < n + so) (hcase : (x = 0 ∧ sok = so) ∨ (D ≤ x ∧ sok = 0))
    (ha : a = y + so) (hi : i = y + x + r) (htS : tS = min x (n + so) - so)
    (hlk : lk = min (n + so - x) D - sok) (haC : a ≤ Clen) :
    sok ≤ min D (Clen - (y + x)) ∧ tS + lk ≤ n ∧ sok + lk ≤ D ∧
    (r < D → ((r < sok ↔ i < a) ∧ (r < sok + lk ↔ i < a + n) ∧
      (sok ≤ r → tS + (r - sok) = i - a))) := by
  rcases hcase with ⟨h1, h2⟩ | ⟨h1, h2⟩
  · subst h1 h2
    omega
  · subst h2
    omega

/-- The page `sp + k` after turn `k` of the main loop of `csf_write`, for a write into or at
the end of the stored byte string `C`: the chunk of the overwritten string. -/
theorem written_page_chunk (D : Nat) (C data cb : List Nat) (a n k sp so : Nat)
    (hsp : a = sp * D + so) (hso : so < D) (ha : a ≤ C.length) (hdata : n ≤ data.length)
    (hk : k * D < n + so) :
    pageAfterWrite (pageChunk D C (sp + k)) cb (if k = 0 then so else 0)
        (data.drop (turnStart D so n k))
        (min (n + so - k * D) D - (if k = 0 then so else 0))
      = pageChunk D (C.take a ++ data.take n ++ C.drop (a + n)) (sp + k) := by
  have hcase : (k * D = 0 ∧ (if k = 0 then so else 0) = so) ∨
      (D ≤ k * D ∧ (if k = 0 then so else 0) = 0) := by
    by_cases h0 : k = 0
    · left; subst h0; simp
    · right
      have : 1 * D ≤ k * D := Nat.mul_le_mul_right D (by omega)
      rw [if_neg h0]
      omega
  have e : (sp + k) * D = sp * D + k * D := by ring
  have hnat := fun r => written_page_nat D so n (k * D) (sp * D) a r (sp * D + k * D + r)
    (turnStart D so n k) (if k = 0 then so else 0)
    (min (n + so - k * D) D - (if k = 0 then so else 0)) C.length hso hk hcase hsp rfl rfl rfl ha
  obtain ⟨b1, b2, b3, -⟩ := hnat 0
  have hold : (if k = 0 then so else 0) ≤ (pageChunk D C (sp + k)).length := by
    rw [pageChunk_length, e]; exact b1
  have hsrc : min (n + so - k * D) D - (if k = 0 then so else 0)
      ≤ (data.drop (turnStart D so n k)).length := by
    rw [List.length_drop]; omega
  rw [pageAfterWrite_within _ _ _ _ _ hold hsrc]
  have hmem : ∀ (l : List Nat) (o : Nat) (s : List Nat) (m : Nat),
      l.take o ++ s.take m ++ l.drop (o + m) = memcpy l o s m := fun _ _ _ _ => rfl
  rw [hmem, hmem]
  apply List.ext_getElem?
  intro r
  rw [memcpy_getElem? _ _ _ _ r hold hsrc]
  by_cases hr : r < D
  · obtain ⟨-, -, -, c0⟩ := hnat r
    obtain ⟨c1, c2, c3⟩ := c0 hr
    rw [pageChunk_getElem? _ _ _ _ hr, pageChunk_getElem? _ _ _ _ hr,
      memcpy_getElem? C data a n _ ha hdata, e, List.getElem?_drop]
    by_cases h1 : r < (if k = 0 then so else 0)
    · rw [if_pos h1, if_pos (c1.1 h1)]
    · rw [if_neg h1, if_neg (fun h => h1 (c1.2 h))]
      by_cases h2 : r < (if k = 0 then so else 0)
          + (min (n + so - k * D) D - (if k = 0 then so else 0))
      · rw [if_pos h2, if_pos (c2.1 h2), c3 (by omega)]
      · rw [if_neg h2, if_neg (fun h => h2 (c2.2 h))]
  · have hn1 : (pageChunk D C (sp + k))[r]? = none := by
      apply List.getElem?_eq_none
      rw [pageChunk_length]; omega
    have hn2 : (pageChunk D (memcpy C a data n) (sp + k))[r]? = none := by
      apply List.getElem?_eq_none
      rw [pageChunk_length]; omega
    rw [if_neg (by omega), if_neg (by omega), hn1, hn2]

theorem overwrite_length (C data : List Nat) (a n : Nat) (ha : a ≤ C.length)
    (hn : n ≤ data.length) :
    (C.take a ++ data.take n ++ C.drop (a + n)).length = max C.length (a + n) := by
  simp only [List.length_append, List.length_take, List.length_drop]
  omega

theorem pageChunk_outside (D : Nat) (C data : List Nat) (a n p : Nat) (ha : a ≤ C.length)
    (hn : n ≤ data.length) (h : (p + 1) * D ≤ a ∨ a + n ≤ p * D) :
    pageChunk D (C.take a ++ data.take n ++ C.drop (a + n)) p = pageChunk D C p := by
  have e : (p + 1) * D = p * D + D := by ring
  have hmem : C.take a ++ data.take n ++ C.drop (a + n) = memcpy C a data n := rfl
  rw [hmem]
  apply List.ext_getElem?
  intro r
  by_cases hr : r < D
  · rw [pageChunk_getElem? _ _ _ _ hr, pageChunk_getElem? _ _ _ _ hr,
      memcpy_getElem? C data a n _ ha hn]
    rcases h with h | h
    · rw [if_pos (by omega)]
    · rw [if_neg (by omega), if_neg (by omega)]
  · rw [List.getElem?_eq_none (by rw [pageChunk_length]; omega),
      List.getElem?_eq_none (by rw [pageChunk_length]; omega)]

theorem pageChunk_beyond (D : Nat) (C : List Nat) (p : Nat) (h : C.length ≤ p * D) :
    pageChunk D C p = [] := by
  unfold pageChunk
  rw [List.drop_of_length_le h, List.take_nil]

theorem ceil_div_mono (D x y : Nat) (h : x ≤ y) : (x + D - 1) / D ≤ (y + D - 1) / D :=
  Nat.div_le_div_right (by omega)

theorem ceil_div_max (D x y : Nat) :
    (max x y + D - 1) / D = max ((x + D - 1) / D) ((y + D - 1) / D) := by
  rcases Nat.le_total x y with h | h
  · rw [Nat.max_eq_right h, Nat.max_eq_right (ceil_div_mono D x y h)]
  · rw [Nat.max_eq_left h, Nat.max_eq_left (ceil_div_mono D y x h)]

theorem ceil_div_split (D a n : Nat) (hD : 0 < D) :
    a / D + (n + a % D + D - 1) / D = (a + n + D - 1) / D := by
  have h1 := Nat.div_add_mod a D
  have e : a + n + D - 1 = (n + a % D + D - 1) + D * (a / D) := by omega
  rw [e, Nat.add_mul_div_left _ _ hD, Nat.add_comm]

theorem ceil_div_mul_ge (D x : Nat) (hD : 0 < D) : x ≤ (x + D - 1) / D * D := by
  by_contra h
  exact absurd ((pages_for_spec D x hD _).2 (by omega)) (Nat.lt_irrefl _)

/-- The function `csf_write` on a file that stores the byte string `C`, with the seek pointer
`a` inside or at the end of it, within `int` sizes and without I/O failures: it returns `n`,
advances the seek pointer by `n`, and the file then stores `C` with the bytes `[a, a + n)`
replaced (the string grows when `a + n` lies beyond its end). -/
theorem csf_write_stored {env : Env} (hc : CipherOK env) (hf : NoFaults env)
    {ctx : CSF_CTX} {c : Codec} (hs : Shape ctx c) (hv : c.Valid env) (w : World)
    (C : List Nat) (hst : Stored env c w.bytes C) (data : List Nat) (a n : Nat)
    (hseek : ctx.seek_ptr = (a : Int)) (ha : a ≤ C.length) (hfit : a + n < 2147483648)
    (hdata : n ≤ data.length)
    (hN : (C.length + c.data_sz - 1) / c.data_sz * c.page_sz < 2147483648)
    (hr : (a + n + c.data_sz - 1) / c.data_sz * c.page_sz < 2147483648) :
    (csf_write env ctx w data (n : Int)).2.2 = (n : Int) ∧
    Stored env c (csf_write env ctx w data (n : Int)).2.1.bytes
      (C.take a ++ data.take n ++ C.drop (a + n)) ∧
    Shape (csf_write env ctx w data (n : Int)).1 c ∧
    (csf_write env ctx w data (n : Int)).1.seek_ptr = (a : Int) + (n : Int) := by
  have hD := hv.data_pos
  have hml := Nat.mod_lt a hD
  have hdm := Nat.div_add_mod a c.data_sz
  have hspD : a = a / c.data_sz * c.data_sz + a % c.data_sz := by
    rw [Nat.mul_comm]; omega
  have hP := pages_for_spec c.data_sz (n + a % c.data_sz) hD
  have hsplit := ceil_div_split c.data_sz a n hD
  have hspN := (stored_read_nat c.data_sz a n hD C ha _ rfl).1
  have hnb : ¬ (C.length + c.data_sz - 1) / c.data_sz < a / c.data_sz := by omega
  obtain ⟨pb, sb, cb, w1, hwr, h1, h2, h3, -, h5⟩ :=
    csf_write_disk hc hs hv w hst data a n
      ((n + a % c.data_sz + c.data_sz - 1) / c.data_sz)
      ((n + a % c.data_sz + c.data_sz - 1) / c.data_sz) hseek hfit hdata hP hN
      (by rw [hsplit]; exact hr) hf.1 (le_refl _) (fun q _ _ => hf.2 _)
      (fun h => absurd h (Nat.lt_irrefl _))
  have hts : turnStart c.data_sz (a % c.data_sz) n
      ((n + a % c.data_sz + c.data_sz - 1) / c.data_sz) = n :=
    turnStart_full _ _ _ _ (fun h => absurd ((hP _).2 h) (Nat.lt_irrefl _))
  rw [hts] at hwr
  rw [hwr]
  refine ⟨rfl, ?_, ⟨hs.key, hs.enc, hs.iv, hs.hdr, hs.data, hs.page, h1, h2, h3⟩, rfl⟩
  unfold Stored
  rw [overwrite_length C data a n ha hdata, ceil_div_max, ← hsplit]
  rw [Nat.max_eq_left hspN] at h5
  refine h5.congr ?_
  intro p hp
  have hbl : pagesBeforeLoop c ((C.length + c.data_sz - 1) / c.data_sz)
      (pageChunk c.data_sz C) (a / c.data_sz) (a % c.data_sz) = pageChunk c.data_sz C := by
    unfold pagesBeforeLoop; rw [if_neg hnb]
  rw [hbl]
  unfold pagesAfterWrite
  by_cases hin : a / c.data_sz ≤ p ∧
      p < a / c.data_sz + (n + a % c.data_sz + c.data_sz - 1) / c.data_sz
  · rw [if_pos hin]
    obtain ⟨k, rfl⟩ : ∃ k, p = a / c.data_sz + k := ⟨p - a / c.data_sz, by omega⟩
    have hk := (hP k).1 (by omega)
    have hk0 : (a / c.data_sz + k = a / c.data_sz) ↔ k = 0 := by omega
    have hold : (if a / c.data_sz + k < (C.length + c.data_sz - 1) / c.data_sz
        then pageChunk c.data_sz C (a / c.data_sz + k) else [])
        = pageChunk c.data_sz C (a / c.data_sz + k) := by
      split
      · rfl
      · rename_i hge
        symm
        apply pageChunk_beyond
        have h6 := ceil_div_mul_ge c.data_sz C.length hD
        have h7 : (C.length + c.data_sz - 1) / c.data_sz * c.data_sz
            ≤ (a / c.data_sz + k) * c.data_sz := Nat.mul_le_mul_right _ (by omega)
        omega
    simp only [hk0, Nat.add_sub_cancel_left, hold]
    rw [written_page_chunk c.data_sz C data _ a n k (a / c.data_sz) (a % c.data_sz) hspD hml ha
      hdata hk]
  · rw [if_neg hin]
    apply pageChunk_outside c.data_sz C data a n p ha hdata
    by_cases hlt : p < a / c.data_sz
    · left
      have : (p + 1) * c.data_sz ≤ a / c.data_sz * c.data_sz := Nat.mul_le_mul_right _ hlt
      omega
    · right
      have hge : a / c.data_sz + (n + a % c.data_sz + c.data_sz - 1) / c.data_sz ≤ p := by
        omega
      have h6 := ceil_div_mul_ge c.data_sz (a + n) hD
      rw [← hsplit] at h6
      have h7 : (a / c.data_sz + (n + a % c.data_sz + c.data_sz - 1) / c.data_sz) * c.data_sz
          ≤ p * c.data_sz := Nat.mul_le_mul_right _ hge
      omega

/-- C1 (as stated, refuted): for a byte string of `2^31` bytes the `int` that holds the byte
count is negative in `csf_write` and in `csf_read`: the write stores nothing and returns 0,
and the read of `2^31` bytes from offset 0 returns 0 instead of the length of the string. -/
theorem round_trip_fails_at_2g :
    (csf_write xorEnv (freshCtx 64) emptyWorld (List.replicate 2147483648 65) 2147483648).2.2
      = 0 ∧
    (csf_write xorEnv (freshCtx 64) emptyWorld (List.replicate 2147483648 65)
      2147483648).2.1.bytes.length = 0 ∧
    (csf_read xorEnv
      (seekTo xorEnv
        ((csf_write xorEnv (freshCtx 64) emptyWorld (List.replicate 2147483648 65)
            2147483648).1,
         (csf_write xorEnv (freshCtx 64) emptyWorld (List.replicate 2147483648 65)
            2147483648).2.1) 0).1
      (seekTo xorEnv
        ((csf_write xorEnv (freshCtx 64) emptyWorld (List.replicate 2147483648 65)
            2147483648).1,
         (csf_write xorEnv (freshCtx 64) emptyWorld (List.replicate 2147483648 65)
            2147483648).2.1) 0).2
      (List.replicate 2147483648 0) 2147483648).2.2.2 = 0 := by
  decide!

/-- The system after `csf_write(s)` on a file that stores `C` and a following
`csf_seek(off, SEEK_SET)`. -/
theorem write_then_seek {env : Env} (hc : CipherOK env) (hf : NoFaults env)
    (sys : Sys) {c : Codec} (hs : Shape sys.1 c) (hv : c.Valid env)
    (C : List Nat) (hst : Stored env c sys.2.bytes C) (s : List Nat) (a : Nat)
    (hseek : sys.1.seek_ptr = (a : Int)) (ha : a ≤ C.length) (hfit : a + s.length < 2147483648)
    (hN : (C.length + c.data_sz - 1) / c.data_sz * c.page_sz < 2147483648)
    (hr : (a + s.length + c.data_sz - 1) / c.data_sz * c.page_sz < 2147483648) (off : Int) :
    (writeAll env sys s).2 = (s.length : Int) ∧
    Stored env c (seekTo env (writeAll env sys s).1 off).2.bytes
      (C.take a ++ s ++ C.drop (a + s.length)) ∧
    Shape (seekTo env (writeAll env sys s).1 off).1 c ∧
    (seekTo env (writeAll env sys s).1 off).1.seek_ptr = off := by
  obtain ⟨r1, r2, r3, -⟩ := csf_write_stored hc hf hs hv sys.2 C hst s a s.length hseek ha hfit
    (le_refl _) hN hr
  rw [List.take_length] at r2
  exact ⟨r1, r2, r3.with_seek_ptr off, rfl⟩

/-- The value of `csf_file_size` on a file that stores the byte string `C`. -/
theorem csf_file_size_stored {env : Env} (hc : CipherOK env) {ctx : CSF_CTX} {c : Codec}
    (hs : Shape ctx c) (hv : c.Valid env) (w : World) (C : List Nat)
    (hst : Stored env c w.bytes C)
    (hN : (C.length + c.data_sz - 1) / c.data_sz * c.page_sz < 2147483648)
    (hfr : ∀ q, env.read_fails q = false) :
    (csf_file_size env ctx w).2.2 = (C.length : Int) := by
  have hD := hv.data_pos
  rw [csf_file_size_disk hc hs hv w hst hN hfr]
  by_cases h0 : (C.length + c.data_sz - 1) / c.data_sz = 0
  · rw [if_pos h0]
    have := (pages_for_spec c.data_sz C.length hD 0)
    rw [h0, Nat.zero_mul] at this
    have h1 : ¬ 0 < C.length := fun h => absurd (this.2 h) (Nat.lt_irrefl _)
    have h2 : C.length = 0 := by omega
    rw [h2]
  · rw [if_neg h0, pageChunk_last c.data_sz hD C (Nat.pos_of_ne_zero h0)]

/-- C1 (amended): for every byte string `s` of at most `INT_MAX` bytes whose pages end
within `int` offsets and every valid geometry, starting from an empty backing file and a
context with the seek pointer at 0, with no I/O failures, `csf_write(s)` returns `len(s)`, and
after `csf_seek(0, SEEK_SET)` a `csf_read` of `len(s)` bytes returns `len(s)` and fills the
first `len(s)` bytes of the caller's buffer with exactly `s` (the rest of the buffer keeps
its bytes). -/
theorem write_read_round_trip {env : Env} (hc : CipherOK env) (hf : NoFaults env)
    {ctx : CSF_CTX} {c : Codec} (hs : Shape ctx c) (hv : c.Valid env) (w : World)
    (hw : w.bytes = []) (hseek : ctx.seek_ptr = 0) (s : List Nat)
    (hL : s.length < 2147483648)
    (hr : (s.length + c.data_sz - 1) / c.data_sz * c.page_sz < 2147483648)
    (db0 : List Nat) (hdb : s.length ≤ db0.length) :
    (writeAll env (ctx, w) s).2 = (s.length : Int) ∧
    (csf_read env (seekTo env (writeAll env (ctx, w) s).1 0).1
      (seekTo env (writeAll env (ctx, w) s).1 0).2 db0 (s.length : Int)).2.2.2
      = (s.length : Int) ∧
    (csf_read env (seekTo env (writeAll env (ctx, w) s).1 0).1
      (seekTo env (writeAll env (ctx, w) s).1 0).2 db0 (s.length : Int)).2.2.1
      = s ++ db0.drop s.length := by
  have hD := hv.data_pos
  have h0 : Stored env c w.bytes [] := by rw [hw]; exact Stored.of_nil env c hD
  have hN0 : (([] : List Nat).length + c.data_sz - 1) / c.data_sz * c.page_sz < 2147483648 := by
    have : (([] : List Nat).length + c.data_sz - 1) / c.data_sz = 0 := by
      rw [List.length_nil, Nat.zero_add]
      exact Nat.div_eq_of_lt (by omega)
    rw [this]; omega
  obtain ⟨w1, w2, w3, w4⟩ := write_then_seek hc hf (ctx, w) hs hv [] h0 s 0 hseek (Nat.zero_le _)
    (by omega) hN0 (by rw [Nat.zero_add]; exact hr) 0
  have hcontent : ([] : List Nat).take 0 ++ s ++ ([] : List Nat).drop (0 + s.length) = s := by
    simp
  rw [hcontent] at w2
  obtain ⟨r1, r2, -, -, -⟩ := csf_read_stored hc w3 hv _ s w2 hr hf.1 0 s.length w4
    (Nat.zero_le _) (by omega) db0 hdb
  have hmin : min s.length (s.length - 0) = s.length := by omega
  rw [hmin] at r1 r2
  refine ⟨w1, r1, ?_⟩
  rw [r2, List.drop_zero, List.take_length]

theorem write_read_round_trip_witness :
    (writeAll xorEnv (freshCtx 512, emptyWorld) (List.replicate 1000 65)).2
      = ((List.replicate 1000 65).length : Int) ∧
    (csf_read xorEnv
      (seekTo xorEnv (writeAll xorEnv (freshCtx 512, emptyWorld) (List.replicate 1000 65)).1 0).1
      (seekTo xorEnv (writeAll xorEnv (freshCtx 512, emptyWorld) (List.replicate 1000 65)).1 0).2
      (List.replicate 1000 0) ((List.replicate 1000 65).length : Int)).2.2.2
      = ((List.replicate 1000 65).length : Int) ∧
    (csf_read xorEnv
      (seekTo xorEnv (writeAll xorEnv (freshCtx 512, emptyWorld) (List.replicate 1000 65)).1 0).1
      (seekTo xorEnv (writeAll xorEnv (freshCtx 512, emptyWorld) (List.replicate 1000 65)).1 0).2
      (List.replicate 1000 0) ((List.replicate 1000 65).length : Int)).2.2.1
      = List.replicate 1000 65 ++ (List.replicate 1000 0).drop (List.replicate 1000 65).length :=
  write_read_round_trip cipherOK_xorEnv noFaults_xorEnv shape_freshCtx_512 valid_freshCtx_512
    emptyWorld rfl rfl (List.replicate 1000 65) (by simp) (by simp; decide!) (List.replicate 1000 0)
    (by simp)

/-- C5 (as stated, refuted): for a byte string `s` of `2^31` bytes the `csf_write` of `s`
stores nothing (the byte count is negative as an `int`), so that after the overwrite of its
first byte with `"X"` the value of `csf_file_size` is 1, not the length of `s`. -/
theorem overwrite_after_2g_write :
    sizeOf xorEnv
      (writeAll xorEnv
        (seekTo xorEnv
          ((csf_write xorEnv (freshCtx 64) emptyWorld (List.replicate 2147483648 65)
              2147483648).1,
           (csf_write xorEnv (freshCtx 64) emptyWorld (List.replicate 2147483648 65)
              2147483648).2.1) 0) [88]).1 = 1 := by
  decide!

theorem overwrite_page_len (D L a n k : Nat) (hD : 0 < D) (han : a + n ≤ L)
    (hk : k * D < n + a % D) :
    min D (L - (a / D + k) * D)
      = max ((if k = 0 then a % D else 0)
          + (min (n + a % D - k * D) D - (if k = 0 then a % D else 0)))
        (min D (L - (a / D + k) * D)) := by
  have hdm := Nat.div_add_mod a D
  have e0 : D * (a / D) = a / D * D := Nat.mul_comm _ _
  have e : (a / D + k) * D = a / D * D + k * D := by ring
  have hml := Nat.mod_lt a hD
  rw [e]
  by_cases h0 : k = 0
  · subst h0
    simp only [if_true, Nat.zero_mul, Nat.add_zero, Nat.sub_zero]
    generalize a / D * D = y at *
    omega
  · have : 1 * D ≤ k * D := Nat.mul_le_mul_right D (by omega)
    simp only [if_neg h0, Nat.zero_add, Nat.sub_zero]
    generalize a / D * D = y at *
    generalize k * D = x at *
    omega

/-- C5 (amended): for every byte string `s` of length `L <= INT_MAX` (pages within `int`
offsets) written at offset 0 to an empty file, every offset `a` and every `x` with
`a + len(x) <= L`, with no I/O failures, after `csf_seek(a, SEEK_SET)` and `csf_write(x)`
the value of `csf_file_size` is still `L`, reading `L` bytes from offset 0 yields `s` with
the bytes `[a, a + len(x))` replaced by `x` and all other bytes unchanged, and each rewritten
page `a / data_sz + k` decodes with a length that is the maximum of the end of the copy in
the page (`start_intra + to_copy`) and of the length the page had. -/
theorem overwrite_preserves_rest {env : Env} (hc : CipherOK env) (hf : NoFaults env)
    (sys : Sys) {c : Codec} (hs : Shape sys.1 c) (hv : c.Valid env)
    (hw : sys.2.bytes = []) (hseek : sys.1.seek_ptr = 0) (s x : List Nat) (a : Nat)
    (hax : a + x.length ≤ s.length) (hL : s.length < 2147483648)
    (hr : (s.length + c.data_sz - 1) / c.data_sz * c.page_sz < 2147483648)
    (db0 : List Nat) (hdb : s.length ≤ db0.length) :
    sizeOf env (writeAll env (seekTo env (writeAll env sys s).1 (a : Int)) x).1
      = (s.length : Int) ∧
    (csf_read env
      (seekTo env (writeAll env (seekTo env (writeAll env sys s).1 (a : Int)) x).1 0).1
      (seekTo env (writeAll env (seekTo env (writeAll env sys s).1 (a : Int)) x).1 0).2
      db0 (s.length : Int)).2.2.2 = (s.length : Int) ∧
    (csf_read env
      (seekTo env (writeAll env (seekTo env (writeAll env sys s).1 (a : Int)) x).1 0).1
      (seekTo env (writeAll env (seekTo env (writeAll env sys s).1 (a : Int)) x).1 0).2
      db0 (s.length : Int)).2.2.1
      = s.take a ++ x ++ s.drop (a + x.length) ++ db0.drop s.length ∧
    (∀ k, k * c.data_sz < x.length + a % c.data_sz →
      Decodes env (writeAll env (seekTo env (writeAll env sys s).1 (a : Int)) x).1.1
        (writeAll env (seekTo env (writeAll env sys s).1 (a : Int)) x).1.2
        (a / c.data_sz + k)
        (pageChunk c.data_sz (s.take a ++ x ++ s.drop (a + x.length)) (a / c.data_sz + k)) ∧
      (pageChunk c.data_sz (s.take a ++ x ++ s.drop (a + x.length)) (a / c.data_sz + k)).length
        = max ((if k = 0 then a % c.data_sz else 0)
            + (min (x.length + a % c.data_sz - k * c.data_sz) c.data_sz
              - (if k = 0 then a % c.data_sz else 0)))
          (pageChunk c.data_sz s (a / c.data_sz + k)).length) := by
  have hD := hv.data_pos
  have h0 : Stored env c sys.2.bytes [] := by rw [hw]; exact Stored.of_nil env c hD
  have hN0 : (([] : List Nat).length + c.data_sz - 1) / c.data_sz * c.page_sz < 2147483648 := by
    have : (([] : List Nat).length + c.data_sz - 1) / c.data_sz = 0 := by
      rw [List.length_nil, Nat.zero_add]
      exact Nat.div_eq_of_lt (by omega)
    rw [this]; omega
  obtain ⟨-, w2, w3, w4⟩ := write_then_seek hc hf sys hs hv [] h0 s 0 hseek (Nat.zero_le _)
    (by omega) hN0 (by rw [Nat.zero_add]; exact hr) (a : Int)
  have hcontent : ([] : List Nat).take 0 ++ s ++ ([] : List Nat).drop (0 + s.length) = s := by
    simp
  rw [hcontent] at w2
  have hmono : (a + x.length + c.data_sz - 1) / c.data_sz * c.page_sz
      ≤ (s.length + c.data_sz - 1) / c.data_sz * c.page_sz :=
    Nat.mul_le_mul_right _ (ceil_div_mono c.data_sz _ _ hax)
  have hlen : (s.take a ++ x ++ s.drop (a + x.length)).length = s.length := by
    have := overwrite_length s x a x.length (by omega) (le_refl _)
    rw [List.take_length] at this
    rw [this]; omega
  obtain ⟨-, x2, x3, -⟩ := csf_write_stored hc hf w3 hv _ s w2 x a x.length w4 (by omega)
    (by omega) (le_refl _) hr (by omega)
  rw [List.take_length] at x2
  have hr2 : ((s.take a ++ x ++ s.drop (a + x.length)).length + c.data_sz - 1) / c.data_sz
      * c.page_sz < 2147483648 := by rw [hlen]; exact hr
  have hsize := csf_file_size_stored hc x3 hv _ _ x2 hr2 hf.1
  rw [hlen] at hsize
  obtain ⟨r1, r2, -, -, -⟩ := csf_read_stored hc (x3.with_seek_ptr 0) hv _ _ x2 hr2 hf.1 0
    s.length rfl (Nat.zero_le _) (by omega) db0 hdb
  rw [hlen] at r1 r2
  have hmin : min s.length (s.length - 0) = s.length := by omega
  rw [hmin] at r1 r2
  refine ⟨hsize, r1, ?_, ?_⟩
  · refine Eq.trans r2 ?_
    rw [List.drop_zero, List.take_of_length_le (by rw [hlen])]
  · intro k hk
    have hpage : a / c.data_sz + k < (s.length + c.data_sz - 1) / c.data_sz := by
      apply (pages_for_spec c.data_sz s.length hD _).2
      have hdm := Nat.div_add_mod a c.data_sz
      have e0 : c.data_sz * (a / c.data_sz) = a / c.data_sz * c.data_sz := Nat.mul_comm _ _
      have e : (a / c.data_sz + k) * c.data_sz
          = a / c.data_sz * c.data_sz + k * c.data_sz := by ring
      rw [e]
      generalize a / c.data_sz * c.data_sz = y at *
      generalize k * c.data_sz = z at *
      omega
    unfold Stored at x2
    rw [hlen] at x2
    refine ⟨Disk.decodes_pages hc x3 hv _ x2 hr hf.1 hpage, ?_⟩
    rw [pageChunk_length, pageChunk_length, hlen]
    exact overwrite_page_len c.data_sz s.length a x.length k hD hax hk

theorem overwrite_preserves_rest_witness :
    sizeOf xorEnv (writeAll xorEnv (seekTo xorEnv (writeAll xorEnv (freshSys 512) [65, 66, 67, 68, 69]).1 ((2 : Nat) : Int)) [120, 121]).1
      = (([65, 66, 67, 68, 69] : List Nat).length : Int) ∧
    (csf_read xorEnv
      (seekTo xorEnv (writeAll xorEnv (seekTo xorEnv (writeAll xorEnv (freshSys 512) [65, 66, 67, 68, 69]).1 ((2 : Nat) : Int)) [120, 121]).1 0).1
      (seekTo xorEnv (writeAll xorEnv (seekTo xorEnv (writeAll xorEnv (freshSys 512) [65, 66, 67, 68, 69]).1 ((2 : Nat) : Int)) [120, 121]).1 0).2
      (List.replicate 5 0) (([65, 66, 67, 68, 69] : List Nat).length : Int)).2.2.2
      = (([65, 66, 67, 68, 69] : List Nat).length : Int) ∧
    (csf_read xorEnv
      (seekTo xorEnv (writeAll xorEnv (seekTo xorEnv (writeAll xorEnv (freshSys 512) [65, 66, 67, 68, 69]).1 ((2 : Nat) : Int)) [120, 121]).1 0).1
      (seekTo xorEnv (writeAll xorEnv (seekTo xorEnv (writeAll xorEnv (freshSys 512) [65, 66, 67, 68, 69]).1 ((2 : Nat) : Int)) [120, 121]).1 0).2
      (List.replicate 5 0) (([65, 66, 67, 68, 69] : List Nat).length : Int)).2.2.1
      = [65, 66, 67, 68, 69].take 2 ++ [120, 121]
          ++ [65, 66, 67, 68, 69].drop (2 + [120, 121].length)
          ++ (List.replicate 5 0).drop ([65, 66, 67, 68, 69] : List Nat).length ∧
    (∀ k, k * (codecOf (freshCtx 512)).data_sz < ([120, 121] : List Nat).length + 2 % (codecOf (freshCtx 512)).data_sz →
      Decodes xorEnv (writeAll xorEnv (seekTo xorEnv (writeAll xorEnv (freshSys 512) [65, 66, 67, 68, 69]).1 ((2 : Nat) : Int)) [120, 121]).1.1
        (writeAll xorEnv (seekTo xorEnv (writeAll xorEnv (freshSys 512) [65, 66, 67, 68, 69]).1 ((2 : Nat) : Int)) [120, 121]).1.2
        (2 / (codecOf (freshCtx 512)).data_sz + k)
        (pageChunk (codecOf (freshCtx 512)).data_sz
          ([65, 66, 67, 68, 69].take 2 ++ [120, 121] ++ [65, 66, 67, 68, 69].drop (2 + [120, 121].length)) (2 / (codecOf (freshCtx 512)).data_sz + k)) ∧
      (pageChunk (codecOf (freshCtx 512)).data_sz
          ([65, 66, 67, 68, 69].take 2 ++ [120, 121] ++ [65, 66, 67, 68, 69].drop (2 + [120, 121].length)) (2 / (codecOf (freshCtx 512)).data_sz + k)).length
        = max ((if k = 0 then 2 % (codecOf (freshCtx 512)).data_sz else 0)
            + (min (([120, 121] : List Nat).length + 2 % (codecOf (freshCtx 512)).data_sz - k * (codecOf (freshCtx 512)).data_sz) (codecOf (freshCtx 512)).data_sz
              - (if k = 0 then 2 % (codecOf (freshCtx 512)).data_sz else 0)))
          (pageChunk (codecOf (freshCtx 512)).data_sz [65, 66, 67, 68, 69] (2 / (codecOf (freshCtx 512)).data_sz + k)).length) :=
  overwrite_preserves_rest cipherOK_xorEnv noFaults_xorEnv (freshSys 512) shape_freshCtx_512
    valid_freshCtx_512 rfl rfl [65, 66, 67, 68, 69] [120, 121] 2 (by decide) (by decide)
    (by decide!) (List.replicate 5 0) (by decide)

/-- C2 (as stated, refuted): after the one-byte string `"A"` is written and the seek pointer
is set to 0, a read request of `2^31` bytes returns 0 instead of `min (2^31, 1) = 1`: the
request size is kept in an `int`. -/
theorem read_request_2g_returns_nothing :
    (csf_read xorEnv (seekTo xorEnv (writeAll xorEnv (freshSys 64) [65]).1 0).1
      (seekTo xorEnv (writeAll xorEnv (freshSys 64) [65]).1 0).2
      (List.replicate 2147483648 0) 2147483648).2.2.2 = 0 := by
  decide!

theorem writeSeq_stored {env : Env} (hc : CipherOK env) (hf : NoFaults env) {c : Codec}
    (hv : c.Valid env) (B : Nat) (hB : (B + c.data_sz - 1) / c.data_sz * c.page_sz < 2147483648)
    (hB1 : B < 2147483648) :
    ∀ (chunks : List (List Nat)) (sys : Sys) (C : List Nat),
      Shape sys.1 c → Stored env c sys.2.bytes C → sys.1.seek_ptr = (C.length : Int) →
      C.length + chunks.flatten.length ≤ B →
      Shape (writeSeq env sys chunks).1 c ∧
      Stored env c (writeSeq env sys chunks).2.bytes (C ++ chunks.flatten) ∧
      (writeSeq env sys chunks).1.seek_ptr = ((C ++ chunks.flatten).length : Int)
  | [], sys, C, hs, hst, hseek, _ => by
    simp only [writeSeq, List.foldl_nil, List.flatten_nil, List.append_nil]
    exact ⟨hs, hst, hseek⟩
  | ch :: rest, sys, C, hs, hst, hseek, hlen => by
    rw [List.flatten_cons, List.length_append] at hlen
    have hm1 := Nat.mul_le_mul_right c.page_sz
      (ceil_div_mono c.data_sz C.length B (by omega))
    have hm2 := Nat.mul_le_mul_right c.page_sz
      (ceil_div_mono c.data_sz (C.length + ch.length) B (by omega))
    obtain ⟨-, r2, r3, r4⟩ := csf_write_stored hc hf hs hv sys.2 C hst ch C.length ch.length
      hseek (le_refl _) (by omega) (le_refl _) (by omega) (by omega)
    have hC : C.take C.length ++ ch.take ch.length ++ C.drop (C.length + ch.length)
        = C ++ ch := by
      rw [List.take_length, List.take_length, List.drop_of_length_le (by omega),
        List.append_nil]
    rw [hC] at r2
    have ih := writeSeq_stored hc hf hv B hB hB1 rest (writeAll env sys ch).1 (C ++ ch) r3 r2
      (by rw [List.length_append]; exact_mod_cast r4)
      (by rw [List.length_append]; omega)
    rw [List.flatten_cons, ← List.append_assoc]
    exact ih

theorem readSeq_stored {env : Env} (hc : CipherOK env) (hfr : ∀ p, env.read_fails p = false)
    {c : Codec} (hv : c.Valid env) (s : List Nat)
    (hN : (s.length + c.data_sz - 1) / c.data_sz * c.page_sz < 2147483648) :
    ∀ (reqs : List Nat) (sys : Sys) (a : Nat),
      Shape sys.1 c → Stored env c sys.2.bytes s → sys.1.seek_ptr = (a : Int) →
      a ≤ s.length → (∀ n, n ∈ reqs → s.length + n < 2147483648) →
      readSeq env sys reqs = readSeqSpec s a reqs
  | [], _, _, _, _, _, _, _ => rfl
  | n :: rest, sys, a, hs, hst, hseek, ha, hreq => by
    have hn := hreq n (List.mem_cons_self _ _)
    obtain ⟨r1, r2, r3, r4, r5⟩ := csf_read_stored hc hs hv sys.2 s hst hN hfr a n hseek ha
      (by omega) (List.replicate n 0) (by rw [List.length_replicate])
    have hih := readSeq_stored hc hfr hv s hN rest (readN env sys n).1
      (a + min n (s.length - a)) r3 (by
        show Stored env c (csf_read env sys.1 sys.2 (List.replicate n 0) (n : Int)).2.1.bytes s
        rw [r5]; exact hst)
      (by
        show (csf_read env sys.1 sys.2 (List.replicate n 0) (n : Int)).1.seek_ptr = _
        rw [r4]; push_cast; rfl)
      (by omega) (fun m hm => hreq m (List.mem_cons_of_mem _ hm))
    have hbuf : (readN env sys n).2.1
        = (s.drop a).take (min n (s.length - a))
          ++ List.replicate (n - min n (s.length - a)) 0 := by
      show (csf_read env sys.1 sys.2 (List.replicate n 0) (n : Int)).2.2.1 = _
      rw [r2, List.drop_replicate]
    have hret : (readN env sys n).2.2 = ((min n (s.length - a) : Nat) : Int) := r1
    show (_ :: readSeq env (readN env sys n).1 rest) = _ :: readSeqSpec s _ rest
    rw [hih, hbuf, hret]

theorem readSeqSpec_flatten (s : List Nat) :
    ∀ (reqs : List Nat) (a : Nat), a ≤ s.length →
      ((readSeqSpec s a reqs).map (fun r => r.1.take r.2.toNat)).flatten
        = (s.drop a).take (min reqs.sum (s.length - a))
  | [], a, _ => by simp [readSeqSpec]
  | n :: rest, a, ha => by
    have ih := readSeqSpec_flatten s rest (a + min n (s.length - a)) (by omega)
    have hl : ((s.drop a).take (min n (s.length - a))).length = min n (s.length - a) := by
      rw [List.length_take, List.length_drop]; omega
    have hsum : min (n + rest.sum) (s.length - a)
        = min n (s.length - a) + min rest.sum (s.length - (a + min n (s.length - a))) := by
      omega
    simp only [readSeqSpec, List.map_cons, List.flatten_cons, Int.toNat_ofNat, List.sum_cons]
    rw [ih, List.take_left' hl, hsum, List.take_add, List.drop_drop]

/-- C2 (amended): for every byte string `s` of at most `INT_MAX` bytes whose pages end
within `int` offsets, every write schedule (chunks whose concatenation is `s`) and every
sequence of read request sizes with `len(s) + request <= INT_MAX`, on an initially empty
file with no I/O failures: after the consecutive `csf_write` calls of the chunks and a seek
to 0, the consecutive `csf_read` calls deliver what `readSeqSpec` says (each read returns
`min (request, bytes remaining)` and the bytes of `s` at its offset), and the concatenation
of everything read is `s`, cut at the sum of the requests. -/
theorem chunked_round_trip {env : Env} (hc : CipherOK env) (hf : NoFaults env)
    (sys : Sys) {c : Codec} (hs : Shape sys.1 c) (hv : c.Valid env)
    (hw : sys.2.bytes = []) (hseek : sys.1.seek_ptr = 0) (chunks : List (List Nat))
    (reqs : List Nat) (hL : chunks.flatten.length < 2147483648)
    (hr : (chunks.flatten.length + c.data_sz - 1) / c.data_sz * c.page_sz < 2147483648)
    (hreq : ∀ n, n ∈ reqs → chunks.flatten.length + n < 2147483648) :
    readSeq env (seekTo env (writeSeq env sys chunks) 0) reqs
      = readSeqSpec chunks.flatten 0 reqs ∧
    ((readSeq env (seekTo env (writeSeq env sys chunks) 0) reqs).map
        (fun r => r.1.take r.2.toNat)).flatten
      = chunks.flatten.take (min reqs.sum chunks.flatten.length) := by
  have hD := hv.data_pos
  have h0 : Stored env c sys.2.bytes [] := by rw [hw]; exact Stored.of_nil env c hD
  obtain ⟨w1, w2, -⟩ := writeSeq_stored hc hf hv chunks.flatten.length hr hL chunks sys [] hs h0
    hseek (by simp)
  rw [List.nil_append] at w2
  have hspec := readSeq_stored hc hf.1 hv chunks.flatten hr reqs
    (seekTo env (writeSeq env sys chunks) 0) 0 (w1.with_seek_ptr 0) w2 rfl (Nat.zero_le _) hreq
  refine ⟨hspec, ?_⟩
  rw [hspec, readSeqSpec_flatten chunks.flatten reqs 0 (Nat.zero_le _), List.drop_zero,
    Nat.sub_zero]

theorem chunked_round_trip_witness :
    readSeq xorEnv
        (seekTo xorEnv (writeSeq xorEnv (freshSys 512) [[104], [101], [108], [108], [111]]) 0)
        [65536, 65536]
      = readSeqSpec ([[104], [101], [108], [108], [111]] : List (List Nat)).flatten 0
          [65536, 65536] ∧
    ((readSeq xorEnv
        (seekTo xorEnv (writeSeq xorEnv (freshSys 512) [[104], [101], [108], [108], [111]]) 0)
        [65536, 65536]).map (fun r => r.1.take r.2.toNat)).flatten
      = ([[104], [101], [108], [108], [111]] : List (List Nat)).flatten.take
          (min ([65536, 65536] : List Nat).sum
            ([[104], [101], [108], [108], [111]] : List (List Nat)).flatten.length) :=
  chunked_round_trip cipherOK_xorEnv noFaults_xorEnv (freshSys 512) shape_freshCtx_512
    valid_freshCtx_512 rfl rfl [[104], [101], [108], [108], [111]] [65536, 65536] (by decide)
    (by decide!) (by decide)

end CSF
